import Mathlib

/-!
# Verification of the seq2seq decoding search engine (`seq2seq/search.py`)

Shallow embedding of the `Searcher` class: `greedy_search` and `beam_search`.

Modelling conventions:
* int32 tensor entries are `ℤ`; float tensor entries are `ℚ` (exact arithmetic);
  the final perplexity `exp(lp) ^ (-1/len)` is a real number (`tfPerplexity`).
* A `[B, S]` int tensor is a `List (List ℤ)` of `B` rows; a `[B, 1]` column
  tensor is squeezed to a flat list.
* The scoring model composed with the row-wise `log_softmax` of
  `search.py:40-41` / `125-126` is an opaque parameter
  `model : List ℤ → List ℤ → List ℚ` mapping one encoder row and one decoder
  prefix row to the vocabulary's log-probabilities; batched calls are the
  row-wise map of this function (the batch rows carry no data dependency on
  each other, per the model architecture).
* `tf.while_loop` is a fuelled loop `tfWhileLoop`; the fuel
  `max_sequence_length.toNat` is provably enough for the condition to be
  false at exit, so the embedding coincides with the unbounded while loop.
-/

namespace Seq2Seq

/-- `tf.shape(t)[1]` for a `[B, S]` tensor represented as a list of rows
(all rows have equal length in every reachable state). -/
def tfShape1 (t : List (List ℤ)) : ℕ := t.headI.length

/-- The comparison used by `tf.math.top_k` on `(index, value)` pairs:
larger values first, ties broken by smaller index. -/
def tfTopKLe (a b : ℕ × ℚ) : Bool :=
  decide (b.2 < a.2) || (decide (a.2 = b.2) && decide (a.1 ≤ b.1))

/-- `tfTopKLe` as a decidable relation, for sorting. -/
def tfTopKRel (a b : ℕ × ℚ) : Prop := tfTopKLe a b = true

instance : DecidableRel tfTopKRel := fun a b => by
  unfold tfTopKRel
  infer_instance

/-- `tf.math.top_k(scores, k)` on one row: the `k` largest entries together
with their indices, sorted by descending value (ties: ascending index). -/
def tfTopK (k : ℕ) (scores : List ℚ) : List (ℕ × ℚ) :=
  (scores.enum.insertionSort tfTopKRel).take k

/-- The values component of `tf.math.top_k`. -/
def tfTopKValues (k : ℕ) (scores : List ℚ) : List ℚ :=
  (tfTopK k scores).map (·.2)

/-- The indices component of `tf.math.top_k` (these are the new token ids). -/
def tfTopKIndices (k : ℕ) (scores : List ℚ) : List ℕ :=
  (tfTopK k scores).map (·.1)

/-- `tf.while_loop(cond, body, state)` with explicit fuel. -/
def tfWhileLoop (cond : σ → Bool) (body : σ → σ) : ℕ → σ → σ
  | 0, s => s
  | n + 1, s => if cond s then tfWhileLoop cond body n (body s) else s

/-- `tf.repeat(t, k, axis=0)`: every row repeated `k` times consecutively. -/
def tfRepeat0 (k : ℕ) (t : List α) : List α :=
  t.flatMap (List.replicate k)

/-- Fuelled worker for `tfChunk` (structural recursion on the fuel, so that
the kernel can evaluate it; the fuel `l.length` is always sufficient). -/
def tfChunkAux (m : ℕ) : ℕ → List α → List (List α)
  | _, [] => []
  | 0, _ :: _ => []
  | fuel + 1, a :: l =>
    if m = 0 then [] else
      (a :: l).take m :: tfChunkAux m fuel ((a :: l).drop m)

/-- `tf.reshape(t, [B, -1])` from a flat list of `B * m` entries:
chunks of size `m`. -/
def tfChunk (m : ℕ) (l : List α) : List (List α) :=
  tfChunkAux m l.length l

/-- The `Searcher` class constructor state (`search.py:7-19`). -/
structure Searcher where
  model : List ℤ → List ℤ → List ℚ
  max_sequence_length : ℤ
  bos_id : ℤ
  eos_id : ℤ
  pad_id : ℤ := 0

/-- The loop state of `greedy_search` (`search.py:30-33`), the `[B,1]`
columns squeezed to flat lists. -/
structure GreedyState where
  decoder_input : List (List ℤ)
  is_ended : List Bool
  log_perplexity : List ℚ
  sequence_lengths : List ℤ
  deriving DecidableEq

/-- `_cond` of `greedy_search` (`search.py:35-36`):
`tf.shape(decoder_input)[1] < max_sequence_length and not tf.reduce_all(is_ended)`. -/
def greedyCond (S : Searcher) (s : GreedyState) : Bool :=
  decide ((tfShape1 s.decoder_input : ℤ) < S.max_sequence_length) &&
    !(s.is_ended.all id)

/-- `_body` of `greedy_search` (`search.py:38-54`), one decoding step. -/
def greedyBody (S : Searcher) (encoder_input : List (List ℤ)) (s : GreedyState) :
    GreedyState :=
  let width : ℕ := tfShape1 s.decoder_input
  -- output = log_softmax(model((encoder_input, decoder_input)), axis=1)
  let output : List (List ℚ) := List.zipWith S.model encoder_input s.decoder_input
  -- log_probs, new_tokens = tf.math.top_k(output)   (k = 1, per row)
  let log_probs : List ℚ := output.map fun row => (tfTopKValues 1 row).headI
  let top_tokens : List ℤ := output.map fun row => ((tfTopKIndices 1 row).headI : ℤ)
  -- log_perplexity = tf.where(is_ended, log_perplexity, log_perplexity + log_probs)
  let log_perplexity : List ℚ :=
    List.zipWith (fun e p => if e.1 then e.2 else e.2 + p)
      (s.is_ended.zip s.log_perplexity) log_probs
  -- new_tokens = tf.where(is_ended, pad_id, new_tokens)
  let new_tokens : List ℤ :=
    List.zipWith (fun e t => if e then S.pad_id else t) s.is_ended top_tokens
  -- is_ended = tf.logical_or(is_ended, new_tokens == eos_id)
  let is_ended : List Bool :=
    List.zipWith (fun e t => e || decide (t = S.eos_id)) s.is_ended new_tokens
  -- sequence_lengths = tf.where(new_tokens == eos_id, width + 1, sequence_lengths)
  let sequence_lengths : List ℤ :=
    List.zipWith (fun t L => if t = S.eos_id then (width : ℤ) + 1 else L)
      new_tokens s.sequence_lengths
  -- decoder_input = tf.concat((decoder_input, new_tokens), axis=1)
  let decoder_input : List (List ℤ) :=
    List.zipWith (fun r t => r ++ [t]) s.decoder_input new_tokens
  { decoder_input, is_ended, log_perplexity, sequence_lengths }

/-- Initial `greedy_search` state (`search.py:29-33`). -/
def greedyInit (S : Searcher) (batch_size : ℕ) : GreedyState where
  decoder_input := List.replicate batch_size [S.bos_id]
  is_ended := List.replicate batch_size false
  log_perplexity := List.replicate batch_size 0
  sequence_lengths := List.replicate batch_size S.max_sequence_length

/-- `greedy_search` (`search.py:21-71`) up to the final perplexity map:
the state after the `tf.while_loop`. -/
def Searcher.greedy_search (S : Searcher) (encoder_input : List (List ℤ)) :
    GreedyState :=
  tfWhileLoop (greedyCond S) (greedyBody S encoder_input)
    S.max_sequence_length.toNat (greedyInit S encoder_input.length)

/-! ## Beam search (`search.py:73-193`) -/

/-- `tf.repeat(t, k, axis=a)`: each entry along the axis repeated `k` times
consecutively (used at axis 0 on rows, `search.py:134/141/150`, and at
axis 1 inside a row, `search.py:136`). -/
def tfRepeatEach (k : ℕ) (t : List α) : List α :=
  t.flatMap (List.replicate k)

/-- `_to_sequence_lengths` (`search.py:103-107`): index of the first `eos`
plus one, or the row's full length when it has no `eos`. -/
def toSequenceLength (eos : ℤ) (row : List ℤ) : ℤ :=
  match row.findIdx? (· == eos) with
  | none => row.length
  | some i => (i : ℤ) + 1

/-- `get_sequnce_lengths` (`search.py:109-113`) on a `[B, k, L]` tensor
(the name keeps the source's spelling). -/
def get_sequnce_lengths (eos : ℤ) (t : List (List (List ℤ))) : List (List ℤ) :=
  t.map (List.map (toSequenceLength eos))

/-- `has_eos` (`search.py:115-116`): per row, whether it contains `eos`. -/
def hasEos (eos : ℤ) (t : List (List ℤ)) : List Bool :=
  t.map fun row => row.any (· == eos)

/-- `tf.reshape(flat, [B, -1])`: rows of `flat.length / B` entries. -/
def tfReshapeRows (B : ℕ) (flat : List α) : List (List α) :=
  tfChunk (flat.length / B) flat

/-- Elementwise binary operation on two `[B, m]` tensors. -/
def zipWith2d (f : α → β → γ) (x : List (List α)) (y : List (List β)) :
    List (List γ) :=
  List.zipWith (List.zipWith f) x y

/-- The loop state of `beam_search` (`search.py:99-101` and the
`tf.while_loop` variables of line 175-184). -/
structure BeamState where
  encoder_input : List (List ℤ)
  decoder_input : List (List ℤ)
  log_perplexity : List (List ℚ)
  deriving DecidableEq

/-- `_cond` of `beam_search` (`search.py:118-121`). -/
def beamCond (S : Searcher) (s : BeamState) : Bool :=
  decide ((tfShape1 s.decoder_input : ℤ) < S.max_sequence_length) &&
    (hasEos S.eos_id s.decoder_input).any (fun b => !b)

/-- The length penalty `((1 + len) / (1 + beta)) ^ alpha` (`search.py:154`).
The float exponent `alpha` is modelled as an integer so that the penalty
stays in exact rational arithmetic (the source's default is `alpha = 1`). -/
def lengthPenalty (alpha beta : ℤ) (len : ℤ) : ℚ :=
  (((1 : ℚ) + (len : ℚ)) / ((1 : ℚ) + (beta : ℚ))) ^ alpha

/-- `search.py:125-129`: the model output after log-softmax, and its
per-row top-`beam_size` values and indices. -/
def beamTop (S : Searcher) (beam_size : ℕ) (s : BeamState) : List (List (ℕ × ℚ)) :=
  -- output = log_softmax(model((encoder_input, decoder_input)), axis=1)
  -- log_probs, new_tokens = tf.math.top_k(output, k=beam_size)
  (List.zipWith S.model s.encoder_input s.decoder_input).map (tfTopK beam_size)

/-- `new_tokens = tf.reshape(new_tokens, [-1, 1])` cast to int32
(`search.py:133`). -/
def beamNewTokens (S : Searcher) (beam_size : ℕ) (s : BeamState) : List ℤ :=
  ((beamTop S beam_size s).map (List.map fun p => (p.1 : ℤ))).flatten

/-- The cumulative candidate log-probabilities `log_probs` of
`search.py:133-136`: the top-k scores reshaped to `[batch_size, -1]`,
zeroed for beams that already contain `eos`, plus the parent beams'
cumulative log-probabilities. -/
def beamCandidateScores (S : Searcher) (batch_size beam_size : ℕ)
    (s : BeamState) : List (List ℚ) :=
  -- log_probs = tf.reshape(log_probs, [batch_size, -1])
  let log_probs0 : List (List ℚ) :=
    tfReshapeRows batch_size ((beamTop S beam_size s).map (List.map (·.2))).flatten
  -- is_end_sequences = tf.reshape(tf.repeat(has_eos(decoder_input), beam_size, axis=0), [batch_size, -1])
  let is_end_sequences : List (List Bool) :=
    tfReshapeRows batch_size (tfRepeatEach beam_size (hasEos S.eos_id s.decoder_input))
  -- log_probs = tf.where(is_end_sequences, 0.0, log_probs)
  let log_probs1 : List (List ℚ) :=
    zipWith2d (fun e p => if e then 0 else p) is_end_sequences log_probs0
  -- log_probs += tf.repeat(log_perplexity, beam_size, axis=1)
  zipWith2d (· + ·) log_probs1 (s.log_perplexity.map (tfRepeatEach beam_size))

/-- The `k*k` candidate continuations per batch element (`search.py:149-152`):
`tf.reshape(tf.concat((tf.repeat(decoder_input, beam_size, axis=0), new_tokens), axis=1),
[batch_size, beam_size * beam_size, -1])`. -/
def beamCandidates (S : Searcher) (beam_size : ℕ) (s : BeamState) :
    List (List (List ℤ)) :=
  tfChunk (beam_size * beam_size)
    (List.zipWith (fun r t => r ++ [t])
      (tfRepeatEach beam_size s.decoder_input) (beamNewTokens S beam_size s))

/-- `length_penalty = tf.pow((1 + get_sequnce_lengths(decoder_input)) / (1 + beta), alpha)`
(`search.py:154-155`), already shaped `[batch_size, beam_size ** 2]`. -/
def beamPenalties (S : Searcher) (beam_size : ℕ) (alpha beta : ℤ)
    (s : BeamState) : List (List ℚ) :=
  (get_sequnce_lengths S.eos_id (beamCandidates S beam_size s)).map
    (List.map (lengthPenalty alpha beta))

/-- `_, top_indices = tf.math.top_k(log_probs * length_penalty, k=beam_size)`
(`search.py:157`). -/
def beamTopIndices (S : Searcher) (batch_size beam_size : ℕ) (alpha beta : ℤ)
    (s : BeamState) : List (List ℕ) :=
  (zipWith2d (· * ·) (beamCandidateScores S batch_size beam_size s)
    (beamPenalties S beam_size alpha beta s)).map (tfTopKIndices beam_size)

/-- `_body` of `beam_search` (`search.py:123-173`), one decoding step.
`batch_size` is `tf.shape(encoder_input)[0]` captured before the loop
(`search.py:99`). -/
def beamBody (S : Searcher) (batch_size beam_size : ℕ) (alpha beta : ℤ)
    (s : BeamState) : BeamState :=
  -- Generate first token (`search.py:139-146`)
  if tfShape1 s.decoder_input = 1 then
    -- encoder_input = tf.repeat(encoder_input, beam_size, axis=0)
    { encoder_input := tfRepeatEach beam_size s.encoder_input,
      -- decoder_input = tf.concat([tf.fill([batch_size * beam_size, 1], bos_id), new_tokens], axis=1)
      decoder_input :=
        List.zipWith (fun b t => [b, t])
          (List.replicate (batch_size * beam_size) S.bos_id)
          (beamNewTokens S beam_size s),
      -- log_perplexity = tf.cast(log_probs, ...)
      log_perplexity := beamCandidateScores S batch_size beam_size s }
  else
    -- decoder_input = tf.gather_nd(candidates, indices_for_decoder_input)
    -- (`search.py:160-169`: per batch row b, pick candidate top_indices[b][j])
    { encoder_input := s.encoder_input,
      decoder_input :=
        (List.zipWith (fun grp idxs => idxs.map fun i => grp.getD i [])
          (beamCandidates S beam_size s)
          (beamTopIndices S batch_size beam_size alpha beta s)).flatten,
      -- log_perplexity = tf.reshape(tf.gather_nd(log_probs, ...), [batch_size, beam_size])
      log_perplexity :=
        List.zipWith (fun row idxs => idxs.map fun i => row.getD i 0)
          (beamCandidateScores S batch_size beam_size s)
          (beamTopIndices S batch_size beam_size alpha beta s) }

/-- Initial `beam_search` loop state (`search.py:99-101`). -/
def beamInit (S : Searcher) (encoder_input : List (List ℤ)) : BeamState where
  encoder_input := encoder_input
  decoder_input := List.replicate encoder_input.length [S.bos_id]
  log_perplexity := List.replicate encoder_input.length [0]

/-- The computable part of the value returned by `beam_search`: padded
decoded beams, final cumulative log-probabilities and sequence lengths. -/
structure BeamResult where
  decoder_input : List (List (List ℤ))
  log_perplexity : List (List ℚ)
  sequence_lengths : List (List ℤ)
  deriving DecidableEq

/-- `beam_search` (`search.py:81-193`) up to the final perplexity map:
the loop, the reshape to `[batch, beam, length]` and the pad masking. -/
def Searcher.beam_search (S : Searcher) (encoder_input : List (List ℤ))
    (beam_size : ℕ) (alpha beta : ℤ) : BeamResult :=
  let batch_size := encoder_input.length
  let final := tfWhileLoop (beamCond S)
    (beamBody S batch_size beam_size alpha beta)
    S.max_sequence_length.toNat (beamInit S encoder_input)
  -- decoder_input = tf.reshape(decoder_input, [batch_size, beam_size, -1])
  let decoder3 := tfChunk beam_size final.decoder_input
  let sequence_lengths := get_sequnce_lengths S.eos_id decoder3
  -- decoder_input = tf.where(tf.sequence_mask(sequence_lengths, L), decoder_input, pad_id)
  let masked := zipWith2d
    (fun len (row : List ℤ) =>
      row.enum.map fun p => if (p.1 : ℤ) < len then p.2 else S.pad_id)
    sequence_lengths decoder3
  { decoder_input := masked, log_perplexity := final.log_perplexity,
    sequence_lengths := sequence_lengths }

/-- `tf.pow(tf.exp(lp), -1 / len)` (`search.py:68-70` and `191`): the returned
perplexity of one hypothesis. -/
noncomputable def tfPerplexity (lp : ℚ) (len : ℤ) : ℝ :=
  Real.exp (lp : ℝ) ^ (-1 / (len : ℝ))

/-- The pair returned by `greedy_search` (`search.py:68-71`): the decoded
rows and the per-row perplexity. -/
noncomputable def Searcher.greedy_search_result (S : Searcher)
    (encoder_input : List (List ℤ)) : List (List ℤ) × List ℝ :=
  let s := S.greedy_search encoder_input
  (s.decoder_input,
    List.zipWith (fun lp len => tfPerplexity lp len)
      s.log_perplexity s.sequence_lengths)

/-- The pair returned by `beam_search` (`search.py:191-193`). -/
noncomputable def Searcher.beam_search_result (S : Searcher)
    (encoder_input : List (List ℤ)) (beam_size : ℕ) (alpha beta : ℤ) :
    List (List (List ℤ)) × List (List ℝ) :=
  let r := S.beam_search encoder_input beam_size alpha beta
  (r.decoder_input, zipWith2d tfPerplexity r.log_perplexity r.sequence_lengths)

/-- The loop state of `beam_search` after the `tf.while_loop`
(`search.py:175-184`). -/
def beamFinal (S : Searcher) (encoder_input : List (List ℤ)) (beam_size : ℕ)
    (alpha beta : ℤ) : BeamState :=
  tfWhileLoop (beamCond S) (beamBody S encoder_input.length beam_size alpha beta)
    S.max_sequence_length.toNat (beamInit S encoder_input)

/-! ## Specification predicates and invariants -/

/-- `len` is the sequence length the spec prescribes for `row`: the
(1-based) position of the first `eos`, or the full length when `row` has
no `eos`. -/
def IsFirstEosLength (eos : ℤ) (row : List ℤ) (len : ℤ) : Prop :=
  (∃ p : ℕ, p < row.length ∧ row.getD p 0 = eos ∧
    (∀ q < p, row.getD q 0 ≠ eos) ∧ len = (p : ℤ) + 1) ∨
  ((∀ q < row.length, row.getD q 0 ≠ eos) ∧ len = (row.length : ℤ))

/-- Content invariant of one greedy hypothesis row of width `w`:
the row starts with `bos`; an ended row consists of a non-`eos` interior,
its first `eos` at position `p ≥ 1`, and `pad` filler afterwards, with
`sequence_lengths` recording `p + 1`; an active row has no `eos` after
position 0 and keeps the `max_sequence_length` sentinel. -/
structure GRowInv (S : Searcher) (w : ℕ) (d : List ℤ) (e : Bool) (sl : ℤ) :
    Prop where
  len : d.length = w
  headBos : d.getD 0 0 = S.bos_id
  ended : e = true → ∃ p : ℕ, 1 ≤ p ∧ p < w ∧ d.getD p 0 = S.eos_id ∧
    (∀ j, 1 ≤ j → j < p → d.getD j 0 ≠ S.eos_id) ∧
    (∀ j, p < j → j < w → d.getD j 0 = S.pad_id) ∧
    (S.pad_id ≠ S.eos_id → sl = (p : ℤ) + 1)
  active : e = false → (∀ j, 1 ≤ j → j < w → d.getD j 0 ≠ S.eos_id) ∧
    sl = S.max_sequence_length

/-- Invariant of the `greedy_search` loop state for batch size `B`. -/
structure GInv (S : Searcher) (B : ℕ) (s : GreedyState) : Prop where
  lenDec : s.decoder_input.length = B
  lenEnd : s.is_ended.length = B
  lenLp : s.log_perplexity.length = B
  lenSl : s.sequence_lengths.length = B
  widthPos : 1 ≤ B → 1 ≤ tfShape1 s.decoder_input
  widthMax : (tfShape1 s.decoder_input : ℤ) ≤ max 1 S.max_sequence_length
  rows : ∀ i < B, GRowInv S (tfShape1 s.decoder_input)
    (s.decoder_input.getD i []) (s.is_ended.getD i false)
    (s.sequence_lengths.getD i 0)

/-- Shape invariant of the `beam_search` loop state after the first
expansion step (`B` batch elements, `k` beams each, decoder width `w`). -/
structure BeamPost (S : Searcher) (B k w : ℕ) (s : BeamState) : Prop where
  lenEnc : s.encoder_input.length = B * k
  lenDec : s.decoder_input.length = B * k
  lenLp : s.log_perplexity.length = B
  lpRow : ∀ r ∈ s.log_perplexity, r.length = k
  width : tfShape1 s.decoder_input = w
  twoLe : 2 ≤ w
  rows : ∀ r ∈ s.decoder_input, r.length = w ∧ r.getD 0 0 = S.bos_id

/-- The coupling of one greedy row with the matching single-beam row at
decoder width `w` (`dg`/`db`: greedy and beam decoder rows, `e` the greedy
ended flag, `lpg`/`lpb` the cumulative log-probabilities, `slg` the greedy
sequence length). -/
structure CoupleRow (S : Searcher) (w : ℕ) (dg : List ℤ) (e : Bool)
    (lpg : ℚ) (slg : ℤ) (db : List ℤ) (lpb : ℚ) : Prop where
  lenG : dg.length = w
  lenB : db.length = w
  lpEq : lpg = lpb
  active : e = false → dg = db ∧ (∀ j < w, dg.getD j 0 ≠ S.eos_id) ∧
    slg = S.max_sequence_length
  ended : e = true → ∃ p : ℕ, 1 ≤ p ∧ p < w ∧
    (∀ j ≤ p, dg.getD j 0 = db.getD j 0) ∧
    dg.getD p 0 = S.eos_id ∧ (∀ j < p, dg.getD j 0 ≠ S.eos_id) ∧
    (∀ j, p < j → j < w → dg.getD j 0 = S.pad_id) ∧ slg = (p : ℤ) + 1

/-- The coupling invariant between the `greedy_search` loop state and the
`beam_search` loop state at `beam_size = 1`, over the fixed encoder input. -/
structure CoupleInv (S : Searcher) (encoder_input : List (List ℤ))
    (g : GreedyState) (b : BeamState) : Prop where
  encEq : b.encoder_input = encoder_input
  lenDecG : g.decoder_input.length = encoder_input.length
  lenEnd : g.is_ended.length = encoder_input.length
  lenLpG : g.log_perplexity.length = encoder_input.length
  lenSl : g.sequence_lengths.length = encoder_input.length
  lenDecB : b.decoder_input.length = encoder_input.length
  lenLpB : b.log_perplexity.length = encoder_input.length
  lpRowB : ∀ r ∈ b.log_perplexity, r.length = 1
  widthEq : tfShape1 g.decoder_input = tfShape1 b.decoder_input
  widthPos : 1 ≤ encoder_input.length → 1 ≤ tfShape1 g.decoder_input
  widthMax : (tfShape1 g.decoder_input : ℤ) ≤ max 1 S.max_sequence_length
  rows : ∀ i < encoder_input.length,
    CoupleRow S (tfShape1 g.decoder_input) (g.decoder_input.getD i [])
      (g.is_ended.getD i false) (g.log_perplexity.getD i 0)
      (g.sequence_lengths.getD i 0) (b.decoder_input.getD i [])
      ((b.log_perplexity.getD i []).getD 0 0)

/-- The per-row top-1 log-probability of one greedy step
(`search.py:44-45`, values component). -/
def greedyStepValue (S : Searcher) (enc dec : List ℤ) : ℚ :=
  (tfTopKValues 1 (S.model enc dec)).headI

/-- The per-row top-1 token of one greedy step (`search.py:44-45`,
indices component, cast to int32). -/
def greedyStepToken (S : Searcher) (enc dec : List ℤ) : ℤ :=
  ((tfTopKIndices 1 (S.model enc dec)).headI : ℤ)

/-! ## Concrete instances used to witness the theorems -/

/-- A concrete scoring function over a five-token vocabulary: the argmax is
token 1 until the decoder prefix has three tokens, then the argmax is
token 3 (the demo `eos`). -/
def demoModel : List ℤ → List ℤ → List ℚ := fun _ dec =>
  if 3 ≤ dec.length then [0, 0, 0, 1, 0] else [0, 1, 0, -1, 0]

/-- A demo searcher configuration (`bos = 2`, `eos = 3`, `pad = 0`). -/
def demoSearcher : Searcher where
  model := demoModel
  max_sequence_length := 6
  bos_id := 2
  eos_id := 3
  pad_id := 0

/-- A scoring function whose argmax is always the demo `eos` token 3. -/
def eosModel : List ℤ → List ℤ → List ℚ := fun _ _ => [0, 0, 0, 1, 0]

/-- A searcher over `eosModel`: every row emits `eos` at its first step. -/
def eosSearcher : Searcher where
  model := eosModel
  max_sequence_length := 5
  bos_id := 2
  eos_id := 3
  pad_id := 0

/-- A searcher constructed with the invalid `max_sequence_length = 0`. -/
def zeroLenSearcher : Searcher where
  model := fun _ _ => [1]
  max_sequence_length := 0
  bos_id := 2
  eos_id := 3
  pad_id := 0

/-! ## List toolkit -/

theorem getD_zipWith {α β γ : Type} {f : α → β → γ} {xs : List α} {ys : List β}
    {i : ℕ} (hx : i < xs.length) (hy : i < ys.length) (da : α) (db : β) (dc : γ) :
    (List.zipWith f xs ys).getD i dc = f (xs.getD i da) (ys.getD i db) := by
  have h : i < (List.zipWith f xs ys).length := by
    rw [List.length_zipWith]; exact lt_min hx hy
  rw [List.getD_eq_getElem _ _ h, List.getD_eq_getElem _ _ hx,
    List.getD_eq_getElem _ _ hy, List.getElem_zipWith]

theorem getD_map {α β : Type} {f : α → β} {l : List α} {i : ℕ}
    (hi : i < l.length) (da : α) (db : β) :
    (l.map f).getD i db = f (l.getD i da) := by
  have h : i < (l.map f).length := by rwa [List.length_map]
  rw [List.getD_eq_getElem _ _ h, List.getD_eq_getElem _ _ hi, List.getElem_map]

theorem getD_append_left {α : Type} {xs ys : List α} {i : ℕ}
    (hi : i < xs.length) (d : α) : (xs ++ ys).getD i d = xs.getD i d := by
  have h : i < (xs ++ ys).length := by
    rw [List.length_append]; omega
  rw [List.getD_eq_getElem _ _ h, List.getD_eq_getElem _ _ hi,
    List.getElem_append, dif_pos hi]

theorem getD_append_right {α : Type} {xs ys : List α} {i : ℕ}
    (hi : xs.length ≤ i) (h : i < xs.length + ys.length) (d : α) :
    (xs ++ ys).getD i d = ys.getD (i - xs.length) d := by
  have hl : i < (xs ++ ys).length := by rwa [List.length_append]
  have hr : i - xs.length < ys.length := by omega
  rw [List.getD_eq_getElem _ _ hl, List.getD_eq_getElem _ _ hr,
    List.getElem_append, dif_neg (by omega)]

/-! ## `tf.while_loop` lemmas -/

theorem tfWhileLoop_of_cond_false {σ : Type} {cond : σ → Bool} {body : σ → σ}
    {s : σ} (h : cond s = false) : ∀ n, tfWhileLoop cond body n s = s
  | 0 => rfl
  | _ + 1 => by simp [tfWhileLoop, h]

theorem tfWhileLoop_cond_true {σ : Type} {cond : σ → Bool} {body : σ → σ}
    {s : σ} (h : cond s = true) (n : ℕ) :
    tfWhileLoop cond body (n + 1) s = tfWhileLoop cond body n (body s) := by
  simp [tfWhileLoop, h]

theorem tfWhileLoop_add {σ : Type} (cond : σ → Bool) (body : σ → σ)
    (a b : ℕ) (s : σ) :
    tfWhileLoop cond body (a + b) s =
      tfWhileLoop cond body b (tfWhileLoop cond body a s) := by
  induction a generalizing s with
  | zero => simp [tfWhileLoop]
  | succ a ih =>
    by_cases hc : cond s = true
    · rw [show a + 1 + b = (a + b) + 1 by omega, tfWhileLoop_cond_true hc,
        tfWhileLoop_cond_true hc, ih]
    · have hc2 : cond s = false := by simpa using hc
      rw [tfWhileLoop_of_cond_false hc2, tfWhileLoop_of_cond_false hc2,
        tfWhileLoop_of_cond_false hc2]

theorem tfWhileLoop_inv {σ : Type} {cond : σ → Bool} {body : σ → σ}
    (Inv : σ → Prop) (hstep : ∀ s, Inv s → cond s = true → Inv (body s)) :
    ∀ (n : ℕ) (s : σ), Inv s → Inv (tfWhileLoop cond body n s)
  | 0, _, h => h
  | n + 1, s, h => by
    by_cases hc : cond s = true
    · rw [tfWhileLoop_cond_true hc]
      exact tfWhileLoop_inv Inv hstep n _ (hstep s h hc)
    · rwa [tfWhileLoop_of_cond_false (by simpa using hc)]

theorem tfWhileLoop_exit {σ : Type} {cond : σ → Bool} {body : σ → σ}
    (Inv : σ → Prop) (μ : σ → ℕ)
    (hstep : ∀ s, Inv s → cond s = true → Inv (body s))
    (hdec : ∀ s, Inv s → cond s = true → μ (body s) < μ s) :
    ∀ (n : ℕ) (s : σ), Inv s → μ s ≤ n →
      cond (tfWhileLoop cond body n s) = false := by
  intro n
  induction n with
  | zero =>
    intro s hInv hμ
    by_cases hc : cond s = true
    · exact absurd (hdec s hInv hc) (by omega)
    · simpa [tfWhileLoop] using hc
  | succ n ih =>
    intro s hInv hμ
    by_cases hc : cond s = true
    · rw [tfWhileLoop_cond_true hc]
      exact ih (body s) (hstep s hInv hc) (by have := hdec s hInv hc; omega)
    · rw [tfWhileLoop_of_cond_false (by simpa using hc)]
      simpa using hc

/-! ## `tf.math.top_k` lemmas -/

theorem tfTopKLe_trans (a b c : ℕ × ℚ) (h1 : tfTopKLe a b = true)
    (h2 : tfTopKLe b c = true) : tfTopKLe a c = true := by
  simp only [tfTopKLe, Bool.or_eq_true, Bool.and_eq_true, decide_eq_true_eq] at *
  rcases h1 with h1 | ⟨h1e, h1i⟩ <;> rcases h2 with h2 | ⟨h2e, h2i⟩
  · exact Or.inl (lt_trans h2 h1)
  · exact Or.inl (h2e ▸ h1)
  · exact Or.inl (h1e ▸ h2)
  · exact Or.inr ⟨h1e.trans h2e, le_trans h1i h2i⟩

theorem tfTopKLe_total (a b : ℕ × ℚ) : (tfTopKLe a b || tfTopKLe b a) = true := by
  simp only [tfTopKLe, Bool.or_eq_true, Bool.and_eq_true, decide_eq_true_eq]
  rcases lt_trichotomy a.2 b.2 with h | h | h
  · exact Or.inr (Or.inl h)
  · rcases Nat.le_total a.1 b.1 with hi | hi
    · exact Or.inl (Or.inr ⟨h, hi⟩)
    · exact Or.inr (Or.inr ⟨h.symm, hi⟩)
  · exact Or.inl (Or.inl h)

theorem sorted_insertionSort_topK (l : List (ℕ × ℚ)) :
    List.Pairwise tfTopKRel (l.insertionSort tfTopKRel) := by
  have htot : IsTotal (ℕ × ℚ) tfTopKRel := ⟨fun a b => by
    have := tfTopKLe_total a b
    rcases Bool.or_eq_true_iff.mp this with h | h
    · exact Or.inl h
    · exact Or.inr h⟩
  have htrans : IsTrans (ℕ × ℚ) tfTopKRel := ⟨fun a b c h1 h2 =>
    tfTopKLe_trans a b c h1 h2⟩
  exact @List.sorted_insertionSort _ tfTopKRel _ htot htrans l

theorem tfTopK_pairwise (k : ℕ) (l : List ℚ) :
    List.Pairwise (fun a b => tfTopKLe a b = true) (tfTopK k l) :=
  List.Pairwise.sublist (List.take_sublist _ _)
    (sorted_insertionSort_topK l.enum)

theorem tfTopK_length (k : ℕ) (l : List ℚ) :
    (tfTopK k l).length = min k l.length := by
  unfold tfTopK
  rw [List.length_take, (List.perm_insertionSort tfTopKRel l.enum).length_eq,
    List.enum_length]

theorem tfTopK_mem {k : ℕ} {l : List ℚ} {p : ℕ × ℚ} (h : p ∈ tfTopK k l) :
    p.1 < l.length ∧ l.getD p.1 0 = p.2 := by
  have h1 : p ∈ l.enum :=
    (List.perm_insertionSort tfTopKRel l.enum).mem_iff.mp
      ((List.take_sublist _ _).subset h)
  obtain ⟨n, hn, he⟩ := List.mem_iff_getElem.mp h1
  have hn2 : n < l.length := by rwa [List.enum_length] at hn
  rw [List.getElem_enum] at he
  refine ⟨?_, ?_⟩
  · rw [← he]; exact hn2
  · rw [← he]
    exact List.getD_eq_getElem _ _ hn2

theorem tfTopK_nodup_indices (k : ℕ) (l : List ℚ) :
    ((tfTopK k l).map (·.1)).Nodup := by
  have hperm : ((l.enum.insertionSort tfTopKRel).map (·.1)).Perm
      (l.enum.map (·.1)) := (List.perm_insertionSort tfTopKRel l.enum).map _
  have hnd : ((l.enum.insertionSort tfTopKRel).map (·.1)).Nodup := by
    rw [hperm.nodup_iff]
    have : l.enum.map (·.1) = List.range l.length := List.enum_map_fst l
    rw [this]
    exact List.nodup_range _
  unfold tfTopK
  rw [List.map_take]
  exact (List.take_sublist _ _).nodup hnd

theorem tfTopK_dominates {k : ℕ} {l : List ℚ} {j : ℕ} (hj : j < l.length)
    (hnot : j ∉ (tfTopK k l).map (·.1)) :
    ∀ p ∈ tfTopK k l, l.getD j 0 ≤ p.2 := by
  intro p hp
  have hmemEnum : (j, l[j]) ∈ l.enum := by
    rw [List.mem_iff_getElem]
    exact ⟨j, by rwa [List.enum_length], List.getElem_enum _ _ _⟩
  have hmem : (j, l[j]) ∈ l.enum.insertionSort tfTopKRel :=
    (List.perm_insertionSort tfTopKRel l.enum).mem_iff.mpr hmemEnum
  have hsplit := List.take_append_drop k (l.enum.insertionSort tfTopKRel)
  have hpw := sorted_insertionSort_topK l.enum
  rw [← hsplit] at hpw
  obtain ⟨_, _, hcross⟩ := List.pairwise_append.mp hpw
  have hdrop : (j, l[j]) ∈ (l.enum.insertionSort tfTopKRel).drop k := by
    rw [← hsplit] at hmem
    rcases List.mem_append.mp hmem with h | h
    · exact absurd (List.mem_map.mpr ⟨(j, l[j]), h, rfl⟩) hnot
    · exact h
  have hle := hcross p hp (j, l[j]) hdrop
  simp only [tfTopKRel, tfTopKLe, Bool.or_eq_true, Bool.and_eq_true, decide_eq_true_eq] at hle
  rw [List.getD_eq_getElem _ _ hj]
  rcases hle with h | ⟨he, _⟩
  · exact le_of_lt h
  · exact le_of_eq he.symm

theorem tfTopKValues_sorted (k : ℕ) (l : List ℚ) :
    List.Pairwise (fun a b : ℚ => b ≤ a) (tfTopKValues k l) := by
  unfold tfTopKValues
  rw [List.pairwise_map]
  exact (tfTopK_pairwise k l).imp (fun h => by
    simp only [tfTopKLe, Bool.or_eq_true, Bool.and_eq_true,
      decide_eq_true_eq] at h
    rcases h with h | ⟨he, _⟩
    · exact le_of_lt h
    · exact le_of_eq he.symm)

theorem tfTopK_one {l : List ℚ} (hl : l ≠ []) : ∃ p, tfTopK 1 l = [p] := by
  have h : (tfTopK 1 l).length = 1 := by
    rw [tfTopK_length]
    have : 0 < l.length := List.length_pos.mpr hl
    omega
  exact List.length_eq_one.mp h

/-! ## Reshape, repeat and flatten lemmas -/

theorem tfChunkAux_fuel {α : Type} {m : ℕ} :
    ∀ (f1 : ℕ) {f2 : ℕ} (l : List α), l.length ≤ f1 → l.length ≤ f2 →
      tfChunkAux m f1 l = tfChunkAux m f2 l := by
  intro f1
  induction f1 with
  | zero =>
    intro f2 l h1 h2
    have : l = [] := List.length_eq_zero.mp (by omega)
    subst this
    cases f2 <;> rfl
  | succ f1 ih =>
    intro f2 l h1 h2
    cases l with
    | nil => cases f2 <;> rfl
    | cons a t =>
      obtain ⟨f2p, rfl⟩ : ∃ f2p, f2 = f2p + 1 := by
        cases f2
        · simp at h2
        · exact ⟨_, rfl⟩
      show (if m = 0 then _ else _) = (if m = 0 then _ else _)
      by_cases hm : m = 0
      · rw [if_pos hm, if_pos hm]
      · rw [if_neg hm, if_neg hm]
        congr 1
        refine ih _ ?_ ?_ <;>
          simp only [List.length_drop, List.length_cons] at * <;> omega

theorem tfChunk_nil {α : Type} (m : ℕ) : tfChunk m ([] : List α) = [] := rfl

theorem tfChunk_cons {α : Type} {m : ℕ} (hm : m ≠ 0) (a : α) (l : List α) :
    tfChunk m (a :: l) = (a :: l).take m :: tfChunk m ((a :: l).drop m) := by
  show tfChunkAux m (l.length + 1) (a :: l) = _
  rw [show tfChunkAux m (l.length + 1) (a :: l) =
    if m = 0 then [] else (a :: l).take m ::
      tfChunkAux m l.length ((a :: l).drop m) from rfl, if_neg hm]
  rw [tfChunk]
  congr 1
  exact tfChunkAux_fuel l.length _ (by simp [List.length_drop]; omega) le_rfl

theorem tfChunk_spec {α : Type} {m : ℕ} (hm : 0 < m) (B : ℕ) :
    ∀ l : List α, l.length = B * m →
      (tfChunk m l).length = B ∧ (∀ g ∈ tfChunk m l, g.length = m) ∧
      (∀ b < B, (tfChunk m l).getD b [] = (l.drop (b * m)).take m) := by
  induction B with
  | zero =>
    intro l hl
    have : l = [] := List.length_eq_zero.mp (by omega)
    subst this
    exact ⟨by simp [tfChunk_nil], by simp [tfChunk_nil], by omega⟩
  | succ B ih =>
    intro l hl
    have hlen : m ≤ l.length := by rw [hl]; nlinarith
    obtain ⟨a, t, rfl⟩ : ∃ a t, l = a :: t := by
      cases l with
      | nil => simp at hlen; omega
      | cons a t => exact ⟨a, t, rfl⟩
    rw [tfChunk_cons (by omega)]
    have hdrop : ((a :: t).drop m).length = B * m := by
      rw [List.length_drop]
      rw [hl]
      ring_nf
      omega
    obtain ⟨ihl, ihg, ihget⟩ := ih _ hdrop
    refine ⟨by simp [ihl], ?_, ?_⟩
    · intro g hg
      rcases List.mem_cons.mp hg with rfl | hg
      · rw [List.length_take]
        omega
      · exact ihg g hg
    · intro b hb
      cases b with
      | zero => simp
      | succ b =>
        have : (List.take m (a :: t) :: tfChunk m ((a :: t).drop m)).getD
            (b + 1) [] = (tfChunk m ((a :: t).drop m)).getD b [] := by
          simp [List.getD]
        rw [this, ihget b (by omega), List.drop_drop]
        congr 2
        ring

theorem tfChunk_one {α : Type} (l : List α) :
    tfChunk 1 l = l.map (fun a => [a]) := by
  induction l with
  | nil => simp [tfChunk_nil]
  | cons a t ih =>
    rw [tfChunk_cons one_ne_zero]
    have h1 : List.take 1 (a :: t) = [a] := rfl
    have h2 : List.drop 1 (a :: t) = t := rfl
    rw [h1, h2, ih, List.map_cons]

theorem tfRepeatEach_nil {α : Type} (k : ℕ) :
    tfRepeatEach k ([] : List α) = [] := rfl

theorem tfRepeatEach_cons {α : Type} (k : ℕ) (a : α) (l : List α) :
    tfRepeatEach k (a :: l) = List.replicate k a ++ tfRepeatEach k l := by
  simp [tfRepeatEach]

theorem tfRepeatEach_length {α : Type} (k : ℕ) (l : List α) :
    (tfRepeatEach k l).length = l.length * k := by
  induction l with
  | nil => simp [tfRepeatEach_nil]
  | cons a t ih =>
    rw [tfRepeatEach_cons, List.length_append, List.length_replicate, ih]
    simp
    ring

theorem tfRepeatEach_one {α : Type} (l : List α) : tfRepeatEach 1 l = l := by
  induction l with
  | nil => rfl
  | cons a t ih => rw [tfRepeatEach_cons, ih]; rfl

theorem getD_replicate {α : Type} {n i : ℕ} (hi : i < n) (a d : α) :
    (List.replicate n a).getD i d = a := by
  have h : i < (List.replicate n a).length := by rwa [List.length_replicate]
  rw [List.getD_eq_getElem _ _ h, List.getElem_replicate]

theorem tfRepeatEach_getD {α : Type} {k : ℕ} {l : List α} {j : ℕ}
    (hj : j < l.length * k) (d : α) :
    (tfRepeatEach k l).getD j d = l.getD (j / k) d := by
  have hk : 0 < k := by
    rcases Nat.eq_zero_or_pos k with rfl | hk
    · simp at hj
    · exact hk
  induction l generalizing j with
  | nil => simp at hj
  | cons a t ih =>
    rw [tfRepeatEach_cons]
    by_cases hjk : j < k
    · rw [getD_append_left (by rwa [List.length_replicate]),
        getD_replicate hjk, Nat.div_eq_of_lt hjk]
      rfl
    · have hlen : (List.replicate k a).length ≤ j := by
        rw [List.length_replicate]; omega
      have hjt : j - k < t.length * k := by
        rw [List.length_cons] at hj
        have : (t.length + 1) * k = t.length * k + k := by ring
        omega
      rw [getD_append_right hlen (by
        rw [List.length_replicate, tfRepeatEach_length]
        rw [List.length_cons] at hj
        have : (t.length + 1) * k = k + t.length * k := by ring
        omega), List.length_replicate, ih hjt]
      rw [Nat.div_eq_sub_div hk (show k ≤ j by omega), List.getD_cons_succ]

theorem flatten_uniform_length {α : Type} {L : List (List α)} {m : ℕ}
    (h : ∀ g ∈ L, g.length = m) : L.flatten.length = L.length * m := by
  induction L with
  | nil => simp
  | cons g t ih =>
    rw [List.flatten_cons, List.length_append, h g (by simp),
      ih (fun g hg => h g (by simp [hg]))]
    simp
    ring

theorem flatten_uniform_getD {α : Type} {L : List (List α)} {m : ℕ}
    (h : ∀ g ∈ L, g.length = m) {b c : ℕ} (hb : b < L.length) (hc : c < m)
    (d : α) : L.flatten.getD (b * m + c) d = (L.getD b []).getD c d := by
  induction L generalizing b with
  | nil => simp at hb
  | cons g t ih =>
    rw [List.flatten_cons]
    cases b with
    | zero =>
      simp only [Nat.zero_mul, Nat.zero_add, List.getD_cons_zero]
      exact getD_append_left (by rw [h g (by simp)]; exact hc) d
    | succ b =>
      have hglen : g.length = m := h g (by simp)
      have hge : g.length ≤ (b + 1) * m + c := by rw [hglen]; nlinarith
      have hlt : (b + 1) * m + c < g.length + t.flatten.length := by
        rw [hglen, flatten_uniform_length (fun g hg => h g (by simp [hg]))]
        rw [List.length_cons] at hb
        nlinarith
      rw [getD_append_right hge hlt]
      have hidx : (b + 1) * m + c - g.length = b * m + c := by
        rw [hglen]; ring_nf; omega
      rw [hidx, ih (fun g hg => h g (by simp [hg])) (by
        rw [List.length_cons] at hb; omega)]
      rw [List.getD_cons_succ]

/-! ## Sequence length, `has_eos` and masking lemmas -/

theorem toSequenceLength_spec (eos : ℤ) (row : List ℤ) :
    IsFirstEosLength eos row (toSequenceLength eos row) := by
  unfold toSequenceLength
  cases hf : row.findIdx? (fun x => x == eos) with
  | none =>
    right
    refine ⟨?_, rfl⟩
    intro q hq
    have hall := List.findIdx?_eq_none_iff.mp hf
    have hq2 := hall (row[q]) (row.getElem_mem hq)
    rw [List.getD_eq_getElem _ _ hq]
    simpa using hq2
  | some i =>
    left
    have hex : ∃ x ∈ row, (x == eos) = true := by
      by_contra hno
      push_neg at hno
      have hnone : row.findIdx? (fun x => x == eos) = none :=
        List.findIdx?_eq_none_iff.mpr (fun x hx =>
          Bool.eq_false_iff.mpr (hno x hx))
      rw [hnone] at hf
      exact Option.noConfusion hf
    have hsome := List.findIdx?_eq_some_of_exists hex
    rw [hf] at hsome
    have hi : i = List.findIdx (fun x => x == eos) row :=
      Option.some_inj.mp hsome
    subst hi
    have hlt : List.findIdx (fun x => x == eos) row < row.length :=
      List.findIdx_lt_length_of_exists hex
    refine ⟨_, hlt, ?_, ?_, rfl⟩
    · rw [List.getD_eq_getElem _ _ hlt]
      have hfe := List.findIdx_getElem (p := fun x => x == eos) (w := hlt)
      simpa using hfe
    · intro q hq
      rw [List.getD_eq_getElem _ _ (lt_trans hq hlt)]
      have hne := List.not_of_lt_findIdx (p := fun x => x == eos)
        (i := q) hq
      simpa using hne

theorem any_beq_iff (eos : ℤ) (row : List ℤ) :
    row.any (· == eos) = true ↔ ∃ j < row.length, row.getD j 0 = eos := by
  rw [List.any_eq_true]
  constructor
  · rintro ⟨x, hx, hbeq⟩
    obtain ⟨n, hn, he⟩ := List.mem_iff_getElem.mp hx
    refine ⟨n, hn, ?_⟩
    rw [List.getD_eq_getElem _ _ hn, he]
    exact beq_iff_eq.mp hbeq
  · rintro ⟨j, hj, he⟩
    refine ⟨row[j], row.getElem_mem hj, ?_⟩
    rw [List.getD_eq_getElem _ _ hj] at he
    simp [he]

theorem toSequenceLength_pos {eos : ℤ} {row : List ℤ} (h : row ≠ []) :
    1 ≤ toSequenceLength eos row := by
  rcases toSequenceLength_spec eos row with ⟨p, _, _, _, hlen⟩ | ⟨_, hlen⟩
  · omega
  · have : 0 < row.length := List.length_pos.mpr h
    omega

theorem toSequenceLength_le (eos : ℤ) (row : List ℤ) :
    toSequenceLength eos row ≤ (row.length : ℤ) := by
  rcases toSequenceLength_spec eos row with ⟨p, hp, _, _, hlen⟩ | ⟨_, hlen⟩
  · omega
  · omega

theorem toSequenceLength_no_eos {eos : ℤ} {row : List ℤ}
    (h : ∀ j < row.length, row.getD j 0 ≠ eos) :
    toSequenceLength eos row = (row.length : ℤ) := by
  rcases toSequenceLength_spec eos row with ⟨p, hp, he, _, _⟩ | ⟨_, hlen⟩
  · exact absurd he (h p hp)
  · exact hlen

theorem toSequenceLength_first_eos {eos : ℤ} {row : List ℤ} {p : ℕ}
    (hp : p < row.length) (he : row.getD p 0 = eos)
    (hfirst : ∀ q < p, row.getD q 0 ≠ eos) :
    toSequenceLength eos row = (p : ℤ) + 1 := by
  rcases toSequenceLength_spec eos row with
    ⟨q, hq, hqe, hqfirst, hlen⟩ | ⟨hnone, _⟩
  · have : q = p := by
      rcases lt_trichotomy q p with h | h | h
      · exact absurd hqe (hfirst q h)
      · exact h
      · exact absurd he (hqfirst p h)
    omega
  · exact absurd he (hnone p hp)

theorem mask_row_length (len pad : ℤ) (row : List ℤ) :
    (row.enum.map fun p => if (p.1 : ℤ) < len then p.2 else pad).length =
      row.length := by
  rw [List.length_map, List.enum_length]

theorem mask_row_getD {row : List ℤ} {j : ℕ} (hj : j < row.length)
    (len pad : ℤ) :
    (row.enum.map fun p => if (p.1 : ℤ) < len then p.2 else pad).getD j 0 =
      if (j : ℤ) < len then row.getD j 0 else pad := by
  have h : j < (row.enum.map fun p =>
      if (p.1 : ℤ) < len then p.2 else pad).length := by
    rwa [mask_row_length]
  rw [List.getD_eq_getElem _ _ h, List.getElem_map, List.getElem_enum,
    List.getD_eq_getElem _ _ hj]

/-! ## Perplexity lemmas -/

theorem one_le_tfPerplexity {lp : ℚ} {len : ℤ} (hlp : lp ≤ 0)
    (hlen : 1 ≤ len) : 1 ≤ tfPerplexity lp len := by
  unfold tfPerplexity
  rw [Real.rpow_def_of_pos (Real.exp_pos _), Real.log_exp,
    Real.one_le_exp_iff]
  have h1 : (lp : ℝ) ≤ 0 := by exact_mod_cast hlp
  have h2 : (0 : ℝ) < (len : ℝ) := by exact_mod_cast hlen
  have h3 : 0 ≤ (-(lp : ℝ)) * (1 / (len : ℝ)) :=
    mul_nonneg (neg_nonneg.mpr h1) (by positivity)
  have h4 : (lp : ℝ) * (-1 / (len : ℝ)) = (-(lp : ℝ)) * (1 / (len : ℝ)) := by
    ring
  rw [h4]
  exact h3

/-! ## Greedy step lemmas -/

theorem getD_zip {α β : Type} {xs : List α} {ys : List β} {i : ℕ}
    (hx : i < xs.length) (hy : i < ys.length) (da : α) (db : β) :
    (xs.zip ys).getD i (da, db) = (xs.getD i da, ys.getD i db) := by
  have h : i < (xs.zip ys).length := by
    rw [List.length_zip]; exact lt_min hx hy
  rw [List.getD_eq_getElem _ _ h, List.getD_eq_getElem _ _ hx,
    List.getD_eq_getElem _ _ hy, List.getElem_zip]

theorem greedyBody_lengths (S : Searcher) (enc : List (List ℤ))
    (s : GreedyState) (B : ℕ) (henc : enc.length = B)
    (hdec : s.decoder_input.length = B) (hend : s.is_ended.length = B)
    (hlp : s.log_perplexity.length = B) (hsl : s.sequence_lengths.length = B) :
    (greedyBody S enc s).decoder_input.length = B ∧
    (greedyBody S enc s).is_ended.length = B ∧
    (greedyBody S enc s).log_perplexity.length = B ∧
    (greedyBody S enc s).sequence_lengths.length = B := by
  refine ⟨?_, ?_, ?_, ?_⟩ <;>
    simp [greedyBody, List.length_zipWith, List.length_zip, henc, hdec, hend,
      hlp, hsl]

theorem greedyBody_getD (S : Searcher) (enc : List (List ℤ))
    (s : GreedyState) (B : ℕ) (henc : enc.length = B)
    (hdec : s.decoder_input.length = B) (hend : s.is_ended.length = B)
    (hlp : s.log_perplexity.length = B) (hsl : s.sequence_lengths.length = B)
    (i : ℕ) (hi : i < B) :
    (greedyBody S enc s).decoder_input.getD i [] =
      s.decoder_input.getD i [] ++
        [if s.is_ended.getD i false then S.pad_id
         else greedyStepToken S (enc.getD i []) (s.decoder_input.getD i [])] ∧
    (greedyBody S enc s).is_ended.getD i false =
      (s.is_ended.getD i false ||
        decide ((if s.is_ended.getD i false then S.pad_id
          else greedyStepToken S (enc.getD i [])
            (s.decoder_input.getD i [])) = S.eos_id)) ∧
    (greedyBody S enc s).log_perplexity.getD i 0 =
      (if s.is_ended.getD i false then s.log_perplexity.getD i 0
       else s.log_perplexity.getD i 0 +
         greedyStepValue S (enc.getD i []) (s.decoder_input.getD i [])) ∧
    (greedyBody S enc s).sequence_lengths.getD i 0 =
      (if (if s.is_ended.getD i false then S.pad_id
           else greedyStepToken S (enc.getD i [])
             (s.decoder_input.getD i [])) = S.eos_id
       then (tfShape1 s.decoder_input : ℤ) + 1
       else s.sequence_lengths.getD i 0) := by
  have hienc : i < enc.length := by omega
  have hidec : i < s.decoder_input.length := by omega
  have hiend : i < s.is_ended.length := by omega
  have hilp : i < s.log_perplexity.length := by omega
  have hisl : i < s.sequence_lengths.length := by omega
  have hout : (List.zipWith S.model enc s.decoder_input).length = B := by
    rw [List.length_zipWith, henc, hdec, min_self]
  have hiout : i < (List.zipWith S.model enc s.decoder_input).length := by
    omega
  have hitt : i < ((List.zipWith S.model enc s.decoder_input).map
      (fun row => ((tfTopKIndices 1 row).headI : ℤ))).length := by
    rwa [List.length_map]
  have hilpp : i < ((List.zipWith S.model enc s.decoder_input).map
      (fun row => (tfTopKValues 1 row).headI)).length := by
    rwa [List.length_map]
  have hint : i < (List.zipWith (fun e t => if e then S.pad_id else t)
      s.is_ended ((List.zipWith S.model enc s.decoder_input).map
        (fun row => ((tfTopKIndices 1 row).headI : ℤ)))).length := by
    rw [List.length_zipWith]
    exact lt_min hiend hitt
  have hizip : i < (s.is_ended.zip s.log_perplexity).length := by
    rw [List.length_zip]; exact lt_min hiend hilp
  refine ⟨?_, ?_, ?_, ?_⟩
  · simp only [greedyBody]
    rw [getD_zipWith hidec hint [] 0 [],
      getD_zipWith hiend hitt false 0 0,
      getD_map hiout [] 0,
      getD_zipWith hienc hidec [] [] []]
    rfl
  · simp only [greedyBody]
    rw [getD_zipWith hiend hint false 0 false,
      getD_zipWith hiend hitt false 0 0,
      getD_map hiout [] 0,
      getD_zipWith hienc hidec [] [] []]
    rfl
  · simp only [greedyBody]
    rw [getD_zipWith hizip hilpp (false, 0) 0 0,
      getD_zip hiend hilp false 0,
      getD_map hiout [] 0,
      getD_zipWith hienc hidec [] [] []]
    rfl
  · simp only [greedyBody]
    rw [getD_zipWith hint hisl 0 0 0,
      getD_zipWith hiend hitt false 0 0,
      getD_map hiout [] 0,
      getD_zipWith hienc hidec [] [] []]
    rfl

theorem headI_eq_getD_nil {α : Type} (l : List (List α)) :
    l.headI = l.getD 0 [] := by
  cases l <;> rfl

theorem tfShape1_greedyBody (S : Searcher) (enc : List (List ℤ))
    (s : GreedyState) (B : ℕ) (henc : enc.length = B)
    (hdec : s.decoder_input.length = B) (hend : s.is_ended.length = B)
    (hlp : s.log_perplexity.length = B) (hsl : s.sequence_lengths.length = B)
    (hB : 1 ≤ B) :
    tfShape1 (greedyBody S enc s).decoder_input =
      tfShape1 s.decoder_input + 1 := by
  have h := (greedyBody_getD S enc s B henc hdec hend hlp hsl 0 hB).1
  unfold tfShape1
  rw [headI_eq_getD_nil, headI_eq_getD_nil, h, List.length_append]
  rfl

theorem greedyCond_elim {S : Searcher} {s : GreedyState}
    (hcond : greedyCond S s = true) :
    (tfShape1 s.decoder_input : ℤ) < S.max_sequence_length ∧
      ¬(s.is_ended.all id = true) := by
  have h := hcond
  simp only [greedyCond, Bool.and_eq_true, decide_eq_true_eq,
    Bool.not_eq_true', Bool.not_eq_true] at h
  exact ⟨h.1, by rw [h.2]; simp⟩

theorem GInv_greedyBody {S : Searcher} {enc : List (List ℤ)} {B : ℕ}
    (henc : enc.length = B) {s : GreedyState} (hInv : GInv S B s)
    (hcond : greedyCond S s = true) : GInv S B (greedyBody S enc s) := by
  obtain ⟨hw, hnotall⟩ := greedyCond_elim hcond
  have hB : 1 ≤ B := by
    by_contra hB
    have hB0 : B = 0 := by omega
    have : s.is_ended = [] := List.length_eq_zero.mp (by rw [hInv.lenEnd, hB0])
    rw [this] at hnotall
    exact hnotall (by simp)
  obtain ⟨hld, hle, hll, hls⟩ := greedyBody_lengths S enc s B henc hInv.lenDec
    hInv.lenEnd hInv.lenLp hInv.lenSl
  have hshape := tfShape1_greedyBody S enc s B henc hInv.lenDec hInv.lenEnd
    hInv.lenLp hInv.lenSl hB
  have hwpos : 1 ≤ tfShape1 s.decoder_input := hInv.widthPos hB
  refine ⟨hld, hle, hll, hls, fun _ => by omega, by push_cast [hshape]; omega,
    ?_⟩
  intro i hi
  obtain ⟨hgd, hge, hgl, hgs⟩ := greedyBody_getD S enc s B henc hInv.lenDec
    hInv.lenEnd hInv.lenLp hInv.lenSl i hi
  have hrow := hInv.rows i hi
  have hdlen : (s.decoder_input.getD i []).length = tfShape1 s.decoder_input :=
    hrow.len
  rw [hshape]
  cases he : s.is_ended.getD i false with
  | true =>
    -- an ended row: `pad` is appended, everything else is preserved
    obtain ⟨p, hp1, hpw, hpeos, hpfirst, hppad, hpsl⟩ := hrow.ended he
    rw [he] at hgd hge hgl hgs
    simp only [if_true, if_pos rfl] at hgd hgs
    refine ⟨?_, ?_, ?_, ?_⟩
    · rw [hgd, List.length_append, hdlen]; rfl
    · rw [hgd, getD_append_left (by omega), hrow.headBos]
    · intro _
      refine ⟨p, hp1, by omega, ?_, ?_, ?_, ?_⟩
      · rw [hgd, getD_append_left (by omega), hpeos]
      · intro j hj1 hjp
        rw [hgd, getD_append_left (by omega)]
        exact hpfirst j hj1 hjp
      · intro j hjp hjw
        by_cases hjlt : j < tfShape1 s.decoder_input
        · rw [hgd, getD_append_left (by omega)]
          exact hppad j hjp hjlt
        · have hje : j = tfShape1 s.decoder_input := by omega
          rw [hgd, getD_append_right (by omega)
            (by rw [hdlen]; simp only [List.length_cons, List.length_nil]; omega), hdlen, hje]
          simp
      · intro hpe
        rw [hgs, if_neg (by simpa using hpe)]
        exact hpsl hpe
    · intro habs
      rw [hge] at habs
      simp at habs
  | false =>
    obtain ⟨hnoeos, hslmax⟩ := hrow.active he
    rw [he] at hgd hge hgl hgs
    simp only [show (false = true) = False from by simp, if_false,
      Bool.false_or] at hgd hge hgl hgs
    have hheadBos : ((greedyBody S enc s).decoder_input.getD i []).getD 0 0 =
        S.bos_id := by
      rw [hgd, getD_append_left (by omega), hrow.headBos]
    by_cases ht : greedyStepToken S (enc.getD i [])
        (s.decoder_input.getD i []) = S.eos_id
    · -- the row emits `eos` this step and becomes ended
      refine ⟨by rw [hgd, List.length_append, hdlen]; rfl, hheadBos, ?_, ?_⟩
      · intro _
        refine ⟨tfShape1 s.decoder_input, hwpos, by omega, ?_, ?_, ?_, ?_⟩
        · rw [hgd, getD_append_right (by omega)
            (by rw [hdlen]; simp only [List.length_cons, List.length_nil]; omega), hdlen]
          simpa using ht
        · intro j hj1 hjp
          rw [hgd, getD_append_left (by omega)]
          exact hnoeos j hj1 hjp
        · intro j hjp hjw; omega
        · intro _
          rw [hgs, if_pos ht]
      · intro habs
        rw [hge, decide_eq_false_iff_not] at habs
        exact absurd ht habs
    · -- the row stays active
      refine ⟨by rw [hgd, List.length_append, hdlen]; rfl, hheadBos, ?_, ?_⟩
      · intro habs
        rw [hge] at habs
        exact absurd (of_decide_eq_true habs) ht
      · intro _
        refine ⟨?_, by rw [hgs, if_neg ht]; exact hslmax⟩
        intro j hj1 hjw1
        by_cases hjlt : j < tfShape1 s.decoder_input
        · rw [hgd, getD_append_left (by omega)]
          exact hnoeos j hj1 hjlt
        · have hje : j = tfShape1 s.decoder_input := by omega
          rw [hgd, getD_append_right (by omega)
            (by rw [hdlen]; simp only [List.length_cons, List.length_nil]; omega), hdlen, hje]
          simpa using ht

theorem greedyCond_B_pos {S : Searcher} {B : ℕ} {s : GreedyState}
    (hlen : s.is_ended.length = B) (hcond : greedyCond S s = true) :
    1 ≤ B := by
  obtain ⟨_, hnotall⟩ := greedyCond_elim hcond
  by_contra hB
  have hB0 : B = 0 := by omega
  have hnil : s.is_ended = [] := List.length_eq_zero.mp (by rw [hlen, hB0])
  rw [hnil] at hnotall
  exact hnotall (by simp)

theorem GInv_greedyInit (S : Searcher) (B : ℕ) : GInv S B (greedyInit S B) := by
  have hshape : ∀ hB : 1 ≤ B, tfShape1 (greedyInit S B).decoder_input = 1 := by
    intro hB
    unfold tfShape1 greedyInit
    rw [headI_eq_getD_nil, getD_replicate (by omega)]
    rfl
  refine ⟨by simp [greedyInit], by simp [greedyInit], by simp [greedyInit],
    by simp [greedyInit], fun hB => by rw [hshape hB], ?_, ?_⟩
  · rcases Nat.eq_zero_or_pos B with rfl | hB
    · have : tfShape1 (greedyInit S 0).decoder_input = 0 := rfl
      rw [this]
      have := le_max_left (1 : ℤ) S.max_sequence_length
      push_cast
      omega
    · rw [hshape hB]
      have := le_max_left (1 : ℤ) S.max_sequence_length
      push_cast
      omega
  · intro i hi
    have hB : 1 ≤ B := by omega
    rw [hshape hB]
    unfold greedyInit
    simp only
    rw [getD_replicate hi, getD_replicate hi, getD_replicate hi]
    refine ⟨rfl, rfl, ?_, ?_⟩
    · intro habs; exact absurd habs (by simp)
    · intro _
      exact ⟨fun j hj1 hj2 => by omega, rfl⟩

theorem greedy_search_inv (S : Searcher) (enc : List (List ℤ)) :
    GInv S enc.length (S.greedy_search enc) :=
  tfWhileLoop_inv (GInv S enc.length)
    (fun _ hs hc => GInv_greedyBody rfl hs hc) _ _ (GInv_greedyInit S enc.length)

theorem greedy_search_cond_false (S : Searcher) (enc : List (List ℤ)) :
    greedyCond S (S.greedy_search enc) = false := by
  refine tfWhileLoop_exit (GInv S enc.length)
    (fun s => S.max_sequence_length.toNat - tfShape1 s.decoder_input)
    (fun _ hs hc => GInv_greedyBody rfl hs hc) ?_ _ _
    (GInv_greedyInit S enc.length) (Nat.sub_le _ _)
  intro s hs hc
  obtain ⟨hw, _⟩ := greedyCond_elim hc
  have hB : 1 ≤ enc.length := greedyCond_B_pos hs.lenEnd hc
  simp only
  rw [tfShape1_greedyBody S enc s enc.length rfl hs.lenDec hs.lenEnd
    hs.lenLp hs.lenSl hB]
  omega

theorem greedy_lp_frozen {S : Searcher} {enc : List (List ℤ)} {B : ℕ}
    (henc : enc.length = B) :
    ∀ (n : ℕ) (s : GreedyState), GInv S B s → ∀ i < B,
      s.is_ended.getD i false = true →
      (tfWhileLoop (greedyCond S) (greedyBody S enc) n s).is_ended.getD i
          false = true ∧
      (tfWhileLoop (greedyCond S) (greedyBody S enc) n s).log_perplexity.getD
          i 0 = s.log_perplexity.getD i 0
  | 0, s, _, i, hi, he => ⟨he, rfl⟩
  | n + 1, s, hInv, i, hi, he => by
    by_cases hc : greedyCond S s = true
    · rw [tfWhileLoop_cond_true hc]
      obtain ⟨hgd, hge, hgl, hgs⟩ := greedyBody_getD S enc s B henc
        hInv.lenDec hInv.lenEnd hInv.lenLp hInv.lenSl i hi
      have hge2 : (greedyBody S enc s).is_ended.getD i false = true := by
        rw [hge, he]; simp
      have hgl2 : (greedyBody S enc s).log_perplexity.getD i 0 =
          s.log_perplexity.getD i 0 := by
        rw [hgl, he]; simp
      obtain ⟨h1, h2⟩ := greedy_lp_frozen henc n (greedyBody S enc s)
        (GInv_greedyBody henc hInv hc) i hi hge2
      exact ⟨h1, by rw [h2, hgl2]⟩
    · rw [tfWhileLoop_of_cond_false (by simpa using hc)]
      exact ⟨he, rfl⟩

/-! ## Beam search shape and entry lemmas -/

theorem getD_take_drop {α : Type} {l : List α} {b m c : ℕ} (hc : c < m)
    (hlen : b * m + c < l.length) (d : α) :
    ((l.drop (b * m)).take m).getD c d = l.getD (b * m + c) d := by
  have hdrop : c < (l.drop (b * m)).length := by
    rw [List.length_drop]; omega
  have htake : c < ((l.drop (b * m)).take m).length := by
    rw [List.length_take]; omega
  rw [List.getD_eq_getElem _ _ htake, List.getD_eq_getElem _ _ hlen,
    List.getElem_take, List.getElem_drop]

theorem beamTop_length {S : Searcher} {k : ℕ} {s : BeamState} {R : ℕ}
    (henc : s.encoder_input.length = R) (hdec : s.decoder_input.length = R) :
    (beamTop S k s).length = R := by
  rw [beamTop, List.length_map, List.length_zipWith, henc, hdec, min_self]

theorem beamTop_rows {S : Searcher} {k : ℕ} {s : BeamState}
    (hM : ∀ e d, k ≤ (S.model e d).length) :
    ∀ r ∈ beamTop S k s, r.length = k := by
  intro r hr
  obtain ⟨row, hrow, rfl⟩ := List.mem_map.mp hr
  obtain ⟨n, hn, he⟩ := List.mem_iff_getElem.mp hrow
  have hne : n < s.encoder_input.length := by
    rw [List.length_zipWith] at hn; omega
  have hnd : n < s.decoder_input.length := by
    rw [List.length_zipWith] at hn; omega
  rw [List.getElem_zipWith] at he
  rw [tfTopK_length, ← he]
  have := hM (s.encoder_input[n]) (s.decoder_input[n])
  omega

theorem beamTop_getD {S : Searcher} {k : ℕ} {s : BeamState} {R r : ℕ}
    (henc : s.encoder_input.length = R) (hdec : s.decoder_input.length = R)
    (hr : r < R) :
    (beamTop S k s).getD r [] =
      tfTopK k (S.model (s.encoder_input.getD r [])
        (s.decoder_input.getD r [])) := by
  have h1 : r < (List.zipWith S.model s.encoder_input
      s.decoder_input).length := by
    rw [List.length_zipWith]; omega
  rw [beamTop, getD_map h1 [] [],
    getD_zipWith (by omega) (by omega) [] [] []]

theorem zipWith2d_length {α β γ : Type} {f : α → β → γ}
    {x : List (List α)} {y : List (List β)} {B : ℕ}
    (hx : x.length = B) (hy : y.length = B) :
    (zipWith2d f x y).length = B := by
  rw [zipWith2d, List.length_zipWith, hx, hy, min_self]

theorem zipWith2d_rows {α β γ : Type} {f : α → β → γ}
    {x : List (List α)} {y : List (List β)} {m : ℕ}
    (hxr : ∀ r ∈ x, r.length = m) (hyr : ∀ r ∈ y, r.length = m) :
    ∀ r ∈ zipWith2d f x y, r.length = m := by
  intro r hr
  rw [zipWith2d] at hr
  obtain ⟨n, hn, he⟩ := List.mem_iff_getElem.mp hr
  have hn1 : n < x.length := by rw [List.length_zipWith] at hn; omega
  have hn2 : n < y.length := by rw [List.length_zipWith] at hn; omega
  rw [List.getElem_zipWith] at he
  rw [← he, List.length_zipWith, hxr _ (List.getElem_mem hn1),
    hyr _ (List.getElem_mem hn2), min_self]

theorem zipWith2d_getD {α β γ : Type} {f : α → β → γ}
    {x : List (List α)} {y : List (List β)} {B m : ℕ} {b c : ℕ}
    (hx : x.length = B) (hy : y.length = B)
    (hxr : ∀ r ∈ x, r.length = m) (hyr : ∀ r ∈ y, r.length = m)
    (hb : b < B) (hc : c < m) (da : α) (db : β) (dc : γ) :
    ((zipWith2d f x y).getD b []).getD c dc =
      f ((x.getD b []).getD c da) ((y.getD b []).getD c db) := by
  have hbx : b < x.length := by omega
  have hby : b < y.length := by omega
  rw [zipWith2d, getD_zipWith hbx hby [] [] []]
  have hcx : c < (x.getD b []).length := by
    rw [List.getD_eq_getElem _ _ hbx, hxr _ (List.getElem_mem hbx)]
    exact hc
  have hcy : c < (y.getD b []).length := by
    rw [List.getD_eq_getElem _ _ hby, hyr _ (List.getElem_mem hby)]
    exact hc
  rw [getD_zipWith hcx hcy da db dc]

theorem beamCandidateScores_shape {S : Searcher} {B k par : ℕ} {s : BeamState}
    (hB : 1 ≤ B) (hk : 1 ≤ k) (hpar : 1 ≤ par)
    (hM : ∀ e d, k ≤ (S.model e d).length)
    (henc : s.encoder_input.length = B * par)
    (hdec : s.decoder_input.length = B * par)
    (hlp : s.log_perplexity.length = B)
    (hlpr : ∀ r ∈ s.log_perplexity, r.length = par) :
    (beamCandidateScores S B k s).length = B ∧
    (∀ r ∈ beamCandidateScores S B k s, r.length = par * k) ∧
    ∀ b < B, ∀ c < par * k,
      ((beamCandidateScores S B k s).getD b []).getD c 0 =
        (if (s.decoder_input.getD (b * par + c / k) []).any (· == S.eos_id)
         then 0
         else ((tfTopK k (S.model (s.encoder_input.getD (b * par + c / k) [])
            (s.decoder_input.getD (b * par + c / k) []))).getD (c % k)
            (0, 0)).2) +
        (s.log_perplexity.getD b []).getD (c / k) 0 := by
  have htopl : (beamTop S k s).length = B * par := beamTop_length henc hdec
  have htopr := beamTop_rows (s := s) hM
  have hvalsRows : ∀ g ∈ (beamTop S k s).map (List.map (·.2)), g.length = k := by
    intro g hg
    obtain ⟨r, hr, rfl⟩ := List.mem_map.mp hg
    rw [List.length_map]
    exact htopr r hr
  have hvlen : ((beamTop S k s).map (List.map (·.2))).flatten.length =
      B * (par * k) := by
    rw [flatten_uniform_length hvalsRows, List.length_map, htopl, Nat.mul_assoc]
  have hielen : (tfRepeatEach k (hasEos S.eos_id s.decoder_input)).length =
      B * (par * k) := by
    rw [tfRepeatEach_length, hasEos, List.length_map, hdec, Nat.mul_assoc]
  have hm : 0 < par * k := by positivity
  have hveq : tfReshapeRows B ((beamTop S k s).map (List.map (·.2))).flatten =
      tfChunk (par * k) ((beamTop S k s).map (List.map (·.2))).flatten := by
    rw [tfReshapeRows, hvlen, Nat.mul_div_cancel_left _ hB]
  have hieeq : tfReshapeRows B
      (tfRepeatEach k (hasEos S.eos_id s.decoder_input)) =
      tfChunk (par * k) (tfRepeatEach k (hasEos S.eos_id s.decoder_input)) := by
    rw [tfReshapeRows, hielen, Nat.mul_div_cancel_left _ hB]
  obtain ⟨hv1, hv2, hv3⟩ := tfChunk_spec hm B _ hvlen
  obtain ⟨hie1, hie2, hie3⟩ := tfChunk_spec hm B _ hielen
  have hlpRepLen : (s.log_perplexity.map (tfRepeatEach k)).length = B := by
    rw [List.length_map, hlp]
  have hlpRepRows : ∀ r ∈ s.log_perplexity.map (tfRepeatEach k),
      r.length = par * k := by
    intro r hr
    obtain ⟨r0, hr0, rfl⟩ := List.mem_map.mp hr
    rw [tfRepeatEach_length, hlpr r0 hr0]
  have hmaskedLen : (zipWith2d (fun e p => if e then 0 else p)
      (tfReshapeRows B (tfRepeatEach k (hasEos S.eos_id s.decoder_input)))
      (tfReshapeRows B ((beamTop S k s).map
        (List.map (·.2))).flatten)).length = B := by
    rw [hieeq, hveq]
    exact zipWith2d_length hie1 hv1
  have hmaskedRows : ∀ r ∈ zipWith2d (fun e p => if e then 0 else p)
      (tfReshapeRows B (tfRepeatEach k (hasEos S.eos_id s.decoder_input)))
      (tfReshapeRows B ((beamTop S k s).map (List.map (·.2))).flatten),
      r.length = par * k := by
    rw [hieeq, hveq]
    exact zipWith2d_rows hie2 hv2
  refine ⟨?_, ?_, ?_⟩
  · simp only [beamCandidateScores]
    exact zipWith2d_length hmaskedLen hlpRepLen
  · simp only [beamCandidateScores]
    exact zipWith2d_rows hmaskedRows hlpRepRows
  · intro b hb c hc
    have hck : c / k < par := (Nat.div_lt_iff_lt_mul (by omega)).mpr hc
    have hr : b * par + c / k < B * par := by
      calc b * par + c / k < b * par + par := by omega
        _ = (b + 1) * par := by ring
        _ ≤ B * par := Nat.mul_le_mul_right par (by omega)
    have hidx : b * (par * k) + c = (b * par + c / k) * k + c % k := by
      have hdm := Nat.div_add_mod c k
      ring_nf
      omega
    have hflatidx : b * (par * k) + c < B * (par * k) := by
      calc b * (par * k) + c < b * (par * k) + par * k := by omega
        _ = (b + 1) * (par * k) := by ring
        _ ≤ B * (par * k) := Nat.mul_le_mul_right _ (by omega)
    simp only [beamCandidateScores]
    rw [zipWith2d_getD hmaskedLen hlpRepLen hmaskedRows hlpRepRows hb hc
      0 0 0]
    congr 1
    · -- the masked top-k score
      rw [hieeq, hveq,
        zipWith2d_getD hie1 hv1 hie2 hv2 hb hc false 0 0]
      have hieEntry : ((tfChunk (par * k) (tfRepeatEach k
          (hasEos S.eos_id s.decoder_input))).getD b []).getD c false =
          (s.decoder_input.getD (b * par + c / k) []).any (· == S.eos_id) := by
        rw [hie3 b hb, getD_take_drop hc (by rw [hielen]; exact hflatidx)
            false,
          tfRepeatEach_getD (by
            rw [hasEos, List.length_map, hdec, Nat.mul_assoc]
            exact hflatidx) false]
        have hdiv : (b * (par * k) + c) / k = b * par + c / k := by
          rw [hidx, Nat.mul_comm (b * par + c / k) k,
            Nat.mul_add_div (by omega : 0 < k),
            Nat.div_eq_of_lt (Nat.mod_lt _ (by omega))]
          omega
        rw [hdiv, hasEos, getD_map (by omega) [] false]
      have hvEntry : ((tfChunk (par * k) ((beamTop S k s).map
          (List.map (·.2))).flatten).getD b []).getD c 0 =
          ((tfTopK k (S.model (s.encoder_input.getD (b * par + c / k) [])
            (s.decoder_input.getD (b * par + c / k) []))).getD (c % k)
            (0, 0)).2 := by
        rw [hv3 b hb, getD_take_drop hc (by rw [hvlen]; exact hflatidx) 0,
          hidx,
          flatten_uniform_getD hvalsRows (by
            rw [List.length_map, htopl]; exact hr)
            (Nat.mod_lt _ (by omega)) 0]
        rw [getD_map (by rw [htopl]; exact hr) [] []]
        have hcm : c % k < ((beamTop S k s).getD (b * par + c / k) []).length := by
          rw [List.getD_eq_getElem _ _ (by rw [htopl]; exact hr),
            htopr _ (List.getElem_mem (by rw [htopl]; exact hr))]
          exact Nat.mod_lt _ (by omega)
        rw [getD_map hcm (0, 0) 0, beamTop_getD henc hdec hr]
      rw [hieEntry, hvEntry]
    · -- the repeated parent log-probability
      rw [getD_map (by omega) [] [],
        tfRepeatEach_getD (by
          rw [List.getD_eq_getElem _ _
            (show b < s.log_perplexity.length by omega),
            hlpr _ (List.getElem_mem _)]
          exact hc) 0]

theorem mem_tfRepeatEach {α : Type} {k : ℕ} {l : List α} {x : α}
    (hx : x ∈ tfRepeatEach k l) : x ∈ l := by
  rw [tfRepeatEach, List.mem_flatMap] at hx
  obtain ⟨a, ha, hrep⟩ := hx
  rw [List.eq_of_mem_replicate hrep]
  exact ha

theorem beamNewTokens_length {S : Searcher} {k : ℕ} {s : BeamState} {R : ℕ}
    (henc : s.encoder_input.length = R) (hdec : s.decoder_input.length = R)
    (hM : ∀ e d, k ≤ (S.model e d).length) :
    (beamNewTokens S k s).length = R * k := by
  rw [beamNewTokens]
  rw [flatten_uniform_length (m := k) (by
    intro g hg
    obtain ⟨r, hr, rfl⟩ := List.mem_map.mp hg
    rw [List.length_map]
    exact beamTop_rows hM r hr)]
  rw [List.length_map, beamTop_length henc hdec]

theorem beamNewTokens_getD {S : Searcher} {k : ℕ} {s : BeamState} {R : ℕ}
    (henc : s.encoder_input.length = R) (hdec : s.decoder_input.length = R)
    (hM : ∀ e d, k ≤ (S.model e d).length) {r j : ℕ} (hr : r < R)
    (hj : j < k) :
    (beamNewTokens S k s).getD (r * k + j) 0 =
      (((tfTopK k (S.model (s.encoder_input.getD r [])
        (s.decoder_input.getD r []))).getD j (0, 0)).1 : ℤ) := by
  rw [beamNewTokens]
  rw [flatten_uniform_getD (m := k) (by
      intro g hg
      obtain ⟨q, hq, rfl⟩ := List.mem_map.mp hg
      rw [List.length_map]
      exact beamTop_rows hM q hq)
    (by rw [List.length_map, beamTop_length henc hdec]; exact hr) hj 0]
  rw [getD_map (by rw [beamTop_length henc hdec]; exact hr) [] []]
  have hjr : j < ((beamTop S k s).getD r []).length := by
    rw [List.getD_eq_getElem _ _ (by rw [beamTop_length henc hdec]; exact hr),
      beamTop_rows hM _ (List.getElem_mem _)]
    exact hj
  rw [getD_map hjr (0, 0) 0, beamTop_getD henc hdec hr]

theorem beamCandidates_shape {S : Searcher} {B k w : ℕ} {s : BeamState}
    (hB : 1 ≤ B) (hk : 1 ≤ k) (hM : ∀ e d, k ≤ (S.model e d).length)
    (henc : s.encoder_input.length = B * k)
    (hdec : s.decoder_input.length = B * k)
    (hrows : ∀ r ∈ s.decoder_input, r.length = w) :
    (beamCandidates S k s).length = B ∧
    (∀ g ∈ beamCandidates S k s, g.length = k * k) ∧
    (∀ g ∈ beamCandidates S k s, ∀ r ∈ g, r.length = w + 1) ∧
    ∀ b < B, ∀ c < k * k,
      ((beamCandidates S k s).getD b []).getD c [] =
        s.decoder_input.getD (b * k + c / k) [] ++
          [(((tfTopK k (S.model (s.encoder_input.getD (b * k + c / k) [])
            (s.decoder_input.getD (b * k + c / k) []))).getD (c % k)
            (0, 0)).1 : ℤ)] := by
  have hrep : (tfRepeatEach k s.decoder_input).length = B * k * k := by
    rw [tfRepeatEach_length, hdec]
  have hnt : (beamNewTokens S k s).length = B * k * k :=
    beamNewTokens_length henc hdec hM
  have hclen : (List.zipWith (fun r t => r ++ [t])
      (tfRepeatEach k s.decoder_input) (beamNewTokens S k s)).length =
      B * (k * k) := by
    rw [List.length_zipWith, hrep, hnt, min_self, Nat.mul_assoc]
  have hm : 0 < k * k := by positivity
  obtain ⟨hc1, hc2, hc3⟩ := tfChunk_spec hm B _ hclen
  have hcrow : ∀ r ∈ List.zipWith (fun r t => r ++ [t])
      (tfRepeatEach k s.decoder_input) (beamNewTokens S k s),
      r.length = w + 1 := by
    intro r hr
    obtain ⟨n, hn, he⟩ := List.mem_iff_getElem.mp hr
    have hn1 : n < (tfRepeatEach k s.decoder_input).length := by
      rw [List.length_zipWith] at hn; omega
    rw [List.getElem_zipWith] at he
    rw [← he, List.length_append,
      hrows _ (mem_tfRepeatEach (List.getElem_mem hn1))]
    rfl
  refine ⟨by rw [beamCandidates]; exact hc1, by rw [beamCandidates]; exact hc2,
    ?_, ?_⟩
  · intro g hg r hr
    rw [beamCandidates] at hg
    have hsub : g.Sublist (List.zipWith (fun r t => r ++ [t])
        (tfRepeatEach k s.decoder_input) (beamNewTokens S k s)) := by
      obtain ⟨n, hn, he⟩ := List.mem_iff_getElem.mp hg
      have hn2 : n < B := by rwa [hc1] at hn
      rw [← he, ← List.getD_eq_getElem _ [] hn, hc3 n hn2]
      exact (List.take_sublist _ _).trans (List.drop_sublist _ _)
    exact hcrow r (hsub.subset hr)
  · intro b hb c hc
    have hck : c / k < k := (Nat.div_lt_iff_lt_mul (by omega)).mpr hc
    have hr : b * k + c / k < B * k := by
      calc b * k + c / k < b * k + k := by omega
        _ = (b + 1) * k := by ring
        _ ≤ B * k := Nat.mul_le_mul_right k (by omega)
    have hidx : b * (k * k) + c = (b * k + c / k) * k + c % k := by
      have hdm := Nat.div_add_mod c k
      ring_nf
      omega
    have hflatidx : b * (k * k) + c < B * k * k := by
      have h2 : b * (k * k) + c < (b + 1) * (k * k) := by
        have : (b + 1) * (k * k) = b * (k * k) + k * k := by ring
        omega
      have h3 : (b + 1) * (k * k) ≤ B * (k * k) :=
        Nat.mul_le_mul_right _ (by omega)
      have h4 : B * (k * k) = B * k * k := by ring
      omega
    rw [beamCandidates, hc3 b hb,
      getD_take_drop hc (by
        rw [hclen]
        have hBkk : B * (k * k) = B * k * k := by ring
        omega) [],
      getD_zipWith (by omega) (by omega) [] 0 []]
    rw [tfRepeatEach_getD (by rw [hdec]; omega) [],
      show b * (k * k) + c = (b * k + c / k) * k + c % k from hidx,
      beamNewTokens_getD henc hdec hM hr (Nat.mod_lt _ (by omega))]
    congr 2
    rw [← hidx]
    have hdiv : (b * (k * k) + c) / k = b * k + c / k := by
      rw [hidx, Nat.mul_comm (b * k + c / k) k,
        Nat.mul_add_div (by omega : 0 < k),
        Nat.div_eq_of_lt (Nat.mod_lt _ (by omega))]
      omega
    rw [hdiv]

theorem beamPenalties_shape {S : Searcher} {B k : ℕ} {alpha beta : ℤ}
    {s : BeamState} (hcl : (beamCandidates S k s).length = B)
    (hcg : ∀ g ∈ beamCandidates S k s, g.length = k * k) :
    (beamPenalties S k alpha beta s).length = B ∧
    (∀ r ∈ beamPenalties S k alpha beta s, r.length = k * k) ∧
    ∀ b < B, ∀ c < k * k,
      ((beamPenalties S k alpha beta s).getD b []).getD c 0 =
        lengthPenalty alpha beta (toSequenceLength S.eos_id
          (((beamCandidates S k s).getD b []).getD c [])) := by
  refine ⟨?_, ?_, ?_⟩
  · rw [beamPenalties, List.length_map, get_sequnce_lengths, List.length_map,
      hcl]
  · intro r hr
    rw [beamPenalties] at hr
    obtain ⟨r1, hr1, rfl⟩ := List.mem_map.mp hr
    rw [get_sequnce_lengths] at hr1
    obtain ⟨r2, hr2, rfl⟩ := List.mem_map.mp hr1
    rw [List.length_map, List.length_map]
    exact hcg r2 hr2
  · intro b hb c hc
    have hb1 : b < (get_sequnce_lengths S.eos_id
        (beamCandidates S k s)).length := by
      rw [get_sequnce_lengths, List.length_map, hcl]; omega
    have hb2 : b < (beamCandidates S k s).length := by omega
    rw [beamPenalties, getD_map hb1 [] [], get_sequnce_lengths,
      getD_map hb2 [] []]
    have hc1 : c < (((beamCandidates S k s).getD b []).map
        (toSequenceLength S.eos_id)).length := by
      rw [List.length_map, List.getD_eq_getElem _ _ hb2,
        hcg _ (List.getElem_mem _)]
      exact hc
    have hc2 : c < ((beamCandidates S k s).getD b []).length := by
      rwa [List.length_map] at hc1
    rw [getD_map hc1 0 0, getD_map hc2 [] 0]

theorem beamTopIndices_getD {S : Searcher} {B k : ℕ} {alpha beta : ℤ}
    {s : BeamState}
    (hsl : (beamCandidateScores S B k s).length = B)
    (hpl : (beamPenalties S k alpha beta s).length = B) {b : ℕ} (hb : b < B) :
    (beamTopIndices S B k alpha beta s).getD b [] =
      tfTopKIndices k ((zipWith2d (· * ·) (beamCandidateScores S B k s)
        (beamPenalties S k alpha beta s)).getD b []) := by
  rw [beamTopIndices, getD_map (by rw [zipWith2d_length hsl hpl]; omega) [] []]

theorem tfTopKIndices_facts (k : ℕ) (l : List ℚ) :
    (tfTopKIndices k l).length = min k l.length ∧
    (tfTopKIndices k l).Nodup ∧
    (∀ i ∈ tfTopKIndices k l, i < l.length) ∧
    (∀ i ∈ tfTopKIndices k l, ∀ j < l.length, j ∉ tfTopKIndices k l →
      l.getD j 0 ≤ l.getD i 0) ∧
    List.Pairwise (fun a b : ℚ => b ≤ a)
      ((tfTopKIndices k l).map (fun i => l.getD i 0)) := by
  have hmap : (tfTopKIndices k l).map (fun i => l.getD i 0) =
      tfTopKValues k l := by
    rw [tfTopKIndices, tfTopKValues, List.map_map]
    refine List.map_congr_left ?_
    intro p hp
    exact (tfTopK_mem hp).2
  refine ⟨?_, tfTopK_nodup_indices k l, ?_, ?_, ?_⟩
  · rw [tfTopKIndices, List.length_map, tfTopK_length]
  · intro i hi
    obtain ⟨p, hp, rfl⟩ := List.mem_map.mp hi
    exact (tfTopK_mem hp).1
  · intro i hi j hj hjnot
    obtain ⟨p, hp, rfl⟩ := List.mem_map.mp hi
    rw [(tfTopK_mem hp).2]
    exact tfTopK_dominates hj hjnot p hp
  · rw [hmap]
    exact tfTopKValues_sorted k l

theorem beamBody_else_enc {S : Searcher} {B k : ℕ} {alpha beta : ℤ}
    {s : BeamState} (hw1 : tfShape1 s.decoder_input ≠ 1) :
    (beamBody S B k alpha beta s).encoder_input = s.encoder_input := by
  rw [beamBody, if_neg hw1]

theorem beamBody_else_dec {S : Searcher} {B k : ℕ} {alpha beta : ℤ}
    {s : BeamState} (hw1 : tfShape1 s.decoder_input ≠ 1) :
    (beamBody S B k alpha beta s).decoder_input =
      (List.zipWith (fun grp idxs => idxs.map fun i => grp.getD i [])
        (beamCandidates S k s)
        (beamTopIndices S B k alpha beta s)).flatten := by
  rw [beamBody, if_neg hw1]

theorem beamBody_else_lp {S : Searcher} {B k : ℕ} {alpha beta : ℤ}
    {s : BeamState} (hw1 : tfShape1 s.decoder_input ≠ 1) :
    (beamBody S B k alpha beta s).log_perplexity =
      List.zipWith (fun row idxs => idxs.map fun i => row.getD i 0)
        (beamCandidateScores S B k s)
        (beamTopIndices S B k alpha beta s) := by
  rw [beamBody, if_neg hw1]

theorem tfShape1_of_rows {X : List (List ℤ)} {m : ℕ} (hlen : 0 < X.length)
    (hrows : ∀ r ∈ X, r.length = m) : tfShape1 X = m := by
  unfold tfShape1
  rw [headI_eq_getD_nil, List.getD_eq_getElem _ _ hlen]
  exact hrows _ (List.getElem_mem _)

theorem beamCond_elim {S : Searcher} {s : BeamState}
    (h : beamCond S s = true) :
    (tfShape1 s.decoder_input : ℤ) < S.max_sequence_length ∧
      ∃ r ∈ s.decoder_input, r.any (· == S.eos_id) = false := by
  simp only [beamCond, Bool.and_eq_true, decide_eq_true_eq] at h
  obtain ⟨h1, h2⟩ := h
  rw [List.any_eq_true] at h2
  obtain ⟨b, hb, hnb⟩ := h2
  rw [hasEos] at hb
  obtain ⟨r, hr, rfl⟩ := List.mem_map.mp hb
  refine ⟨h1, r, hr, ?_⟩
  simpa using hnb

theorem beamPost_step {S : Searcher} {B k w : ℕ} {alpha beta : ℤ}
    {s : BeamState} (hB : 1 ≤ B) (hk : 1 ≤ k)
    (hM : ∀ e d, k ≤ (S.model e d).length) (hP : BeamPost S B k w s) :
    BeamPost S B k (w + 1) (beamBody S B k alpha beta s) := by
  have h2w := hP.twoLe
  have hld := hP.lenDec
  have hw1 : tfShape1 s.decoder_input ≠ 1 := by
    rw [hP.width]; omega
  have hdrows : ∀ r ∈ s.decoder_input, r.length = w := fun r hr =>
    (hP.rows r hr).1
  obtain ⟨hs1, hs2, _⟩ := beamCandidateScores_shape hB hk hk hM hP.lenEnc
    hP.lenDec hP.lenLp hP.lpRow
  obtain ⟨hc1, hc2, hc3, hc4⟩ := beamCandidates_shape hB hk hM hP.lenEnc
    hP.lenDec hdrows
  obtain ⟨hp1, hp2, _⟩ := @beamPenalties_shape S B k alpha beta s hc1 hc2
  have hprodLen : (zipWith2d (· * ·) (beamCandidateScores S B k s)
      (beamPenalties S k alpha beta s)).length = B := zipWith2d_length hs1 hp1
  have hprodRows : ∀ r ∈ zipWith2d (· * ·) (beamCandidateScores S B k s)
      (beamPenalties S k alpha beta s), r.length = k * k :=
    zipWith2d_rows hs2 hp2
  have hselLen : (beamTopIndices S B k alpha beta s).length = B := by
    rw [beamTopIndices, List.length_map, hprodLen]
  have hselRow : ∀ b < B, ((beamTopIndices S B k alpha beta s).getD b
      []).length = k ∧ ∀ i ∈ (beamTopIndices S B k alpha beta s).getD b [],
      i < k * k := by
    intro b hb
    rw [beamTopIndices_getD hs1 hp1 hb]
    have hlen : ((zipWith2d (· * ·) (beamCandidateScores S B k s)
        (beamPenalties S k alpha beta s)).getD b []).length = k * k := by
      rw [List.getD_eq_getElem _ _ (by omega)]
      exact hprodRows _ (List.getElem_mem _)
    obtain ⟨hf1, _, hf3, _, _⟩ := tfTopKIndices_facts k
      ((zipWith2d (· * ·) (beamCandidateScores S B k s)
        (beamPenalties S k alpha beta s)).getD b [])
    refine ⟨?_, ?_⟩
    · rw [hf1, hlen]
      exact Nat.min_eq_left (Nat.le_mul_of_pos_left k (by omega))
    · intro i hi
      have := hf3 i hi
      omega
  have hgatherLen : (List.zipWith (fun grp idxs => idxs.map fun i =>
      grp.getD i []) (beamCandidates S k s)
      (beamTopIndices S B k alpha beta s)).length = B := by
    rw [List.length_zipWith, hc1, hselLen, min_self]
  have hgatherRows : ∀ r ∈ List.zipWith (fun grp idxs => idxs.map fun i =>
      grp.getD i []) (beamCandidates S k s)
      (beamTopIndices S B k alpha beta s), r.length = k := by
    intro r hr
    obtain ⟨n, hn, he⟩ := List.mem_iff_getElem.mp hr
    have hnB : n < B := by rwa [hgatherLen] at hn
    rw [List.getElem_zipWith] at he
    rw [← he, List.length_map]
    have := (hselRow n hnB).1
    rwa [List.getD_eq_getElem _ _ (by omega)] at this
  have hdecRows : ∀ r ∈ (beamBody S B k alpha beta s).decoder_input,
      r.length = w + 1 ∧ r.getD 0 0 = S.bos_id := by
    rw [beamBody_else_dec hw1]
    intro r hr
    obtain ⟨g, hg, hrg⟩ := List.mem_flatten.mp hr
    obtain ⟨n, hn, he⟩ := List.mem_iff_getElem.mp hg
    have hnB : n < B := by rwa [hgatherLen] at hn
    rw [List.getElem_zipWith] at he
    rw [← he] at hrg
    obtain ⟨i, hi, rfl⟩ := List.mem_map.mp hrg
    have hik : i < k * k := by
      refine (hselRow n hnB).2 i ?_
      rwa [List.getD_eq_getElem _ _ (by omega)]
    have hmem : (beamCandidates S k s)[n].getD i [] ∈
        (beamCandidates S k s)[n] := by
      have hlen : ((beamCandidates S k s)[n]).length = k * k :=
        hc2 _ (List.getElem_mem _)
      rw [List.getD_eq_getElem _ _ (by omega)]
      exact List.getElem_mem _
    constructor
    · exact hc3 _ (List.getElem_mem _) _ hmem
    · -- every candidate row extends a decoder row, which starts with bos
      have hcand := hc4 n hnB i hik
      have hnlen : n < (beamCandidates S k s).length := by omega
      rw [← List.getD_eq_getElem (beamCandidates S k s) [] hnlen, hcand]
      have hparent : s.decoder_input.getD (n * k + i / k) [] ∈
          s.decoder_input := by
        have hik : i / k < k := (Nat.div_lt_iff_lt_mul (by omega)).mpr hik
        have hr2 : n * k + i / k < B * k := by
          calc n * k + i / k < n * k + k := by omega
            _ = (n + 1) * k := by ring
            _ ≤ B * k := Nat.mul_le_mul_right k (by omega)
        rw [List.getD_eq_getElem _ _ (by omega)]
        exact List.getElem_mem _
      have hplen : (s.decoder_input.getD (n * k + i / k) []).length = w :=
        hdrows _ hparent
      rw [getD_append_left (by omega)]
      exact (hP.rows _ hparent).2
  refine ⟨?_, ?_, ?_, ?_, ?_, by omega, hdecRows⟩
  · rw [beamBody_else_enc hw1]
    exact hP.lenEnc
  · rw [beamBody_else_dec hw1, flatten_uniform_length hgatherRows, hgatherLen]
  · rw [beamBody_else_lp hw1, List.length_zipWith, hs1, hselLen, min_self]
  · rw [beamBody_else_lp hw1]
    intro r hr
    obtain ⟨n, hn, he⟩ := List.mem_iff_getElem.mp hr
    have hnB : n < B := by
      rw [List.length_zipWith, hs1, hselLen, min_self] at hn
      exact hn
    rw [List.getElem_zipWith] at he
    rw [← he, List.length_map]
    have := (hselRow n hnB).1
    rwa [List.getD_eq_getElem _ _ (by omega)] at this
  · rw [beamBody_else_dec hw1]
    refine tfShape1_of_rows ?_ (fun r hr => ((by
      rw [← beamBody_else_dec hw1] at hr
      exact hdecRows r hr) : r.length = w + 1 ∧ _).1)
    rw [flatten_uniform_length hgatherRows, hgatherLen]
    positivity

theorem beamInit_lens (S : Searcher) (enc : List (List ℤ)) :
    (beamInit S enc).encoder_input = enc ∧
    (beamInit S enc).decoder_input.length = enc.length ∧
    (beamInit S enc).log_perplexity.length = enc.length := by
  refine ⟨rfl, ?_, ?_⟩ <;> simp [beamInit]

theorem tfShape1_beamInit {S : Searcher} {enc : List (List ℤ)}
    (hB : 1 ≤ enc.length) : tfShape1 (beamInit S enc).decoder_input = 1 := by
  refine tfShape1_of_rows (by simp [beamInit]; omega) ?_
  intro r hr
  rw [beamInit] at hr
  simp only at hr
  rw [List.eq_of_mem_replicate hr]
  rfl

theorem beamInit_step {S : Searcher} {enc : List (List ℤ)} {k : ℕ}
    {alpha beta : ℤ} (hB : 1 ≤ enc.length) (hk : 1 ≤ k)
    (hM : ∀ e d, k ≤ (S.model e d).length) :
    BeamPost S enc.length k 2
      (beamBody S enc.length k alpha beta (beamInit S enc)) := by
  have hw1 := tfShape1_beamInit (S := S) hB
  have hbody : beamBody S enc.length k alpha beta (beamInit S enc) =
      { encoder_input := tfRepeatEach k (beamInit S enc).encoder_input,
        decoder_input := List.zipWith (fun b t => [b, t])
          (List.replicate (enc.length * k) S.bos_id)
          (beamNewTokens S k (beamInit S enc)),
        log_perplexity :=
          beamCandidateScores S enc.length k (beamInit S enc) } := by
    rw [beamBody, if_pos hw1]
  have hie : (beamInit S enc).encoder_input = enc := rfl
  have hid : (beamInit S enc).decoder_input.length = enc.length := by
    simp [beamInit]
  have hnt : (beamNewTokens S k (beamInit S enc)).length = enc.length * k :=
    beamNewTokens_length (by rw [hie]) hid hM
  have hdl : (List.zipWith (fun b t => [b, t])
      (List.replicate (enc.length * k) S.bos_id)
      (beamNewTokens S k (beamInit S enc))).length = enc.length * k := by
    rw [List.length_zipWith, List.length_replicate, hnt, min_self]
  have hdrows : ∀ r ∈ List.zipWith (fun b t => [b, t])
      (List.replicate (enc.length * k) S.bos_id)
      (beamNewTokens S k (beamInit S enc)),
      r.length = 2 ∧ r.getD 0 0 = S.bos_id := by
    intro r hr
    obtain ⟨n, hn, he⟩ := List.mem_iff_getElem.mp hr
    have hn1 : n < (List.replicate (enc.length * k) S.bos_id).length := by
      rw [List.length_zipWith] at hn; omega
    rw [List.getElem_zipWith] at he
    rw [← he, List.getElem_replicate]
    exact ⟨rfl, rfl⟩
  obtain ⟨hs1, hs2, _⟩ :=
    @beamCandidateScores_shape S enc.length k 1 (beamInit S enc)
    hB hk le_rfl hM
    (by rw [hie, Nat.mul_one]) (by rw [hid, Nat.mul_one])
    (by simp [beamInit])
    (by
      intro r hr
      rw [beamInit] at hr
      simp only at hr
      rw [List.eq_of_mem_replicate hr]
      rfl)
  rw [hbody]
  refine ⟨?_, hdl, hs1, ?_, ?_, le_rfl, fun r hr => hdrows r hr⟩
  · rw [hie, tfRepeatEach_length]
  · intro r hr
    have := hs2 r hr
    rwa [Nat.one_mul] at this
  · exact tfShape1_of_rows (by rw [hdl]; positivity)
      (fun r hr => (hdrows r hr).1)

theorem beam_reach {S : Searcher} {enc : List (List ℤ)} {k : ℕ}
    {alpha beta : ℤ} (hB : 1 ≤ enc.length) (hk : 1 ≤ k)
    (hM : ∀ e d, k ≤ (S.model e d).length) (n : ℕ) :
    tfWhileLoop (beamCond S) (beamBody S enc.length k alpha beta) n
        (beamInit S enc) = beamInit S enc ∨
    ∃ w, BeamPost S enc.length k w
        (tfWhileLoop (beamCond S) (beamBody S enc.length k alpha beta) n
          (beamInit S enc)) ∧
      (w : ℤ) ≤ max 1 S.max_sequence_length := by
  induction n with
  | zero => exact Or.inl rfl
  | succ n ih =>
    rw [tfWhileLoop_add _ _ n 1]
    by_cases hc : beamCond S (tfWhileLoop (beamCond S)
        (beamBody S enc.length k alpha beta) n (beamInit S enc)) = true
    · have h1 : tfWhileLoop (beamCond S)
          (beamBody S enc.length k alpha beta) 1
          (tfWhileLoop (beamCond S) (beamBody S enc.length k alpha beta) n
            (beamInit S enc)) =
          beamBody S enc.length k alpha beta
            (tfWhileLoop (beamCond S) (beamBody S enc.length k alpha beta) n
              (beamInit S enc)) := by
        rw [tfWhileLoop_cond_true hc 0]
        rfl
      rw [h1]
      rcases ih with he | ⟨w, hP, _⟩
      · rw [he] at hc ⊢
        refine Or.inr ⟨2, beamInit_step hB hk hM, ?_⟩
        have hlt := (beamCond_elim hc).1
        rw [tfShape1_beamInit hB] at hlt
        exact le_max_of_le_right (by push_cast at hlt ⊢; omega)
      · refine Or.inr ⟨w + 1, beamPost_step hB hk hM hP, ?_⟩
        have hlt := (beamCond_elim hc).1
        rw [hP.width] at hlt
        exact le_max_of_le_right (by push_cast at hlt ⊢; omega)
    · rw [tfWhileLoop_of_cond_false (by simpa using hc) 1]
      exact ih

theorem beam_loop_cond_false {S : Searcher} {enc : List (List ℤ)} {k : ℕ}
    {alpha beta : ℤ} (hB : 1 ≤ enc.length) (hk : 1 ≤ k)
    (hM : ∀ e d, k ≤ (S.model e d).length) :
    beamCond S (tfWhileLoop (beamCond S) (beamBody S enc.length k alpha beta)
      S.max_sequence_length.toNat (beamInit S enc)) = false := by
  refine tfWhileLoop_exit
    (fun s => s = beamInit S enc ∨ ∃ w, BeamPost S enc.length k w s)
    (fun s => S.max_sequence_length.toNat - tfShape1 s.decoder_input)
    ?_ ?_ _ _ (Or.inl rfl) (Nat.sub_le _ _)
  · rintro s (rfl | ⟨w, hP⟩) hc
    · exact Or.inr ⟨2, beamInit_step hB hk hM⟩
    · exact Or.inr ⟨w + 1, beamPost_step hB hk hM hP⟩
  · rintro s (rfl | ⟨w, hP⟩) hc
    · have hlt := (beamCond_elim hc).1
      rw [tfShape1_beamInit hB] at hlt
      have hw2 : tfShape1 (beamBody S enc.length k alpha beta
          (beamInit S enc)).decoder_input = 2 :=
        (@beamInit_step S enc k alpha beta hB hk hM).width
      simp only
      rw [hw2, tfShape1_beamInit hB]
      omega
    · have hlt := (beamCond_elim hc).1
      rw [hP.width] at hlt
      have hw2 : tfShape1 (beamBody S enc.length k alpha beta
          s).decoder_input = w + 1 :=
        (@beamPost_step S enc.length k w alpha beta s hB hk hM hP).width
      simp only
      rw [hw2, hP.width]
      have h2w := hP.twoLe
      omega

theorem beam_search_eq (S : Searcher) (enc : List (List ℤ)) (k : ℕ)
    (alpha beta : ℤ) :
    S.beam_search enc k alpha beta =
      { decoder_input := zipWith2d
          (fun len (row : List ℤ) =>
            row.enum.map fun p => if (p.1 : ℤ) < len then p.2 else S.pad_id)
          (get_sequnce_lengths S.eos_id
            (tfChunk k (beamFinal S enc k alpha beta).decoder_input))
          (tfChunk k (beamFinal S enc k alpha beta).decoder_input),
        log_perplexity := (beamFinal S enc k alpha beta).log_perplexity,
        sequence_lengths := get_sequnce_lengths S.eos_id
          (tfChunk k (beamFinal S enc k alpha beta).decoder_input) } := rfl

theorem beam_search_lengths (S : Searcher) (enc : List (List ℤ)) (k : ℕ)
    (alpha beta : ℤ) :
    (S.beam_search enc k alpha beta).decoder_input.length =
      (tfChunk k (beamFinal S enc k alpha beta).decoder_input).length ∧
    (S.beam_search enc k alpha beta).sequence_lengths.length =
      (tfChunk k (beamFinal S enc k alpha beta).decoder_input).length ∧
    ∀ b < (tfChunk k (beamFinal S enc k alpha beta).decoder_input).length,
      ((S.beam_search enc k alpha beta).decoder_input.getD b []).length =
        ((tfChunk k (beamFinal S enc k alpha beta).decoder_input).getD b
          []).length ∧
      ((S.beam_search enc k alpha beta).sequence_lengths.getD b []).length =
        ((tfChunk k (beamFinal S enc k alpha beta).decoder_input).getD b
          []).length := by
  rw [beam_search_eq]
  have hll : (get_sequnce_lengths S.eos_id
      (tfChunk k (beamFinal S enc k alpha beta).decoder_input)).length =
      (tfChunk k (beamFinal S enc k alpha beta).decoder_input).length := by
    rw [get_sequnce_lengths, List.length_map]
  refine ⟨?_, hll, ?_⟩
  · rw [zipWith2d, List.length_zipWith, hll, min_self]
  · intro b hb
    have hbl : b < (get_sequnce_lengths S.eos_id (tfChunk k
        (beamFinal S enc k alpha beta).decoder_input)).length := by omega
    constructor
    · simp only
      rw [zipWith2d, getD_zipWith hbl (by omega) [] [] [],
        get_sequnce_lengths, getD_map hb [] [], List.length_zipWith,
        List.length_map]
      omega
    · simp only
      rw [get_sequnce_lengths, getD_map hb [] [], List.length_map]

theorem beam_search_getD (S : Searcher) (enc : List (List ℤ)) (k : ℕ)
    (alpha beta : ℤ) {b j : ℕ}
    (hb : b < (tfChunk k (beamFinal S enc k alpha beta).decoder_input).length)
    (hj : j < ((tfChunk k (beamFinal S enc k alpha beta).decoder_input).getD b
      []).length) :
    ((S.beam_search enc k alpha beta).decoder_input.getD b []).getD j [] =
      (((tfChunk k (beamFinal S enc k alpha beta).decoder_input).getD b
        []).getD j []).enum.map (fun p =>
          if (p.1 : ℤ) < toSequenceLength S.eos_id
            (((tfChunk k (beamFinal S enc k alpha beta).decoder_input).getD b
              []).getD j []) then p.2 else S.pad_id) ∧
    ((S.beam_search enc k alpha beta).sequence_lengths.getD b []).getD j 0 =
      toSequenceLength S.eos_id
        (((tfChunk k (beamFinal S enc k alpha beta).decoder_input).getD b
          []).getD j []) := by
  rw [beam_search_eq]
  have hbl : b < (get_sequnce_lengths S.eos_id (tfChunk k
      (beamFinal S enc k alpha beta).decoder_input)).length := by
    rw [get_sequnce_lengths, List.length_map]; omega
  have hjm : j < (((tfChunk k (beamFinal S enc k alpha beta).decoder_input).getD
      b []).map (toSequenceLength S.eos_id)).length := by
    rw [List.length_map]; omega
  constructor
  · simp only
    rw [zipWith2d, getD_zipWith hbl (by omega) [] [] [],
      get_sequnce_lengths, getD_map hb [] [],
      getD_zipWith hjm hj 0 [] [], getD_map hj [] 0]
  · simp only
    rw [get_sequnce_lengths, getD_map hb [] [], getD_map hj [] 0]

theorem masked_after_first_eos {eos pad : ℤ} {row : List ℤ} {p j : ℕ}
    (hj : j < row.length) (hpj : p < j)
    (hp : (row.enum.map fun q => if (q.1 : ℤ) < toSequenceLength eos row
      then q.2 else pad).getD p 0 = eos)
    (hfirst : ∀ q < p, (row.enum.map fun q => if (q.1 : ℤ) <
      toSequenceLength eos row then q.2 else pad).getD q 0 ≠ eos) :
    (row.enum.map fun q => if (q.1 : ℤ) < toSequenceLength eos row
      then q.2 else pad).getD j 0 = pad := by
  have hpr : p < row.length := by omega
  rcases toSequenceLength_spec eos row with
    ⟨f, hf, hfe, hffirst, hlen⟩ | ⟨hnone, hlen⟩
  · have hpf : p = f := by
      rcases lt_trichotomy p f with h | h | h
      · exfalso
        apply absurd hp
        rw [mask_row_getD hpr, if_pos (by omega)]
        exact hffirst p h
      · exact h
      · exfalso
        refine hfirst f h ?_
        rw [mask_row_getD (by omega), if_pos (by omega)]
        exact hfe
    rw [mask_row_getD hj, if_neg (by omega)]
  · exfalso
    apply absurd hp
    rw [mask_row_getD hpr, if_pos (by omega)]
    exact hnone p hpr

theorem beamFinal_cases {S : Searcher} {enc : List (List ℤ)} {k : ℕ}
    {alpha beta : ℤ} (hB : 1 ≤ enc.length) (hk : 1 ≤ k)
    (hM : ∀ e d, k ≤ (S.model e d).length) :
    (beamFinal S enc k alpha beta = beamInit S enc ∨
      ∃ w, BeamPost S enc.length k w (beamFinal S enc k alpha beta) ∧
        (w : ℤ) ≤ max 1 S.max_sequence_length) ∧
    beamCond S (beamFinal S enc k alpha beta) = false :=
  ⟨beam_reach hB hk hM _, beam_loop_cond_false hB hk hM⟩

theorem beamFinal_B0 (S : Searcher) (k : ℕ) (alpha beta : ℤ) :
    beamFinal S [] k alpha beta = beamInit S [] := by
  refine tfWhileLoop_of_cond_false ?_ _
  unfold beamCond beamInit hasEos
  simp

theorem beam_result_B0 (S : Searcher) (k : ℕ) (alpha beta : ℤ) :
    (S.beam_search [] k alpha beta).decoder_input = [] ∧
    (S.beam_search [] k alpha beta).sequence_lengths = [] := by
  rw [beam_search_eq, beamFinal_B0]
  have hd : (beamInit S []).decoder_input = [] := rfl
  rw [hd, tfChunk_nil]
  exact ⟨rfl, rfl⟩

theorem tfChunk_zero {α : Type} (l : List α) : tfChunk 0 l = [] := by
  cases l with
  | nil => rfl
  | cons a t => rfl

theorem tfChunk_sublist {α : Type} {m : ℕ} :
    ∀ (n : ℕ) (l : List α), l.length ≤ n → ∀ g ∈ tfChunk m l, g.Sublist l := by
  intro n
  induction n with
  | zero =>
    intro l h g hg
    have : l = [] := List.length_eq_zero.mp (by omega)
    subst this
    rw [tfChunk_nil] at hg
    simp at hg
  | succ n ih =>
    intro l h g hg
    rcases Nat.eq_zero_or_pos m with rfl | hm
    · rw [tfChunk_zero] at hg
      simp at hg
    cases l with
    | nil =>
      rw [tfChunk_nil] at hg
      simp at hg
    | cons a t =>
      rw [tfChunk_cons (by omega)] at hg
      rcases List.mem_cons.mp hg with rfl | hg
      · exact List.take_sublist _ _
      · refine ((ih ((a :: t).drop m) ?_ g hg).trans (List.drop_sublist _ _))
        rw [List.length_drop, List.length_cons]
        rw [List.length_cons] at h
        omega

theorem beamFinal_chunk_facts {S : Searcher} {enc : List (List ℤ)} {k w : ℕ}
    {alpha beta : ℤ} (hk : 1 ≤ k)
    (hP : BeamPost S enc.length k w (beamFinal S enc k alpha beta)) :
    (tfChunk k (beamFinal S enc k alpha beta).decoder_input).length =
      enc.length ∧
    (∀ g ∈ tfChunk k (beamFinal S enc k alpha beta).decoder_input,
      g.length = k) ∧
    ∀ b < enc.length, ∀ j < k,
      ((tfChunk k (beamFinal S enc k alpha beta).decoder_input).getD b
        []).getD j [] =
        (beamFinal S enc k alpha beta).decoder_input.getD (b * k + j) [] ∧
      ((beamFinal S enc k alpha beta).decoder_input.getD (b * k + j)
        []).length = w ∧
      ((beamFinal S enc k alpha beta).decoder_input.getD (b * k + j)
        []).getD 0 0 = S.bos_id := by
  obtain ⟨h1, h2, h3⟩ := tfChunk_spec (by omega : 0 < k) enc.length _ hP.lenDec
  refine ⟨h1, h2, ?_⟩
  intro b hb j hj
  have hlt : b * k + j < enc.length * k := by
    calc b * k + j < b * k + k := by omega
      _ = (b + 1) * k := by ring
      _ ≤ enc.length * k := Nat.mul_le_mul_right k (by omega)
  have hmem : (beamFinal S enc k alpha beta).decoder_input.getD (b * k + j)
      [] ∈ (beamFinal S enc k alpha beta).decoder_input := by
    rw [List.getD_eq_getElem _ _ (by rw [hP.lenDec]; exact hlt)]
    exact List.getElem_mem _
  refine ⟨?_, (hP.rows _ hmem).1, (hP.rows _ hmem).2⟩
  rw [h3 b hb, getD_take_drop hj (by rw [hP.lenDec]; exact hlt) []]

theorem beamInit_chunk_row {S : Searcher} {enc : List (List ℤ)} {k : ℕ}
    {g : List (List ℤ)} {r : List ℤ}
    (hg : g ∈ tfChunk k (beamInit S enc).decoder_input) (hr : r ∈ g) :
    r = [S.bos_id] := by
  have hsub := tfChunk_sublist (m := k)
    (beamInit S enc).decoder_input.length _ le_rfl g hg
  have hmem : r ∈ (beamInit S enc).decoder_input := hsub.subset hr
  rw [beamInit] at hmem
  simp only at hmem
  exact List.eq_of_mem_replicate hmem

/-! ## Claim theorems -/

/-- **C7** (amended): in `greedy_search`, the first time an element emits
`eos` its recorded `seq_length` is set to the decoder width before the
append plus one; equivalently, the final `sequence_lengths` entry of an
ended element equals the index of its first `eos` (with `bos` at index 0)
plus one — a count that includes both the `bos` and the `eos` token — and
every element that never emits `eos` retains
`seq_length = max_sequence_length`. -/
theorem claim_C7 (S : Searcher) (enc : List (List ℤ))
    (hpe : S.pad_id ≠ S.eos_id) (i : ℕ) (hi : i < enc.length) :
    ((S.greedy_search enc).is_ended.getD i false = true →
      ∃ p : ℕ, 1 ≤ p ∧ p < tfShape1 (S.greedy_search enc).decoder_input ∧
        ((S.greedy_search enc).decoder_input.getD i []).getD p 0 = S.eos_id ∧
        (∀ q, 1 ≤ q → q < p →
          ((S.greedy_search enc).decoder_input.getD i []).getD q 0 ≠
            S.eos_id) ∧
        (S.greedy_search enc).sequence_lengths.getD i 0 = (p : ℤ) + 1) ∧
    ((S.greedy_search enc).is_ended.getD i false = false →
      (S.greedy_search enc).sequence_lengths.getD i 0 =
        S.max_sequence_length) := by
  have hrow := (greedy_search_inv S enc).rows i hi
  constructor
  · intro he
    obtain ⟨p, h1, h2, h3, h4, _, h6⟩ := hrow.ended he
    exact ⟨p, h1, h2, h3, h4, h6 hpe⟩
  · intro he
    exact (hrow.active he).2

/-- **C7** counterexample to the claim as stated: with a model whose argmax
is always `eos`, the first greedy step emits `eos` immediately; the decoded
row is `[bos, eos]`, which contains exactly one non-`bos` token, yet the
recorded sequence length is `2`, not `1` — so the recorded length does not
exclude the `bos` token. -/
theorem claim_C7_counterexample :
    (eosSearcher.greedy_search [[0]]).decoder_input = [[2, 3]] ∧
    (eosSearcher.greedy_search [[0]]).sequence_lengths = [2] ∧
    (eosSearcher.greedy_search [[0]]).sequence_lengths ≠ [1] := by decide

/-- Witness for `claim_C7` at the `eosSearcher` run on `[[0]]`. -/
theorem claim_C7_witness :
    (eosSearcher.pad_id ≠ eosSearcher.eos_id ∧ 0 < ([[(0 : ℤ)]]).length ∧
      (eosSearcher.greedy_search [[0]]).is_ended.getD 0 false = true) ∧
    (∃ p : ℕ, 1 ≤ p ∧
      p < tfShape1 (eosSearcher.greedy_search [[0]]).decoder_input ∧
      ((eosSearcher.greedy_search [[0]]).decoder_input.getD 0 []).getD p 0 =
        eosSearcher.eos_id ∧
      (∀ q, 1 ≤ q → q < p →
        ((eosSearcher.greedy_search [[0]]).decoder_input.getD 0 []).getD q 0 ≠
          eosSearcher.eos_id) ∧
      (eosSearcher.greedy_search [[0]]).sequence_lengths.getD 0 0 =
        (p : ℤ) + 1) :=
  ⟨⟨by decide, by decide, by decide⟩,
    (claim_C7 eosSearcher [[0]] (by decide) 0 (by decide)).1 (by decide)⟩

/-- **C8** (amended): no fail-fast configuration validation exists. A
searcher constructed with `max_sequence_length ≤ 0` does not raise a
configuration error: `greedy_search` returns immediately with the
bos-only initial sequences, and the `beam_search` loop performs zero
iterations for every `beam_size`, so its initial `[batch_size, 1]`
decoder tensor reaches the final reshape of `search.py:186` unchanged.
The returned beams are stated at `beam_size = 1` only, where that reshape
is exact; for `beam_size ≥ 2` the real reshape rejects the `[batch_size,
1]` tensor with a shape error, a failure mode `tfChunk` does not model. -/
theorem claim_C8 (S : Searcher) (enc : List (List ℤ)) (k : ℕ)
    (alpha beta : ℤ) (hml : S.max_sequence_length ≤ 0) :
    (S.greedy_search enc).decoder_input =
      List.replicate enc.length [S.bos_id] ∧
    beamFinal S enc k alpha beta = beamInit S enc ∧
    ∀ b < (S.beam_search enc 1 alpha beta).decoder_input.length,
      ∀ j < ((S.beam_search enc 1 alpha beta).decoder_input.getD b
        []).length,
      ((S.beam_search enc 1 alpha beta).decoder_input.getD b []).getD j [] =
        [S.bos_id] := by
  have hgc : greedyCond S (greedyInit S enc.length) = false := by
    unfold greedyCond
    rw [decide_eq_false (by
      have : (0 : ℤ) ≤ (tfShape1 (greedyInit S enc.length).decoder_input :
        ℤ) := by positivity
      omega)]
    rfl
  have hbc : beamCond S (beamInit S enc) = false := by
    unfold beamCond
    rw [decide_eq_false (by
      have : (0 : ℤ) ≤ (tfShape1 (beamInit S enc).decoder_input : ℤ) := by
        positivity
      omega)]
    rfl
  have hfin : beamFinal S enc 1 alpha beta = beamInit S enc :=
    tfWhileLoop_of_cond_false hbc _
  refine ⟨?_, tfWhileLoop_of_cond_false hbc _, ?_⟩
  · unfold Searcher.greedy_search
    rw [tfWhileLoop_of_cond_false hgc]
    rfl
  · intro b hb j hj
    obtain ⟨hl1, _, hl3⟩ := beam_search_lengths S enc 1 alpha beta
    have hb2 : b < (tfChunk 1
        (beamFinal S enc 1 alpha beta).decoder_input).length := by omega
    have hj2 : j < ((tfChunk 1
        (beamFinal S enc 1 alpha beta).decoder_input).getD b []).length := by
      have := (hl3 b hb2).1
      omega
    rw [(beam_search_getD S enc 1 alpha beta hb2 hj2).1]
    have horig : ((tfChunk 1 (beamFinal S enc 1 alpha
        beta).decoder_input).getD b []).getD j [] = [S.bos_id] := by
      rw [hfin] at hj2 ⊢
      refine @beamInit_chunk_row S enc 1
        ((tfChunk 1 (beamInit S enc).decoder_input).getD b []) _ ?_ ?_
      · rw [List.getD_eq_getElem _ _ (by rw [← hfin]; omega)]
        exact List.getElem_mem _
      · rw [List.getD_eq_getElem _ _ hj2]
        exact List.getElem_mem _
    rw [horig]
    have hpos : (1 : ℤ) ≤ toSequenceLength S.eos_id [S.bos_id] :=
      toSequenceLength_pos (by simp)
    show [if (0 : ℤ) < toSequenceLength S.eos_id [S.bos_id] then S.bos_id
      else S.pad_id] = [S.bos_id]
    rw [if_pos (by omega)]

/-- **C8** counterexample to the claim as stated: a searcher constructed
with the invalid `max_sequence_length = 0` does not fail fast with a
configuration error — `greedy_search` proceeds and returns a normal result
(the bos-only sequence with its initial bookkeeping). -/
theorem claim_C8_counterexample :
    (zeroLenSearcher.greedy_search [[5]]).decoder_input = [[2]] ∧
    (zeroLenSearcher.greedy_search [[5]]).log_perplexity = [0] ∧
    (zeroLenSearcher.greedy_search [[5]]).sequence_lengths = [0] ∧
    (zeroLenSearcher.greedy_search [[5]]).is_ended = [false] := by decide

/-- Witness for `claim_C8` at `zeroLenSearcher` on `[[5]]`, exercising the
zero-iteration conjunct at `beam_size = 2` and the returned beams at
`beam_size = 1`. -/
theorem claim_C8_witness :
    zeroLenSearcher.max_sequence_length ≤ 0 ∧
    ((zeroLenSearcher.greedy_search [[5]]).decoder_input =
      List.replicate ([[(5 : ℤ)]]).length [zeroLenSearcher.bos_id] ∧
    beamFinal zeroLenSearcher [[5]] 2 1 32 = beamInit zeroLenSearcher [[5]] ∧
    ∀ b < (zeroLenSearcher.beam_search [[5]] 1 1 32).decoder_input.length,
      ∀ j < ((zeroLenSearcher.beam_search [[5]] 1 1
        32).decoder_input.getD b []).length,
      ((zeroLenSearcher.beam_search [[5]] 1 1 32).decoder_input.getD b
        []).getD j [] = [zeroLenSearcher.bos_id]) :=
  ⟨by decide, claim_C8 zeroLenSearcher [[5]] 2 1 32 (by decide)⟩

/-- **C3**: padding invariant. In every sequence returned by
`greedy_search` and in every beam returned by `beam_search`, every token at
a position strictly after the sequence's first `eos` equals `pad_id`
(stated for first-`eos` positions `p`: the token at `p` is `eos` and no
earlier position holds `eos`). -/
theorem claim_C3 (S : Searcher) (enc : List (List ℤ)) (k : ℕ)
    (alpha beta : ℤ) (hbe : S.bos_id ≠ S.eos_id) :
    (∀ i < enc.length, ∀ p j : ℕ, p < j →
      j < ((S.greedy_search enc).decoder_input.getD i []).length →
      ((S.greedy_search enc).decoder_input.getD i []).getD p 0 = S.eos_id →
      (∀ q < p,
        ((S.greedy_search enc).decoder_input.getD i []).getD q 0 ≠
          S.eos_id) →
      ((S.greedy_search enc).decoder_input.getD i []).getD j 0 = S.pad_id) ∧
    (∀ b < (S.beam_search enc k alpha beta).decoder_input.length,
      ∀ jb < ((S.beam_search enc k alpha beta).decoder_input.getD b
        []).length,
      ∀ p j : ℕ, p < j →
      j < (((S.beam_search enc k alpha beta).decoder_input.getD b []).getD jb
        []).length →
      (((S.beam_search enc k alpha beta).decoder_input.getD b []).getD jb
        []).getD p 0 = S.eos_id →
      (∀ q < p,
        (((S.beam_search enc k alpha beta).decoder_input.getD b []).getD jb
          []).getD q 0 ≠ S.eos_id) →
      (((S.beam_search enc k alpha beta).decoder_input.getD b []).getD jb
        []).getD j 0 = S.pad_id) := by
  constructor
  · intro i hi p j hpj hj hp hfirst
    have hrow := (greedy_search_inv S enc).rows i hi
    have hlen := hrow.len
    rw [hlen] at hj
    cases he : (S.greedy_search enc).is_ended.getD i false with
    | false =>
      exfalso
      obtain ⟨hnoeos, _⟩ := hrow.active he
      rcases Nat.eq_zero_or_pos p with rfl | hp1
      · rw [hrow.headBos] at hp
        exact hbe hp
      · exact hnoeos p hp1 (by omega) hp
    | true =>
      obtain ⟨p0, hp01, hp0w, hp0e, hp0first, hp0pad, _⟩ := hrow.ended he
      have hpp0 : p = p0 := by
        rcases lt_trichotomy p p0 with h | h | h
        · exfalso
          rcases Nat.eq_zero_or_pos p with rfl | hp1
          · rw [hrow.headBos] at hp
            exact hbe hp
          · exact hp0first p hp1 h hp
        · exact h
        · exact absurd hp0e (hfirst p0 h)
      subst hpp0
      exact hp0pad j hpj hj
  · intro b hb jb hjb p j hpj hj hp hfirst
    obtain ⟨hl1, _, hl3⟩ := beam_search_lengths S enc k alpha beta
    have hb2 : b < (tfChunk k
        (beamFinal S enc k alpha beta).decoder_input).length := by omega
    have hjb2 : jb < ((tfChunk k
        (beamFinal S enc k alpha beta).decoder_input).getD b []).length := by
      have := (hl3 b hb2).1
      omega
    have heq := (beam_search_getD S enc k alpha beta hb2 hjb2).1
    rw [heq] at hj hp hfirst ⊢
    rw [mask_row_length] at hj
    exact masked_after_first_eos hj hpj hp hfirst

/-- Witness for `claim_C3` at the `demoSearcher` run on `[[7]]`. -/
theorem claim_C3_witness :
    demoSearcher.bos_id ≠ demoSearcher.eos_id ∧
    ((∀ i < ([[(7 : ℤ)]]).length, ∀ p j : ℕ, p < j →
      j < ((demoSearcher.greedy_search [[7]]).decoder_input.getD i
        []).length →
      ((demoSearcher.greedy_search [[7]]).decoder_input.getD i []).getD p 0 =
        demoSearcher.eos_id →
      (∀ q < p,
        ((demoSearcher.greedy_search [[7]]).decoder_input.getD i []).getD q
          0 ≠ demoSearcher.eos_id) →
      ((demoSearcher.greedy_search [[7]]).decoder_input.getD i []).getD j 0 =
        demoSearcher.pad_id) ∧
    (∀ b < (demoSearcher.beam_search [[7]] 1 1 32).decoder_input.length,
      ∀ jb < ((demoSearcher.beam_search [[7]] 1 1
        32).decoder_input.getD b []).length,
      ∀ p j : ℕ, p < j →
      j < (((demoSearcher.beam_search [[7]] 1 1 32).decoder_input.getD b
        []).getD jb []).length →
      (((demoSearcher.beam_search [[7]] 1 1 32).decoder_input.getD b
        []).getD jb []).getD p 0 = demoSearcher.eos_id →
      (∀ q < p,
        (((demoSearcher.beam_search [[7]] 1 1 32).decoder_input.getD b
          []).getD jb []).getD q 0 ≠ demoSearcher.eos_id) →
      (((demoSearcher.beam_search [[7]] 1 1 32).decoder_input.getD b
        []).getD jb []).getD j 0 = demoSearcher.pad_id)) :=
  ⟨by decide, claim_C3 demoSearcher [[7]] 1 1 32 (by decide)⟩

/-- **C10**: for every input, every sequence returned by `greedy_search`
and every beam returned by `beam_search` has `bos_id` at position 0; the
final pad masking of beam search keeps position 0 because every computed
sequence length is at least 1. -/
theorem claim_C10 (S : Searcher) (enc : List (List ℤ)) (k : ℕ)
    (alpha beta : ℤ) (hk : 1 ≤ k) (hM : ∀ e d, k ≤ (S.model e d).length) :
    (∀ i < enc.length,
      ((S.greedy_search enc).decoder_input.getD i []).getD 0 0 = S.bos_id) ∧
    (∀ b < (S.beam_search enc k alpha beta).decoder_input.length,
      ∀ jb < ((S.beam_search enc k alpha beta).decoder_input.getD b
        []).length,
      (((S.beam_search enc k alpha beta).decoder_input.getD b []).getD jb
        []).getD 0 0 = S.bos_id) ∧
    (∀ b < (S.beam_search enc k alpha beta).sequence_lengths.length,
      ∀ jb < ((S.beam_search enc k alpha beta).sequence_lengths.getD b
        []).length,
      1 ≤ ((S.beam_search enc k alpha beta).sequence_lengths.getD b
        []).getD jb 0) := by
  have key : ∀ b < (tfChunk k
      (beamFinal S enc k alpha beta).decoder_input).length,
      ∀ jb < ((tfChunk k (beamFinal S enc k alpha
        beta).decoder_input).getD b []).length,
      ((tfChunk k (beamFinal S enc k alpha beta).decoder_input).getD b
        []).getD jb [] ≠ [] ∧
      (((tfChunk k (beamFinal S enc k alpha beta).decoder_input).getD b
        []).getD jb []).getD 0 0 = S.bos_id := by
    cases enc with
    | nil =>
      intro b hb
      rw [beamFinal_B0] at hb
      have : (beamInit S ([] : List (List ℤ))).decoder_input = [] := rfl
      rw [this, tfChunk_nil] at hb
      simp at hb
    | cons e et =>
      have hB : 1 ≤ (e :: et).length := by simp
      rcases (beamFinal_cases hB hk hM).1 with hfin | ⟨w, hP, _⟩
      · intro b hb jb hjb
        have horig : ((tfChunk k (beamFinal S (e :: et) k alpha
            beta).decoder_input).getD b []).getD jb [] = [S.bos_id] := by
          rw [hfin] at hjb hb ⊢
          refine @beamInit_chunk_row S (e :: et) k
            ((tfChunk k (beamInit S (e :: et)).decoder_input).getD b [])
            _ ?_ ?_
          · rw [List.getD_eq_getElem _ _ hb]
            exact List.getElem_mem _
          · rw [List.getD_eq_getElem _ _ hjb]
            exact List.getElem_mem _
        rw [horig]
        exact ⟨by simp, rfl⟩
      · obtain ⟨hcf1, hcf2, hcf3⟩ := beamFinal_chunk_facts hk hP
        intro b hb jb hjb
        have hbB : b < (e :: et).length := by omega
        have hjbk : jb < k := by
          have := hcf2 _ (List.getElem_mem (l := tfChunk k
            (beamFinal S (e :: et) k alpha beta).decoder_input) hb)
          rw [← List.getD_eq_getElem _ [] hb] at this
          omega
        obtain ⟨he1, he2, he3⟩ := hcf3 b hbB jb hjbk
        rw [he1]
        refine ⟨?_, he3⟩
        intro hnil
        have h2w := hP.twoLe
        rw [hnil] at he2
        simp only [List.length_nil] at he2
        omega
  obtain ⟨hl1, hl2, hl3⟩ := beam_search_lengths S enc k alpha beta
  refine ⟨?_, ?_, ?_⟩
  · intro i hi
    exact ((greedy_search_inv S enc).rows i hi).headBos
  · intro b hb jb hjb
    have hb2 : b < (tfChunk k
        (beamFinal S enc k alpha beta).decoder_input).length := by omega
    have hjb2 : jb < ((tfChunk k (beamFinal S enc k alpha
        beta).decoder_input).getD b []).length := by
      have := (hl3 b hb2).1
      omega
    obtain ⟨hne, hhead⟩ := key b hb2 jb hjb2
    rw [(beam_search_getD S enc k alpha beta hb2 hjb2).1,
      mask_row_getD (List.length_pos.mpr hne),
      if_pos (by
        have h1 := @toSequenceLength_pos S.eos_id _ hne
        push_cast
        omega)]
    exact hhead
  · intro b hb jb hjb
    have hb2 : b < (tfChunk k
        (beamFinal S enc k alpha beta).decoder_input).length := by omega
    have hjb2 : jb < ((tfChunk k (beamFinal S enc k alpha
        beta).decoder_input).getD b []).length := by
      have := (hl3 b hb2).2
      omega
    obtain ⟨hne, _⟩ := key b hb2 jb hjb2
    rw [(beam_search_getD S enc k alpha beta hb2 hjb2).2]
    exact toSequenceLength_pos hne

/-- Witness for `claim_C10` at the `demoSearcher` run on `[[7]]`. -/
theorem claim_C10_witness :
    (1 ≤ 1 ∧ ∀ e d, 1 ≤ (demoSearcher.model e d).length) ∧
    ((∀ i < ([[(7 : ℤ)]]).length,
      ((demoSearcher.greedy_search [[7]]).decoder_input.getD i []).getD 0 0 =
        demoSearcher.bos_id) ∧
    (∀ b < (demoSearcher.beam_search [[7]] 1 1 32).decoder_input.length,
      ∀ jb < ((demoSearcher.beam_search [[7]] 1 1 32).decoder_input.getD b
        []).length,
      (((demoSearcher.beam_search [[7]] 1 1 32).decoder_input.getD b
        []).getD jb []).getD 0 0 = demoSearcher.bos_id) ∧
    (∀ b < (demoSearcher.beam_search [[7]] 1 1 32).sequence_lengths.length,
      ∀ jb < ((demoSearcher.beam_search [[7]] 1 1
        32).sequence_lengths.getD b []).length,
      1 ≤ ((demoSearcher.beam_search [[7]] 1 1 32).sequence_lengths.getD b
        []).getD jb 0)) :=
  ⟨⟨le_rfl, fun e d => by
    unfold demoSearcher demoModel
    simp only
    split <;> decide⟩,
    claim_C10 demoSearcher [[7]] 1 1 32 le_rfl (fun e d => by
      unfold demoSearcher demoModel
      simp only
      split <;> decide)⟩

theorem beamCond_false_width {S : Searcher} {s : BeamState}
    (hc : beamCond S s = false) {r : List ℤ} (hr : r ∈ s.decoder_input)
    (hany : r.any (· == S.eos_id) = false) :
    ¬((tfShape1 s.decoder_input : ℤ) < S.max_sequence_length) := by
  intro hlt
  unfold beamCond at hc
  rw [decide_eq_true hlt, Bool.true_and] at hc
  have htrue : ((hasEos S.eos_id s.decoder_input).any fun b => !b) = true := by
    rw [List.any_eq_true]
    refine ⟨false, ?_, rfl⟩
    rw [hasEos]
    exact List.mem_map.mpr ⟨r, hr, hany⟩
  rw [htrue] at hc
  exact Bool.noConfusion hc

theorem toSequenceLength_singleton (eos x : ℤ) :
    toSequenceLength eos [x] = 1 := by
  rcases toSequenceLength_spec eos [x] with ⟨p, hp, _, _, hlen⟩ | ⟨_, hlen⟩
  · simp only [List.length_singleton] at hp
    omega
  · simpa using hlen

/-- **C6**: termination and length bound. For every batch element of either
search, either an `eos` token appears at some position `≤
max_sequence_length` in the returned sequence, or the element's recorded
sequence length equals `max_sequence_length` exactly; and in all cases the
recorded sequence length is `≤ max_sequence_length + 1` (as is the returned
array width for greedy search). -/
theorem claim_C6 (S : Searcher) (enc : List (List ℤ)) (k : ℕ)
    (alpha beta : ℤ) (hml : 1 ≤ S.max_sequence_length)
    (hpe : S.pad_id ≠ S.eos_id) (hk : 1 ≤ k)
    (hM : ∀ e d, k ≤ (S.model e d).length) :
    (∀ i < enc.length,
      ((∃ p : ℕ,
        p < ((S.greedy_search enc).decoder_input.getD i []).length ∧
        ((S.greedy_search enc).decoder_input.getD i []).getD p 0 = S.eos_id ∧
        (p : ℤ) ≤ S.max_sequence_length) ∨
       (S.greedy_search enc).sequence_lengths.getD i 0 =
         S.max_sequence_length) ∧
      (S.greedy_search enc).sequence_lengths.getD i 0 ≤
        S.max_sequence_length + 1) ∧
    ((tfShape1 (S.greedy_search enc).decoder_input : ℤ) ≤
      S.max_sequence_length + 1) ∧
    (∀ b < (S.beam_search enc k alpha beta).decoder_input.length,
      ∀ jb < ((S.beam_search enc k alpha beta).decoder_input.getD b
        []).length,
      ((∃ p : ℕ,
        p < (((S.beam_search enc k alpha beta).decoder_input.getD b
          []).getD jb []).length ∧
        (((S.beam_search enc k alpha beta).decoder_input.getD b []).getD jb
          []).getD p 0 = S.eos_id ∧
        (p : ℤ) ≤ S.max_sequence_length) ∨
       ((S.beam_search enc k alpha beta).sequence_lengths.getD b []).getD
         jb 0 = S.max_sequence_length) ∧
      ((S.beam_search enc k alpha beta).sequence_lengths.getD b []).getD
        jb 0 ≤ S.max_sequence_length + 1) := by
  have hmax : max 1 S.max_sequence_length = S.max_sequence_length :=
    max_eq_right hml
  have hInv := greedy_search_inv S enc
  have hwmax : (tfShape1 (S.greedy_search enc).decoder_input : ℤ) ≤
      S.max_sequence_length := by
    have := hInv.widthMax
    omega
  refine ⟨?_, by omega, ?_⟩
  · intro i hi
    have hrow := hInv.rows i hi
    cases he : (S.greedy_search enc).is_ended.getD i false with
    | true =>
      obtain ⟨p, hp1, hpw, hpe2, _, _, hsl⟩ := hrow.ended he
      rw [hsl hpe]
      constructor
      · left
        refine ⟨p, ?_, hpe2, by omega⟩
        rw [hrow.len]
        exact hpw
      · omega
    | false =>
      obtain ⟨_, hsl⟩ := hrow.active he
      rw [hsl]
      exact ⟨Or.inr rfl, by omega⟩
  · obtain ⟨hl1, hl2, hl3⟩ := beam_search_lengths S enc k alpha beta
    intro b hb jb hjb
    have hb2 : b < (tfChunk k
        (beamFinal S enc k alpha beta).decoder_input).length := by omega
    have hjb2 : jb < ((tfChunk k (beamFinal S enc k alpha
        beta).decoder_input).getD b []).length := by
      have := (hl3 b hb2).1
      omega
    have hdeq := (beam_search_getD S enc k alpha beta hb2 hjb2).1
    have hseq := (beam_search_getD S enc k alpha beta hb2 hjb2).2
    rw [hdeq, hseq]
    cases enc with
    | nil =>
      exfalso
      rw [beamFinal_B0] at hb2
      have hnil : (beamInit S ([] : List (List ℤ))).decoder_input = [] := rfl
      rw [hnil, tfChunk_nil] at hb2
      simp at hb2
    | cons e et =>
      have hB : 1 ≤ (e :: et).length := by simp
      have hcond := (@beamFinal_cases S (e :: et) k alpha beta hB hk hM).2
      rcases (@beamFinal_cases S (e :: et) k alpha beta hB hk hM).1 with
        hfin | ⟨w, hP, hwle⟩
      · have horig : ((tfChunk k (beamFinal S (e :: et) k alpha
            beta).decoder_input).getD b []).getD jb [] = [S.bos_id] := by
          rw [hfin] at hjb2 hb2 ⊢
          refine @beamInit_chunk_row S (e :: et) k
            ((tfChunk k (beamInit S (e :: et)).decoder_input).getD b [])
            _ ?_ ?_
          · rw [List.getD_eq_getElem _ _ hb2]
            exact List.getElem_mem _
          · rw [List.getD_eq_getElem _ _ hjb2]
            exact List.getElem_mem _
        rw [horig, toSequenceLength_singleton]
        by_cases hbe2 : S.bos_id = S.eos_id
        · refine ⟨Or.inl ⟨0, ?_, ?_, by omega⟩, by omega⟩
          · rw [mask_row_length]
            simp
          · rw [mask_row_getD (by simp), if_pos (by norm_num)]
            simpa using hbe2
        · have hle1 : ¬((tfShape1 (beamFinal S (e :: et) k alpha
              beta).decoder_input : ℤ) < S.max_sequence_length) := by
            refine beamCond_false_width hcond (r := [S.bos_id]) ?_ ?_
            · rw [hfin]
              show [S.bos_id] ∈ List.replicate (e :: et).length [S.bos_id]
              exact List.mem_replicate.mpr ⟨by simp, rfl⟩
            · simp [hbe2]
          rw [hfin, tfShape1_beamInit hB] at hle1
          refine ⟨Or.inr ?_, by omega⟩
          push_cast at hle1
          omega
      · obtain ⟨hcf1, hcf2, hcf3⟩ := beamFinal_chunk_facts hk hP
        have hjbk : jb < k := by
          have := hcf2 _ (List.getElem_mem (l := tfChunk k
            (beamFinal S (e :: et) k alpha beta).decoder_input) hb2)
          rw [← List.getD_eq_getElem _ [] hb2] at this
          omega
        have hbB : b < (e :: et).length := by omega
        obtain ⟨he1, he2, _⟩ := hcf3 b hbB jb hjbk
        rw [he1]
        have hwle2 : (w : ℤ) ≤ S.max_sequence_length := by omega
        rcases toSequenceLength_spec S.eos_id
            ((beamFinal S (e :: et) k alpha beta).decoder_input.getD
              (b * k + jb) []) with ⟨f, hf, hfe, hffirst, hlen⟩ |
            ⟨hnone, hlen⟩
        · rw [hlen]
          have hfw : f < w := by omega
          refine ⟨Or.inl ⟨f, ?_, ?_, by push_cast; omega⟩, by push_cast; omega⟩
          · rw [mask_row_length]
            exact hf
          · rw [mask_row_getD hf, if_pos (by push_cast; omega)]
            exact hfe
        · rw [hlen, he2]
          have hany : ((beamFinal S (e :: et) k alpha
              beta).decoder_input.getD (b * k + jb) []).any
              (· == S.eos_id) = false := by
            rw [Bool.eq_false_iff]
            intro habs
            obtain ⟨q, hq, hqe⟩ := (any_beq_iff _ _).mp habs
            exact hnone q hq hqe
          have hmem : (beamFinal S (e :: et) k alpha
              beta).decoder_input.getD (b * k + jb) [] ∈
              (beamFinal S (e :: et) k alpha beta).decoder_input := by
            have hlt : b * k + jb < (e :: et).length * k := by
              calc b * k + jb < b * k + k := by omega
                _ = (b + 1) * k := by ring
                _ ≤ (e :: et).length * k := Nat.mul_le_mul_right k (by omega)
            rw [List.getD_eq_getElem _ _ (by rw [hP.lenDec]; exact hlt)]
            exact List.getElem_mem _
          have hnlt := beamCond_false_width hcond hmem hany
          rw [hP.width] at hnlt
          refine ⟨Or.inr ?_, by push_cast; omega⟩
          push_cast at hnlt ⊢
          omega

/-- Witness for `claim_C6` at the `demoSearcher` run on `[[7]]`. -/
theorem claim_C6_witness :
    (1 ≤ demoSearcher.max_sequence_length ∧
      demoSearcher.pad_id ≠ demoSearcher.eos_id) ∧
    (∀ i < ([[(7 : ℤ)]]).length,
      ((∃ p : ℕ,
        p < ((demoSearcher.greedy_search [[7]]).decoder_input.getD i
          []).length ∧
        ((demoSearcher.greedy_search [[7]]).decoder_input.getD i []).getD p
          0 = demoSearcher.eos_id ∧
        (p : ℤ) ≤ demoSearcher.max_sequence_length) ∨
       (demoSearcher.greedy_search [[7]]).sequence_lengths.getD i 0 =
         demoSearcher.max_sequence_length) ∧
      (demoSearcher.greedy_search [[7]]).sequence_lengths.getD i 0 ≤
        demoSearcher.max_sequence_length + 1) :=
  ⟨⟨by decide, by decide⟩,
    (claim_C6 demoSearcher [[7]] 1 1 32 (by decide) (by decide) le_rfl
      (fun e d => by
        unfold demoSearcher demoModel
        simp only
        split <;> decide)).1⟩

theorem zipWith2d_getD_of_lt {α β γ : Type} {f : α → β → γ}
    {x : List (List α)} {y : List (List β)} {b c : ℕ}
    (hbx : b < x.length) (hby : b < y.length)
    (hcx : c < (x.getD b []).length) (hcy : c < (y.getD b []).length)
    (da : α) (db : β) (dc : γ) :
    ((zipWith2d f x y).getD b []).getD c dc =
      f ((x.getD b []).getD c da) ((y.getD b []).getD c db) := by
  rw [zipWith2d, getD_zipWith hbx hby [] [] [], getD_zipWith hcx hcy da db dc]

theorem beam_chunk_rows_nonempty {S : Searcher} {enc : List (List ℤ)}
    {k : ℕ} {alpha beta : ℤ} (hk : 1 ≤ k)
    (hM : ∀ e d, k ≤ (S.model e d).length) :
    ∀ b < (tfChunk k (beamFinal S enc k alpha beta).decoder_input).length,
    ∀ jb < ((tfChunk k (beamFinal S enc k alpha beta).decoder_input).getD b
      []).length,
    ((tfChunk k (beamFinal S enc k alpha beta).decoder_input).getD b
      []).getD jb [] ≠ [] := by
  cases enc with
  | nil =>
    intro b hb
    rw [beamFinal_B0] at hb
    have : (beamInit S ([] : List (List ℤ))).decoder_input = [] := rfl
    rw [this, tfChunk_nil] at hb
    simp at hb
  | cons e et =>
    have hB : 1 ≤ (e :: et).length := by simp
    rcases (beamFinal_cases hB hk hM).1 with hfin | ⟨w, hP, _⟩
    · intro b hb jb hjb
      have horig : ((tfChunk k (beamFinal S (e :: et) k alpha
          beta).decoder_input).getD b []).getD jb [] = [S.bos_id] := by
        rw [hfin] at hjb hb ⊢
        refine @beamInit_chunk_row S (e :: et) k
          ((tfChunk k (beamInit S (e :: et)).decoder_input).getD b [])
          _ ?_ ?_
        · rw [List.getD_eq_getElem _ _ hb]
          exact List.getElem_mem _
        · rw [List.getD_eq_getElem _ _ hjb]
          exact List.getElem_mem _
      rw [horig]
      simp
    · obtain ⟨hcf1, hcf2, hcf3⟩ := beamFinal_chunk_facts hk hP
      intro b hb jb hjb
      have hbB : b < (e :: et).length := by omega
      have hjbk : jb < k := by
        have := hcf2 _ (List.getElem_mem (l := tfChunk k
          (beamFinal S (e :: et) k alpha beta).decoder_input) hb)
        rw [← List.getD_eq_getElem _ [] hb] at this
        omega
      obtain ⟨he1, he2, _⟩ := hcf3 b hbB jb hjbk
      rw [he1]
      intro hnil
      have h2w := hP.twoLe
      rw [hnil] at he2
      simp only [List.length_nil] at he2
      omega

/-- **C5**: both searchers compute each hypothesis's final perplexity as
`exp(cumulative_log_probability) ^ (-1 / sequence_length)`, and every
hypothesis whose accumulated log-probability is `≤ 0` gets a returned
perplexity `≥ 1`. -/
theorem claim_C5 (S : Searcher) (enc : List (List ℤ)) (k : ℕ)
    (alpha beta : ℤ) (hml : 1 ≤ S.max_sequence_length)
    (hpe : S.pad_id ≠ S.eos_id) (hk : 1 ≤ k)
    (hM : ∀ e d, k ≤ (S.model e d).length) :
    (∀ i < enc.length,
      (S.greedy_search_result enc).2.getD i 1 =
        Real.exp (((S.greedy_search enc).log_perplexity.getD i 0 : ℝ)) ^
          (-1 / (((S.greedy_search enc).sequence_lengths.getD i 0 : ℤ) :
            ℝ))) ∧
    (∀ i < enc.length,
      (S.greedy_search enc).log_perplexity.getD i 0 ≤ 0 →
      1 ≤ (S.greedy_search_result enc).2.getD i 1) ∧
    (∀ b < (S.beam_search enc k alpha beta).sequence_lengths.length,
      ∀ j < ((S.beam_search enc k alpha beta).sequence_lengths.getD b
        []).length,
      b < (S.beam_search enc k alpha beta).log_perplexity.length →
      j < ((S.beam_search enc k alpha beta).log_perplexity.getD b
        []).length →
      ((S.beam_search_result enc k alpha beta).2.getD b []).getD j 1 =
        Real.exp ((((S.beam_search enc k alpha beta).log_perplexity.getD b
            []).getD j 0 : ℝ)) ^
          (-1 / ((((S.beam_search enc k alpha beta).sequence_lengths.getD b
            []).getD j 0 : ℤ) : ℝ)) ∧
      ((((S.beam_search enc k alpha beta).log_perplexity.getD b []).getD j
          0 : ℚ) ≤ 0 →
        1 ≤ ((S.beam_search_result enc k alpha beta).2.getD b []).getD
          j 1)) := by
  have hInv := greedy_search_inv S enc
  have hgfor : ∀ i < enc.length,
      (S.greedy_search_result enc).2.getD i 1 =
        tfPerplexity ((S.greedy_search enc).log_perplexity.getD i 0)
          ((S.greedy_search enc).sequence_lengths.getD i 0) := by
    intro i hi
    have hilp : i < (S.greedy_search enc).log_perplexity.length := by
      rw [hInv.lenLp]; omega
    have hisl : i < (S.greedy_search enc).sequence_lengths.length := by
      rw [hInv.lenSl]; omega
    simp only [Searcher.greedy_search_result]
    rw [getD_zipWith hilp hisl 0 0 1]
  refine ⟨fun i hi => hgfor i hi, fun i hi hlp => ?_, ?_⟩
  · rw [hgfor i hi]
    refine one_le_tfPerplexity hlp ?_
    have hrow := hInv.rows i hi
    cases he : (S.greedy_search enc).is_ended.getD i false with
    | true =>
      obtain ⟨p, hp1, _, _, _, _, hsl⟩ := hrow.ended he
      rw [hsl hpe]
      omega
    | false =>
      obtain ⟨_, hsl⟩ := hrow.active he
      rw [hsl]
      exact hml
  · obtain ⟨hl1, hl2, hl3⟩ := beam_search_lengths S enc k alpha beta
    intro b hb j hj hbl hjl
    have hb2 : b < (tfChunk k
        (beamFinal S enc k alpha beta).decoder_input).length := by omega
    have hj2 : j < ((tfChunk k (beamFinal S enc k alpha
        beta).decoder_input).getD b []).length := by
      have := (hl3 b hb2).2
      omega
    have hbfor : ((S.beam_search_result enc k alpha beta).2.getD b
        []).getD j 1 =
        tfPerplexity (((S.beam_search enc k alpha beta).log_perplexity.getD
            b []).getD j 0)
          (((S.beam_search enc k alpha beta).sequence_lengths.getD b
            []).getD j 0) := by
      simp only [Searcher.beam_search_result]
      exact zipWith2d_getD_of_lt hbl hb hjl hj 0 0 1
    refine ⟨hbfor, fun hlp => ?_⟩
    rw [hbfor]
    refine one_le_tfPerplexity hlp ?_
    rw [(beam_search_getD S enc k alpha beta hb2 hj2).2]
    exact toSequenceLength_pos (beam_chunk_rows_nonempty hk hM b hb2 j hj2)

/-- Witness for `claim_C5` at the `demoSearcher` run on `[[7]]`. -/
theorem claim_C5_witness :
    (1 ≤ demoSearcher.max_sequence_length ∧
      demoSearcher.pad_id ≠ demoSearcher.eos_id ∧
      (1 : ℕ) ≤ 1 ∧ ∀ e d, 1 ≤ (demoSearcher.model e d).length) ∧
    (∀ i < ([[(7 : ℤ)]]).length,
      (demoSearcher.greedy_search_result [[7]]).2.getD i 1 =
        Real.exp (((demoSearcher.greedy_search
            [[7]]).log_perplexity.getD i 0 : ℝ)) ^
          (-1 / (((demoSearcher.greedy_search
            [[7]]).sequence_lengths.getD i 0 : ℤ) : ℝ))) :=
  ⟨⟨by decide, by decide, le_rfl, fun e d => by
    unfold demoSearcher demoModel
    simp only
    split <;> decide⟩,
    (claim_C5 demoSearcher [[7]] 1 1 32 (by decide) (by decide) le_rfl
      (fun e d => by
        unfold demoSearcher demoModel
        simp only
        split <;> decide)).1⟩


/-- **C4**: once a hypothesis is ended its cumulative log-probability is
frozen. In greedy search, an ended element stays ended and its
log-probability is unchanged by any further loop iterations; in beam
search, every candidate continuation of an ended parent beam scores
exactly the parent's accumulated log-probability (the model's top-k value
is replaced by zero). -/
theorem claim_C4 (S : Searcher) (enc : List (List ℤ)) (n : ℕ)
    (s : GreedyState) (B k par : ℕ) (t : BeamState)
    (hG : GInv S enc.length s)
    (hB : 1 ≤ B) (hk : 1 ≤ k) (hpar : 1 ≤ par)
    (hM : ∀ e d, k ≤ (S.model e d).length)
    (henc : t.encoder_input.length = B * par)
    (hdec : t.decoder_input.length = B * par)
    (hlp : t.log_perplexity.length = B)
    (hlpr : ∀ r ∈ t.log_perplexity, r.length = par) :
    (∀ i < enc.length, s.is_ended.getD i false = true →
      (tfWhileLoop (greedyCond S) (greedyBody S enc) n s).is_ended.getD i
        false = true ∧
      (tfWhileLoop (greedyCond S) (greedyBody S enc) n s).log_perplexity.getD
        i 0 = s.log_perplexity.getD i 0) ∧
    (∀ b < B, ∀ c < par * k,
      (t.decoder_input.getD (b * par + c / k) []).any (· == S.eos_id) =
        true →
      ((beamCandidateScores S B k t).getD b []).getD c 0 =
        (t.log_perplexity.getD b []).getD (c / k) 0) := by
  refine ⟨fun i hi he => ?_, fun b hb c hc hend => ?_⟩
  · exact greedy_lp_frozen rfl n s hG i hi he
  · have hentry := (beamCandidateScores_shape hB hk hpar hM henc hdec hlp
      hlpr).2.2 b hb c hc
    rw [hentry, if_pos hend, zero_add]

/-- Witness for `claim_C4`: the finished `demoSearcher` greedy run on
`[[7]]` (its single row is ended) and a literal two-beam state whose first
beam contains `eos`. -/
theorem claim_C4_witness :
    (GInv demoSearcher ([[(7 : ℤ)]]).length
        (demoSearcher.greedy_search [[7]]) ∧
      (1 : ℕ) ≤ 1 ∧ (1 : ℕ) ≤ 2 ∧ (1 : ℕ) ≤ 2 ∧
      (∀ e d, 2 ≤ (demoSearcher.model e d).length) ∧
      (BeamState.mk [[9], [9]] [[2, 3], [2, 1]]
          [[-1, -2]]).encoder_input.length = 1 * 2 ∧
      (BeamState.mk [[9], [9]] [[2, 3], [2, 1]]
          [[-1, -2]]).decoder_input.length = 1 * 2 ∧
      (BeamState.mk [[9], [9]] [[2, 3], [2, 1]]
          [[-1, -2]]).log_perplexity.length = 1 ∧
      (∀ r ∈ (BeamState.mk [[9], [9]] [[2, 3], [2, 1]]
          [[-1, -2]]).log_perplexity, r.length = 2)) ∧
    (∀ b < 1, ∀ c < 2 * 2,
      ((BeamState.mk [[9], [9]] [[2, 3], [2, 1]]
          [[-1, -2]]).decoder_input.getD (b * 2 + c / 2) []).any
        (· == demoSearcher.eos_id) = true →
      ((beamCandidateScores demoSearcher 1 2
          (BeamState.mk [[9], [9]] [[2, 3], [2, 1]]
            [[-1, -2]])).getD b []).getD c 0 =
        ((BeamState.mk [[9], [9]] [[2, 3], [2, 1]]
          [[-1, -2]]).log_perplexity.getD b []).getD (c / 2) 0) :=
  ⟨⟨greedy_search_inv demoSearcher [[7]], le_rfl, by decide, by decide,
    fun e d => by
      unfold demoSearcher demoModel
      simp only
      split <;> decide,
    rfl, rfl, rfl, by decide⟩,
    (claim_C4 demoSearcher [[7]] 3 (demoSearcher.greedy_search [[7]]) 1 2 2
      (BeamState.mk [[9], [9]] [[2, 3], [2, 1]] [[-1, -2]])
      (greedy_search_inv demoSearcher [[7]]) le_rfl (by decide) (by decide)
      (fun e d => by
        unfold demoSearcher demoModel
        simp only
        split <;> decide)
      rfl rfl rfl (by decide)).2⟩


/-- **C2**: at every beam-search step after the first (a state satisfying
the post-first-step invariant `BeamPost`), each of the `k*k` candidate
continuations per batch element is assigned the length penalty
`((1 + len)/(1 + beta)) ^ alpha` where `len` is its first-`eos` position
(or its full length when it has no `eos`); the candidates are ranked by
`score * penalty`; and exactly the `k` top-ranked candidates (distinct
indices dominating every non-selected candidate) become the new beams and
cumulative log-probabilities. -/
theorem claim_C2 (S : Searcher) (B k w : ℕ) (alpha beta : ℤ) (s : BeamState)
    (hB : 1 ≤ B) (hk : 1 ≤ k) (hM : ∀ e d, k ≤ (S.model e d).length)
    (hP : BeamPost S B k w s) :
    (∀ b < B, ∀ c < k * k,
      ∃ len : ℤ, IsFirstEosLength S.eos_id
          (((beamCandidates S k s).getD b []).getD c []) len ∧
        ((beamPenalties S k alpha beta s).getD b []).getD c 0 =
          lengthPenalty alpha beta len) ∧
    (∀ b < B,
      ((beamTopIndices S B k alpha beta s).getD b []).length = k ∧
      ((beamTopIndices S B k alpha beta s).getD b []).Nodup ∧
      (∀ i ∈ (beamTopIndices S B k alpha beta s).getD b [], i < k * k) ∧
      (∀ i ∈ (beamTopIndices S B k alpha beta s).getD b [],
        ∀ j < k * k, j ∉ (beamTopIndices S B k alpha beta s).getD b [] →
        ((zipWith2d (· * ·) (beamCandidateScores S B k s)
            (beamPenalties S k alpha beta s)).getD b []).getD j 0 ≤
          ((zipWith2d (· * ·) (beamCandidateScores S B k s)
            (beamPenalties S k alpha beta s)).getD b []).getD i 0)) ∧
    (∀ b < B,
      (beamBody S B k alpha beta s).log_perplexity.getD b [] =
        ((beamTopIndices S B k alpha beta s).getD b []).map
          (fun i => ((beamCandidateScores S B k s).getD b []).getD i 0)) ∧
    (∀ b < B, ∀ j < k,
      (beamBody S B k alpha beta s).decoder_input.getD (b * k + j) [] =
        ((beamCandidates S k s).getD b []).getD
          (((beamTopIndices S B k alpha beta s).getD b []).getD j 0) []) := by
  obtain ⟨hs1, hs2, hsE⟩ := beamCandidateScores_shape hB hk hk hM hP.lenEnc
    hP.lenDec hP.lenLp hP.lpRow
  obtain ⟨hc1, hc2, hc3, hc4⟩ := beamCandidates_shape hB hk hM hP.lenEnc
    hP.lenDec (fun r hr => (hP.rows r hr).1)
  obtain ⟨hp1, hp2, hpE⟩ := beamPenalties_shape hc1 hc2
  have hprodL : (zipWith2d (· * ·) (beamCandidateScores S B k s)
      (beamPenalties S k alpha beta s)).length = B :=
    zipWith2d_length hs1 hp1
  have hprodR : ∀ r ∈ zipWith2d (· * ·) (beamCandidateScores S B k s)
      (beamPenalties S k alpha beta s), r.length = k * k :=
    zipWith2d_rows hs2 hp2
  have hkkk : k ≤ k * k := Nat.le_mul_of_pos_left k hk
  have htl : (beamTopIndices S B k alpha beta s).length = B := by
    rw [beamTopIndices, List.length_map]
    exact hprodL
  have hprow : ∀ b < B, ((zipWith2d (· * ·) (beamCandidateScores S B k s)
      (beamPenalties S k alpha beta s)).getD b []).length = k * k := by
    intro b hb
    have hb2 : b < (zipWith2d (· * ·) (beamCandidateScores S B k s)
        (beamPenalties S k alpha beta s)).length := by omega
    rw [List.getD_eq_getElem _ _ hb2]
    exact hprodR _ (List.getElem_mem _)
  have hseleq : ∀ b < B, (beamTopIndices S B k alpha beta s).getD b [] =
      tfTopKIndices k ((zipWith2d (· * ·) (beamCandidateScores S B k s)
        (beamPenalties S k alpha beta s)).getD b []) :=
    fun b hb => beamTopIndices_getD hs1 hp1 hb
  have hselLen : ∀ b < B,
      ((beamTopIndices S B k alpha beta s).getD b []).length = k := by
    intro b hb
    rw [hseleq b hb, (tfTopKIndices_facts k _).1, hprow b hb]
    exact min_eq_left hkkk
  have hw1 : tfShape1 s.decoder_input ≠ 1 := by
    have := hP.twoLe
    rw [hP.width]
    omega
  refine ⟨?_, ?_, ?_, ?_⟩
  · intro b hb c hc
    exact ⟨_, toSequenceLength_spec _ _, hpE b hb c hc⟩
  · intro b hb
    have hfacts := tfTopKIndices_facts k ((zipWith2d (· * ·)
        (beamCandidateScores S B k s)
        (beamPenalties S k alpha beta s)).getD b [])
    refine ⟨hselLen b hb, ?_, ?_, ?_⟩
    · rw [hseleq b hb]
      exact hfacts.2.1
    · intro i hi
      rw [hseleq b hb] at hi
      have := hfacts.2.2.1 i hi
      rwa [hprow b hb] at this
    · intro i hi j hj hjn
      rw [hseleq b hb] at hi hjn
      exact hfacts.2.2.2.1 i hi j (by rw [hprow b hb]; exact hj) hjn
  · intro b hb
    rw [beamBody_else_lp hw1, getD_zipWith (by omega) (by omega) [] [] []]
  · intro b hb j hj
    rw [beamBody_else_dec hw1]
    have hZrows : ∀ r ∈ List.zipWith
        (fun grp idxs => idxs.map fun i => grp.getD i [])
        (beamCandidates S k s) (beamTopIndices S B k alpha beta s),
        r.length = k := by
      intro r hr
      obtain ⟨n, hn, he⟩ := List.mem_iff_getElem.mp hr
      have hn1 : n < (beamCandidates S k s).length := by
        rw [List.length_zipWith] at hn
        omega
      have hn2 : n < (beamTopIndices S B k alpha beta s).length := by
        rw [List.length_zipWith] at hn
        omega
      rw [List.getElem_zipWith] at he
      rw [← he, List.length_map]
      have hnB : n < B := by omega
      have hlen := hselLen n hnB
      rwa [List.getD_eq_getElem _ _ hn2] at hlen
    have hZlen : (List.zipWith
        (fun grp idxs => idxs.map fun i => grp.getD i [])
        (beamCandidates S k s)
        (beamTopIndices S B k alpha beta s)).length = B := by
      rw [List.length_zipWith, hc1, htl, min_self]
    rw [flatten_uniform_getD hZrows (by omega) hj [],
      getD_zipWith (by omega) (by omega) [] [] [],
      getD_map (by rw [hselLen b hb]; exact hj) 0 []]

/-- Witness for `claim_C2` at a literal post-first-step two-beam state of
the `demoSearcher`. -/
theorem claim_C2_witness :
    ((1 : ℕ) ≤ 1 ∧ (1 : ℕ) ≤ 2 ∧
      (∀ e d, 2 ≤ (demoSearcher.model e d).length) ∧
      BeamPost demoSearcher 1 2 2
        (BeamState.mk [[7], [7]] [[2, 1], [2, 3]] [[0, -1]])) ∧
    (∀ b < 1, ∀ c < 2 * 2,
      ∃ len : ℤ, IsFirstEosLength demoSearcher.eos_id
          (((beamCandidates demoSearcher 2
            (BeamState.mk [[7], [7]] [[2, 1], [2, 3]]
              [[0, -1]])).getD b []).getD c []) len ∧
        ((beamPenalties demoSearcher 2 1 32
            (BeamState.mk [[7], [7]] [[2, 1], [2, 3]]
              [[0, -1]])).getD b []).getD c 0 =
          lengthPenalty 1 32 len) :=
  ⟨⟨le_rfl, by decide, fun e d => by
      unfold demoSearcher demoModel
      simp only
      split <;> decide,
    ⟨rfl, rfl, rfl, by decide, rfl, by decide, by decide⟩⟩,
    (claim_C2 demoSearcher 1 2 2 1 32
      (BeamState.mk [[7], [7]] [[2, 1], [2, 3]] [[0, -1]])
      le_rfl (by decide)
      (fun e d => by
        unfold demoSearcher demoModel
        simp only
        split <;> decide)
      ⟨rfl, rfl, rfl, by decide, rfl, by decide, by decide⟩).1⟩


/-- **C9**: after every beam-search pruning step (from a post-first-step
state), the `k` kept beams per batch element are stored in non-increasing
order of their penalized score `score * length_penalty`: the kept scores
form a non-increasing list, so beam `j1`'s penalized score is at least
beam `j2`'s whenever `j1 ≤ j2`. -/
theorem claim_C9 (S : Searcher) (B k w : ℕ) (alpha beta : ℤ) (s : BeamState)
    (hB : 1 ≤ B) (hk : 1 ≤ k) (hM : ∀ e d, k ≤ (S.model e d).length)
    (hP : BeamPost S B k w s) :
    (∀ b < B,
      List.Pairwise (fun x y : ℚ => y ≤ x)
        (((beamTopIndices S B k alpha beta s).getD b []).map
          (fun i => ((zipWith2d (· * ·) (beamCandidateScores S B k s)
            (beamPenalties S k alpha beta s)).getD b []).getD i 0))) ∧
    (∀ b < B, ∀ j1 < k, ∀ j2 < k, j1 ≤ j2 →
      ((zipWith2d (· * ·) (beamCandidateScores S B k s)
          (beamPenalties S k alpha beta s)).getD b []).getD
        (((beamTopIndices S B k alpha beta s).getD b []).getD j2 0) 0 ≤
      ((zipWith2d (· * ·) (beamCandidateScores S B k s)
          (beamPenalties S k alpha beta s)).getD b []).getD
        (((beamTopIndices S B k alpha beta s).getD b []).getD j1 0) 0) := by
  obtain ⟨hs1, hs2, hsE⟩ := beamCandidateScores_shape hB hk hk hM hP.lenEnc
    hP.lenDec hP.lenLp hP.lpRow
  obtain ⟨hc1, hc2, hc3, hc4⟩ := beamCandidates_shape hB hk hM hP.lenEnc
    hP.lenDec (fun r hr => (hP.rows r hr).1)
  obtain ⟨hp1, hp2, hpE⟩ := beamPenalties_shape hc1 hc2
  have hprodL : (zipWith2d (· * ·) (beamCandidateScores S B k s)
      (beamPenalties S k alpha beta s)).length = B :=
    zipWith2d_length hs1 hp1
  have hprodR : ∀ r ∈ zipWith2d (· * ·) (beamCandidateScores S B k s)
      (beamPenalties S k alpha beta s), r.length = k * k :=
    zipWith2d_rows hs2 hp2
  have hkkk : k ≤ k * k := Nat.le_mul_of_pos_left k hk
  have hprow : ∀ b < B, ((zipWith2d (· * ·) (beamCandidateScores S B k s)
      (beamPenalties S k alpha beta s)).getD b []).length = k * k := by
    intro b hb
    have hb2 : b < (zipWith2d (· * ·) (beamCandidateScores S B k s)
        (beamPenalties S k alpha beta s)).length := by omega
    rw [List.getD_eq_getElem _ _ hb2]
    exact hprodR _ (List.getElem_mem _)
  have hseleq : ∀ b < B, (beamTopIndices S B k alpha beta s).getD b [] =
      tfTopKIndices k ((zipWith2d (· * ·) (beamCandidateScores S B k s)
        (beamPenalties S k alpha beta s)).getD b []) :=
    fun b hb => beamTopIndices_getD hs1 hp1 hb
  have hselLen : ∀ b < B,
      ((beamTopIndices S B k alpha beta s).getD b []).length = k := by
    intro b hb
    rw [hseleq b hb, (tfTopKIndices_facts k _).1, hprow b hb]
    exact min_eq_left hkkk
  have hsorted : ∀ b < B,
      List.Pairwise (fun x y : ℚ => y ≤ x)
        (((beamTopIndices S B k alpha beta s).getD b []).map
          (fun i => ((zipWith2d (· * ·) (beamCandidateScores S B k s)
            (beamPenalties S k alpha beta s)).getD b []).getD i 0)) := by
    intro b hb
    rw [hseleq b hb]
    exact (tfTopKIndices_facts k _).2.2.2.2
  refine ⟨hsorted, ?_⟩
  intro b hb j1 hj1 j2 hj2 hle
  rcases eq_or_lt_of_le hle with rfl | hlt
  · exact le_rfl
  · have hsl := hselLen b hb
    have hb1 : j1 < ((beamTopIndices S B k alpha beta s).getD b []).length :=
      by omega
    have hb2 : j2 < ((beamTopIndices S B k alpha beta s).getD b []).length :=
      by omega
    have hm1 : j1 < (((beamTopIndices S B k alpha beta s).getD b []).map
        (fun i => ((zipWith2d (· * ·) (beamCandidateScores S B k s)
          (beamPenalties S k alpha beta s)).getD b []).getD i 0)).length := by
      rw [List.length_map]
      omega
    have hm2 : j2 < (((beamTopIndices S B k alpha beta s).getD b []).map
        (fun i => ((zipWith2d (· * ·) (beamCandidateScores S B k s)
          (beamPenalties S k alpha beta s)).getD b []).getD i 0)).length := by
      rw [List.length_map]
      omega
    have hpair := List.pairwise_iff_getElem.mp (hsorted b hb) j1 j2 hm1 hm2
      hlt
    rw [List.getElem_map, List.getElem_map] at hpair
    rw [List.getD_eq_getElem _ _ hb1, List.getD_eq_getElem _ _ hb2]
    exact hpair

/-- Witness for `claim_C9` at a literal post-first-step two-beam state of
the `demoSearcher`. -/
theorem claim_C9_witness :
    ((1 : ℕ) ≤ 1 ∧ (1 : ℕ) ≤ 2 ∧
      (∀ e d, 2 ≤ (demoSearcher.model e d).length) ∧
      BeamPost demoSearcher 1 2 2
        (BeamState.mk [[5], [5]] [[2, 4], [2, 3]] [[0, -1]])) ∧
    (∀ b < 1,
      List.Pairwise (fun x y : ℚ => y ≤ x)
        (((beamTopIndices demoSearcher 1 2 1 32
            (BeamState.mk [[5], [5]] [[2, 4], [2, 3]]
              [[0, -1]])).getD b []).map
          (fun i => ((zipWith2d (· * ·)
            (beamCandidateScores demoSearcher 1 2
              (BeamState.mk [[5], [5]] [[2, 4], [2, 3]] [[0, -1]]))
            (beamPenalties demoSearcher 2 1 32
              (BeamState.mk [[5], [5]] [[2, 4], [2, 3]]
                [[0, -1]]))).getD b []).getD i 0))) :=
  ⟨⟨le_rfl, by decide, fun e d => by
      unfold demoSearcher demoModel
      simp only
      split <;> decide,
    ⟨rfl, rfl, rfl, by decide, rfl, by decide, by decide⟩⟩,
    (claim_C9 demoSearcher 1 2 2 1 32
      (BeamState.mk [[5], [5]] [[2, 4], [2, 3]] [[0, -1]])
      le_rfl (by decide)
      (fun e d => by
        unfold demoSearcher demoModel
        simp only
        split <;> decide)
      ⟨rfl, rfl, rfl, by decide, rfl, by decide, by decide⟩).1⟩


theorem not_all_eq_any_not (l : List Bool) :
    (!(l.all id)) = l.any (fun x => !x) := by
  induction l with
  | nil => rfl
  | cons a t ih => cases a <;> simp [List.all_cons, List.any_cons, ih]

theorem model_ne_nil {S : Searcher}
    (hv : ∀ e d, 1 ≤ (S.model e d).length) (e d : List ℤ) :
    S.model e d ≠ [] := by
  intro h
  have h2 := hv e d
  rw [h] at h2
  simp at h2

theorem tfTopK_one_getD {l : List ℚ} (hl : l ≠ []) :
    ((tfTopK 1 l).getD 0 (0, 0)).1 = (tfTopKIndices 1 l).headI ∧
    ((tfTopK 1 l).getD 0 (0, 0)).2 = (tfTopKValues 1 l).headI := by
  obtain ⟨p, hp⟩ := tfTopK_one hl
  rw [tfTopKIndices, tfTopKValues, hp]
  simp

theorem mask_row_of_ge {row : List ℤ} {len pad : ℤ}
    (h : (row.length : ℤ) ≤ len) :
    row.enum.map (fun p => if (p.1 : ℤ) < len then p.2 else pad) = row := by
  refine List.ext_getElem (by rw [mask_row_length]) ?_
  intro j h1 h2
  rw [← List.getD_eq_getElem _ 0 h1, ← List.getD_eq_getElem _ 0 h2,
    mask_row_getD h2, if_pos (by push_cast; omega)]

theorem beamBody_gather {S : Searcher} {B k w : ℕ} {alpha beta : ℤ}
    {s : BeamState} (hB : 1 ≤ B) (hk : 1 ≤ k)
    (hM : ∀ e d, k ≤ (S.model e d).length) (hP : BeamPost S B k w s) :
    (∀ b < B, ((beamTopIndices S B k alpha beta s).getD b []).length = k ∧
      ∀ i ∈ (beamTopIndices S B k alpha beta s).getD b [], i < k * k) ∧
    (∀ b < B, (beamBody S B k alpha beta s).log_perplexity.getD b [] =
      ((beamTopIndices S B k alpha beta s).getD b []).map
        (fun i => ((beamCandidateScores S B k s).getD b []).getD i 0)) ∧
    (∀ b < B, ∀ j < k,
      (beamBody S B k alpha beta s).decoder_input.getD (b * k + j) [] =
        ((beamCandidates S k s).getD b []).getD
          (((beamTopIndices S B k alpha beta s).getD b []).getD j 0) []) := by
  obtain ⟨hs1, hs2, hsE⟩ := beamCandidateScores_shape hB hk hk hM hP.lenEnc
    hP.lenDec hP.lenLp hP.lpRow
  obtain ⟨hc1, hc2, hc3, hc4⟩ := beamCandidates_shape hB hk hM hP.lenEnc
    hP.lenDec (fun r hr => (hP.rows r hr).1)
  obtain ⟨hp1, hp2, hpE⟩ := beamPenalties_shape hc1 hc2
  have hprodL : (zipWith2d (· * ·) (beamCandidateScores S B k s)
      (beamPenalties S k alpha beta s)).length = B :=
    zipWith2d_length hs1 hp1
  have hprodR : ∀ r ∈ zipWith2d (· * ·) (beamCandidateScores S B k s)
      (beamPenalties S k alpha beta s), r.length = k * k :=
    zipWith2d_rows hs2 hp2
  have hkkk : k ≤ k * k := Nat.le_mul_of_pos_left k hk
  have htl : (beamTopIndices S B k alpha beta s).length = B := by
    rw [beamTopIndices, List.length_map]
    exact hprodL
  have hprow : ∀ b < B, ((zipWith2d (· * ·) (beamCandidateScores S B k s)
      (beamPenalties S k alpha beta s)).getD b []).length = k * k := by
    intro b hb
    have hb2 : b < (zipWith2d (· * ·) (beamCandidateScores S B k s)
        (beamPenalties S k alpha beta s)).length := by omega
    rw [List.getD_eq_getElem _ _ hb2]
    exact hprodR _ (List.getElem_mem _)
  have hseleq : ∀ b < B, (beamTopIndices S B k alpha beta s).getD b [] =
      tfTopKIndices k ((zipWith2d (· * ·) (beamCandidateScores S B k s)
        (beamPenalties S k alpha beta s)).getD b []) :=
    fun b hb => beamTopIndices_getD hs1 hp1 hb
  have hselLen : ∀ b < B,
      ((beamTopIndices S B k alpha beta s).getD b []).length = k := by
    intro b hb
    rw [hseleq b hb, (tfTopKIndices_facts k _).1, hprow b hb]
    exact min_eq_left hkkk
  have hw1 : tfShape1 s.decoder_input ≠ 1 := by
    have := hP.twoLe
    rw [hP.width]
    omega
  refine ⟨?_, ?_, ?_⟩
  · intro b hb
    refine ⟨hselLen b hb, ?_⟩
    intro i hi
    rw [hseleq b hb] at hi
    have := (tfTopKIndices_facts k _).2.2.1 i hi
    rwa [hprow b hb] at this
  · intro b hb
    rw [beamBody_else_lp hw1, getD_zipWith (by omega) (by omega) [] [] []]
  · intro b hb j hj
    rw [beamBody_else_dec hw1]
    have hZrows : ∀ r ∈ List.zipWith
        (fun grp idxs => idxs.map fun i => grp.getD i [])
        (beamCandidates S k s) (beamTopIndices S B k alpha beta s),
        r.length = k := by
      intro r hr
      obtain ⟨n, hn, he⟩ := List.mem_iff_getElem.mp hr
      have hn1 : n < (beamCandidates S k s).length := by
        rw [List.length_zipWith] at hn
        omega
      have hn2 : n < (beamTopIndices S B k alpha beta s).length := by
        rw [List.length_zipWith] at hn
        omega
      rw [List.getElem_zipWith] at he
      rw [← he, List.length_map]
      have hnB : n < B := by omega
      have hlen := hselLen n hnB
      rwa [List.getD_eq_getElem _ _ hn2] at hlen
    have hZlen : (List.zipWith
        (fun grp idxs => idxs.map fun i => grp.getD i [])
        (beamCandidates S k s)
        (beamTopIndices S B k alpha beta s)).length = B := by
      rw [List.length_zipWith, hc1, htl, min_self]
    rw [flatten_uniform_getD hZrows (by omega) hj [],
      getD_zipWith (by omega) (by omega) [] [] [],
      getD_map (by rw [hselLen b hb]; exact hj) 0 []]

theorem beamBody_else_one {S : Searcher} {B w : ℕ} {alpha beta : ℤ}
    {s : BeamState} (hB : 1 ≤ B)
    (hv : ∀ e d, 1 ≤ (S.model e d).length) (hP : BeamPost S B 1 w s) :
    ∀ b < B,
      (beamBody S B 1 alpha beta s).decoder_input.getD b [] =
        s.decoder_input.getD b [] ++
          [(((tfTopK 1 (S.model (s.encoder_input.getD b [])
            (s.decoder_input.getD b []))).getD 0 (0, 0)).1 : ℤ)] ∧
      (beamBody S B 1 alpha beta s).log_perplexity.getD b [] =
        [(if (s.decoder_input.getD b []).any (· == S.eos_id) then 0
          else ((tfTopK 1 (S.model (s.encoder_input.getD b [])
            (s.decoder_input.getD b []))).getD 0 (0, 0)).2) +
          (s.log_perplexity.getD b []).getD 0 0] := by
  intro b hb
  obtain ⟨hsel, hlpg, hdecg⟩ := beamBody_gather hB le_rfl hv hP
  obtain ⟨hsl, hbnd⟩ := hsel b hb
  obtain ⟨x, hx⟩ := List.length_eq_one.mp hsl
  have hx0 : x = 0 := by
    have hxm : x ∈ (beamTopIndices S B 1 alpha beta s).getD b [] := by
      rw [hx]
      simp
    have := hbnd x hxm
    omega
  subst hx0
  obtain ⟨hs1, hs2, hsE⟩ := beamCandidateScores_shape hB le_rfl le_rfl hv
    hP.lenEnc hP.lenDec hP.lenLp hP.lpRow
  obtain ⟨hc1, hc2, hc3, hc4⟩ := beamCandidates_shape hB le_rfl hv hP.lenEnc
    hP.lenDec (fun r hr => (hP.rows r hr).1)
  have hE := hsE b hb 0 (by omega)
  have hC := hc4 b hb 0 (by omega)
  simp only [Nat.mul_one, Nat.zero_div, Nat.add_zero, Nat.zero_mod] at hE hC
  constructor
  · have hd := hdecg b hb 0 (by omega)
    simp only [Nat.mul_one, Nat.add_zero] at hd
    rw [hd, hx]
    simpa using hC
  · have hl := hlpg b hb
    rw [hl, hx]
    simp only [List.map_cons, List.map_nil]
    rw [hE]

theorem beamBody_if_eq {S : Searcher} {B : ℕ} {alpha beta : ℤ}
    {s : BeamState} (hw : tfShape1 s.decoder_input = 1) :
    beamBody S B 1 alpha beta s =
      { encoder_input := s.encoder_input,
        decoder_input := List.zipWith (fun x t => [x, t])
          (List.replicate (B * 1) S.bos_id) (beamNewTokens S 1 s),
        log_perplexity := beamCandidateScores S B 1 s } := by
  rw [beamBody, if_pos hw, tfRepeatEach_one]

theorem beamBody_if_one {S : Searcher} {B : ℕ} {alpha beta : ℤ}
    {s : BeamState} (hw : tfShape1 s.decoder_input = 1) (hB : 1 ≤ B)
    (henc : s.encoder_input.length = B)
    (hdec : s.decoder_input.length = B)
    (hlp : s.log_perplexity.length = B)
    (hlpr : ∀ r ∈ s.log_perplexity, r.length = 1)
    (hv : ∀ e d, 1 ≤ (S.model e d).length) :
    (beamBody S B 1 alpha beta s).encoder_input = s.encoder_input ∧
    (beamBody S B 1 alpha beta s).decoder_input.length = B ∧
    (beamBody S B 1 alpha beta s).log_perplexity.length = B ∧
    (∀ r ∈ (beamBody S B 1 alpha beta s).log_perplexity, r.length = 1) ∧
    ∀ i < B,
      (beamBody S B 1 alpha beta s).decoder_input.getD i [] =
        [S.bos_id, (((tfTopK 1 (S.model (s.encoder_input.getD i [])
          (s.decoder_input.getD i []))).getD 0 (0, 0)).1 : ℤ)] ∧
      (beamBody S B 1 alpha beta s).log_perplexity.getD i [] =
        [(if (s.decoder_input.getD i []).any (· == S.eos_id) then 0
          else ((tfTopK 1 (S.model (s.encoder_input.getD i [])
            (s.decoder_input.getD i []))).getD 0 (0, 0)).2) +
          (s.log_perplexity.getD i []).getD 0 0] := by
  have hencB : s.encoder_input.length = B * 1 := by rw [henc, Nat.mul_one]
  have hdecB : s.decoder_input.length = B * 1 := by rw [hdec, Nat.mul_one]
  obtain ⟨hs1, hs2, hsE⟩ := beamCandidateScores_shape hB le_rfl le_rfl hv
    hencB hdecB hlp hlpr
  have hnt : (beamNewTokens S 1 s).length = B * 1 :=
    beamNewTokens_length henc hdec hv
  refine ⟨?_, ?_, ?_, ?_, ?_⟩
  · simp only [beamBody_if_eq hw]
  · simp only [beamBody_if_eq hw]
    rw [List.length_zipWith, List.length_replicate, hnt, min_self,
      Nat.mul_one]
  · simp only [beamBody_if_eq hw]
    exact hs1
  · simp only [beamBody_if_eq hw]
    intro r hr
    have := hs2 r hr
    omega
  · intro i hi
    constructor
    · simp only [beamBody_if_eq hw]
      have hrep := getD_replicate (n := B * 1) (i := i) (by omega)
        S.bos_id (0 : ℤ)
      rw [getD_zipWith (by rw [List.length_replicate]; omega)
        (by rw [hnt]; omega) 0 0 [], hrep]
      have hnti := beamNewTokens_getD (j := 0) henc hdec hv hi (by omega)
      simp only [Nat.mul_one, Nat.add_zero] at hnti
      rw [hnti]
    · simp only [beamBody_if_eq hw]
      have hrl : ((beamCandidateScores S B 1 s).getD i []).length = 1 := by
        have hilen : i < (beamCandidateScores S B 1 s).length := by omega
        rw [List.getD_eq_getElem _ _ hilen]
        have h2 := hs2 _ (List.getElem_mem hilen)
        omega
      obtain ⟨y, hy⟩ := List.length_eq_one.mp hrl
      have hE := hsE i hi 0 (by omega)
      simp only [Nat.mul_one, Nat.zero_div, Nat.add_zero, Nat.zero_mod] at hE
      rw [hy] at hE
      simp only [List.getD_cons_zero] at hE
      rw [hy, hE]

theorem couple_row_any {S : Searcher} {w : ℕ} {dg db : List ℤ} {e : Bool}
    {lpg lpb : ℚ} {slg : ℤ}
    (hrow : CoupleRow S w dg e lpg slg db lpb) :
    db.any (· == S.eos_id) = e := by
  cases e with
  | false =>
    obtain ⟨hdgdb, hnoeos, _⟩ := hrow.active rfl
    cases hany : db.any (· == S.eos_id) with
    | false => rfl
    | true =>
      obtain ⟨j, hj, hje⟩ := (any_beq_iff _ _).mp hany
      have hlb := hrow.lenB
      have hjw : j < w := by omega
      have := hnoeos j hjw
      rw [hdgdb] at this
      exact absurd hje this
  | true =>
    obtain ⟨p, hp1, hpw, hpre, hpeos, _, _, _⟩ := hrow.ended rfl
    have hlb := hrow.lenB
    refine (any_beq_iff _ _).mpr ⟨p, by omega, ?_⟩
    rw [← hpre p le_rfl]
    exact hpeos

theorem hasEos_eq_is_ended {S : Searcher} {enc : List (List ℤ)}
    {g : GreedyState} {b : BeamState} (hI : CoupleInv S enc g b) :
    hasEos S.eos_id b.decoder_input = g.is_ended := by
  refine List.ext_getElem ?_ ?_
  · rw [hasEos, List.length_map, hI.lenDecB, hI.lenEnd]
  · intro i h1 h2
    have hiB : i < enc.length := by
      rw [hI.lenEnd] at h2
      exact h2
    have hib : i < b.decoder_input.length := by
      rw [hI.lenDecB]
      exact hiB
    rw [← List.getD_eq_getElem _ false h1, ← List.getD_eq_getElem _ false h2,
      hasEos, getD_map hib [] false]
    exact couple_row_any (hI.rows i hiB)

theorem couple_cond {S : Searcher} {enc : List (List ℤ)} {g : GreedyState}
    {b : BeamState} (hI : CoupleInv S enc g b) :
    greedyCond S g = beamCond S b := by
  rw [greedyCond, beamCond, hI.widthEq, hasEos_eq_is_ended hI,
    not_all_eq_any_not]

theorem couple_init (S : Searcher) (enc : List (List ℤ))
    (hbe : S.bos_id ≠ S.eos_id) :
    CoupleInv S enc (greedyInit S enc.length) (beamInit S enc) := by
  have hsh : 1 ≤ enc.length →
      tfShape1 (greedyInit S enc.length).decoder_input = 1 := by
    intro hB
    unfold tfShape1 greedyInit
    rw [headI_eq_getD_nil, getD_replicate (by omega)]
    rfl
  refine ⟨rfl, by simp [greedyInit], by simp [greedyInit],
    by simp [greedyInit], by simp [greedyInit], by simp [beamInit],
    by simp [beamInit], ?_, rfl, (GInv_greedyInit S enc.length).widthPos,
    (GInv_greedyInit S enc.length).widthMax, ?_⟩
  · intro r hr
    rw [List.eq_of_mem_replicate hr]
    rfl
  · intro i hi
    have hB : 1 ≤ enc.length := by omega
    have hdg : (greedyInit S enc.length).decoder_input.getD i [] =
        [S.bos_id] := getD_replicate hi _ _
    have hdb : (beamInit S enc).decoder_input.getD i [] = [S.bos_id] :=
      getD_replicate hi _ _
    have he : (greedyInit S enc.length).is_ended.getD i false = false :=
      getD_replicate hi _ _
    have hlpg : (greedyInit S enc.length).log_perplexity.getD i 0 = 0 :=
      getD_replicate hi _ _
    have hlpb : (beamInit S enc).log_perplexity.getD i [] = [(0 : ℚ)] :=
      getD_replicate hi _ _
    have hslg : (greedyInit S enc.length).sequence_lengths.getD i 0 =
        S.max_sequence_length := getD_replicate hi _ _
    rw [hsh hB, hdg, hdb, he, hlpg, hlpb, hslg]
    refine ⟨rfl, rfl, by simp, ?_, ?_⟩
    · intro _
      refine ⟨rfl, ?_, rfl⟩
      intro j hj
      have hj0 : j = 0 := by omega
      subst hj0
      simpa using hbe
    · intro h
      simp at h

theorem couple_row_active {S : Searcher} {w : ℕ} {dg db : List ℤ}
    {lpg lpb : ℚ} {slg : ℤ} {erow : List ℤ}
    (hne : S.model erow db ≠ []) (hw : 1 ≤ w)
    (hrow : CoupleRow S w dg false lpg slg db lpb) :
    CoupleRow S (w + 1)
      (dg ++ [greedyStepToken S erow dg])
      (decide (greedyStepToken S erow dg = S.eos_id))
      (lpg + greedyStepValue S erow dg)
      (if greedyStepToken S erow dg = S.eos_id then (w : ℤ) + 1 else slg)
      (db ++ [(((tfTopK 1 (S.model erow db)).getD 0 (0, 0)).1 : ℤ)])
      (((tfTopK 1 (S.model erow db)).getD 0 (0, 0)).2 + lpb) := by
  obtain ⟨hdgdb, hnoeos, hslg⟩ := hrow.active rfl
  subst hdgdb
  obtain ⟨ht, hv2⟩ := tfTopK_one_getD hne
  have htok : (((tfTopK 1 (S.model erow dg)).getD 0 (0, 0)).1 : ℤ) =
      greedyStepToken S erow dg := by
    rw [greedyStepToken, ht]
  have hval : ((tfTopK 1 (S.model erow dg)).getD 0 (0, 0)).2 =
      greedyStepValue S erow dg := by
    rw [greedyStepValue, hv2]
  rw [htok, hval]
  have hlg := hrow.lenG
  by_cases he2 : greedyStepToken S erow dg = S.eos_id
  · have hd : decide (greedyStepToken S erow dg = S.eos_id) = true := by
      simp [he2]
    rw [hd, if_pos he2]
    refine ⟨by simp [hlg], by simp [hlg], by rw [hrow.lpEq]; ring,
      fun h => by simp at h, fun _ => ?_⟩
    refine ⟨w, hw, by omega, fun j hj => rfl, ?_, ?_, ?_, rfl⟩
    · rw [getD_append_right (by omega) (by rw [hlg]; simp)]
      have h0 : w - dg.length = 0 := by omega
      rw [h0]
      simpa using he2
    · intro j hj
      rw [getD_append_left (by omega)]
      exact hnoeos j hj
    · intro j hj1 hj2
      omega
  · have hd : decide (greedyStepToken S erow dg = S.eos_id) = false := by
      simp [he2]
    rw [hd, if_neg he2]
    refine ⟨by simp [hlg], by simp [hlg], by rw [hrow.lpEq]; ring,
      fun _ => ⟨rfl, ?_, hslg⟩, fun h => by simp at h⟩
    intro j hj
    rcases Nat.lt_or_ge j w with hlt | hge
    · rw [getD_append_left (by omega)]
      exact hnoeos j hlt
    · have hj3 : j = w := by omega
      rw [hj3, getD_append_right (by omega) (by rw [hlg]; simp)]
      have h0 : w - dg.length = 0 := by omega
      rw [h0]
      simpa using he2

theorem couple_row_ended {S : Searcher} {w : ℕ} {dg db : List ℤ}
    {lpg lpb : ℚ} {slg : ℤ}
    (hpe : S.pad_id ≠ S.eos_id)
    (hrow : CoupleRow S w dg true lpg slg db lpb) (btok : ℤ) :
    CoupleRow S (w + 1) (dg ++ [S.pad_id]) true lpg slg (db ++ [btok])
      lpb := by
  obtain ⟨p, hp1, hpw, hpre, hpeos, hfirst, hpad, hslg⟩ := hrow.ended rfl
  have hlg := hrow.lenG
  have hlb := hrow.lenB
  refine ⟨by simp [hlg], by simp [hlb], hrow.lpEq,
    fun h => by simp at h, fun _ => ?_⟩
  refine ⟨p, hp1, by omega, ?_, ?_, ?_, ?_, hslg⟩
  · intro j hj
    rw [getD_append_left (by omega), getD_append_left (by omega)]
    exact hpre j hj
  · rw [getD_append_left (by omega)]
    exact hpeos
  · intro j hj
    rw [getD_append_left (by omega)]
    exact hfirst j hj
  · intro j hj1 hj2
    rcases Nat.lt_or_ge j w with hlt | hge
    · rw [getD_append_left (by omega)]
      exact hpad j hj1 hlt
    · have hj3 : j = w := by omega
      rw [hj3, getD_append_right (by omega) (by rw [hlg]; simp)]
      have h0 : w - dg.length = 0 := by omega
      rw [h0]
      rfl


theorem couple_step {S : Searcher} {enc : List (List ℤ)} {alpha beta : ℤ}
    {g : GreedyState} {b : BeamState}
    (hpe : S.pad_id ≠ S.eos_id)
    (hv : ∀ e d, 1 ≤ (S.model e d).length)
    (hG : GInv S enc.length g) (hI : CoupleInv S enc g b)
    (hc : greedyCond S g = true) :
    CoupleInv S enc (greedyBody S enc g)
      (beamBody S enc.length 1 alpha beta b) := by
  have hB : 1 ≤ enc.length := greedyCond_B_pos hI.lenEnd hc
  have hwpos : 1 ≤ tfShape1 g.decoder_input := hI.widthPos hB
  have hwlt := (greedyCond_elim hc).1
  have hweq := hI.widthEq
  obtain ⟨hgl1, hgl2, hgl3, hgl4⟩ := greedyBody_lengths S enc g enc.length
    rfl hI.lenDecG hI.lenEnd hI.lenLpG hI.lenSl
  have hgw := tfShape1_greedyBody S enc g enc.length rfl hI.lenDecG
    hI.lenEnd hI.lenLpG hI.lenSl hB
  by_cases hw1 : tfShape1 b.decoder_input = 1
  · -- first expansion step (`search.py:139-146`)
    obtain ⟨hbe0, hbl, hll, hlr, hper⟩ :=
      @beamBody_if_one S enc.length alpha beta b hw1 hB
      (by rw [hI.encEq]) hI.lenDecB hI.lenLpB hI.lpRowB hv
    have hwg1 : tfShape1 g.decoder_input = 1 := by rw [hweq]; exact hw1
    have hrows2 : ∀ r ∈ (beamBody S enc.length 1 alpha beta
        b).decoder_input, r.length = 2 := by
      intro r hr
      obtain ⟨n, hn, he⟩ := List.mem_iff_getElem.mp hr
      have hnB : n < enc.length := by omega
      rw [← he, ← List.getD_eq_getElem _ [] hn, (hper n hnB).1]
      rfl
    refine ⟨by rw [hbe0]; exact hI.encEq, hgl1, hgl2, hgl3, hgl4, hbl, hll,
      hlr, ?_, ?_, ?_, ?_⟩
    · rw [hgw, hwg1, tfShape1_of_rows (by omega) hrows2]
    · intro _
      rw [hgw]
      omega
    · rw [hgw, hwg1]
      push_cast
      have := le_max_right (1 : ℤ) S.max_sequence_length
      rw [hwg1] at hwlt
      push_cast at hwlt
      omega
    · intro i hi
      obtain ⟨hgdd, hgde, hgdl, hgds⟩ := greedyBody_getD S enc g enc.length
        rfl hI.lenDecG hI.lenEnd hI.lenLpG hI.lenSl i hi
      have hrow := hI.rows i hi
      have hef : g.is_ended.getD i false = false := by
        cases hee : g.is_ended.getD i false with
        | false => rfl
        | true =>
          obtain ⟨p, hp1, hpw, _⟩ := hrow.ended hee
          rw [hwg1] at hpw
          omega
      obtain ⟨hdgdb, hnoeos, hslg⟩ := hrow.active hef
      have hbos := (hG.rows i hi).headBos
      obtain ⟨x, hx⟩ := List.length_eq_one.mp
        (by rw [hrow.lenG, hwg1] : (g.decoder_input.getD i []).length = 1)
      have hxbos : x = S.bos_id := by
        rw [hx] at hbos
        simpa using hbos
      have hdgbos : g.decoder_input.getD i [] = [S.bos_id] := by
        rw [hx, hxbos]
      have hdbbos : b.decoder_input.getD i [] = [S.bos_id] := by
        rw [← hdgdb]
        exact hdgbos
      have hanyb : (b.decoder_input.getD i []).any (· == S.eos_id) =
          false := by
        rw [couple_row_any hrow, hef]
      rw [hgw, hwg1, hgdd, hgde, hgdl, hgds, hef, (hper i hi).1,
        (hper i hi).2, hanyb]
      simp only [show (false = true) = False from by simp, if_false,
        Bool.false_or, List.getD_cons_zero]
      rw [hwg1, hdgbos, hdbbos, hI.encEq]
      rw [hef, hwg1, hdgbos, hdbbos] at hrow
      have hcons : ∀ t : ℤ, [S.bos_id, t] = [S.bos_id] ++ [t] := fun t => rfl
      rw [hcons]
      exact couple_row_active (model_ne_nil hv _ _) le_rfl hrow
  · -- later steps (`search.py:147-173`)
    have h2w : 2 ≤ tfShape1 b.decoder_input := by
      rw [← hweq]
      rw [← hweq] at hw1
      omega
    have hbrow : ∀ n < enc.length,
        (b.decoder_input.getD n []).length = tfShape1 b.decoder_input ∧
        (b.decoder_input.getD n []).getD 0 0 = S.bos_id := by
      intro n hn
      have hrown := hI.rows n hn
      refine ⟨by rw [hrown.lenB, hweq], ?_⟩
      cases hee : g.is_ended.getD n false with
      | false =>
        obtain ⟨hdgdb, _, _⟩ := hrown.active hee
        rw [← hdgdb]
        exact (hG.rows n hn).headBos
      | true =>
        obtain ⟨p, hp1, hpw, hpre, _, _, _, _⟩ := hrown.ended hee
        rw [← hpre 0 (by omega)]
        exact (hG.rows n hn).headBos
    have hP : BeamPost S enc.length 1 (tfShape1 b.decoder_input) b := by
      refine ⟨by rw [hI.encEq, Nat.mul_one], by rw [hI.lenDecB, Nat.mul_one],
        hI.lenLpB, hI.lpRowB, rfl, h2w, ?_⟩
      intro r hr
      obtain ⟨n, hn, he⟩ := List.mem_iff_getElem.mp hr
      have hnB : n < enc.length := by
        have := hI.lenDecB
        omega
      rw [← he, ← List.getD_eq_getElem _ [] hn]
      exact hbrow n hnB
    have helse := @beamBody_else_one S enc.length
      (tfShape1 b.decoder_input) alpha beta b hB hv hP
    have hPnew := @beamPost_step S enc.length 1
      (tfShape1 b.decoder_input) alpha beta b hB le_rfl hv hP
    refine ⟨by rw [beamBody_else_enc hw1]; exact hI.encEq, hgl1, hgl2, hgl3,
      hgl4, ?_, hPnew.lenLp, ?_, ?_, ?_, ?_, ?_⟩
    · have := hPnew.lenDec
      omega
    · exact hPnew.lpRow
    · rw [hgw, hPnew.width, hweq]
    · intro _
      rw [hgw]
      omega
    · rw [hgw]
      push_cast
      have := le_max_right (1 : ℤ) S.max_sequence_length
      push_cast at hwlt
      omega
    · intro i hi
      obtain ⟨hgdd, hgde, hgdl, hgds⟩ := greedyBody_getD S enc g enc.length
        rfl hI.lenDecG hI.lenEnd hI.lenLpG hI.lenSl i hi
      have hrow := hI.rows i hi
      obtain ⟨hdnew, hlnew⟩ := helse i hi
      have hanyb := couple_row_any hrow
      cases hee : g.is_ended.getD i false with
      | false =>
        rw [hee] at hanyb
        rw [hgw, hgdd, hgde, hgdl, hgds, hee, hdnew, hlnew, hanyb]
        simp only [show (false = true) = False from by simp, if_false,
          Bool.false_or, List.getD_cons_zero]
        rw [hI.encEq]
        rw [hee] at hrow
        exact couple_row_active (model_ne_nil hv _ _) hwpos hrow
      | true =>
        rw [hee] at hanyb
        rw [hgw, hgdd, hgde, hgdl, hgds, hee, hdnew, hlnew, hanyb]
        simp only [show (true = true) = True from by simp, if_true,
          Bool.true_or, List.getD_cons_zero, zero_add]
        rw [if_neg hpe]
        rw [hee] at hrow
        exact couple_row_ended hpe hrow _

theorem couple_loop {S : Searcher} {enc : List (List ℤ)} {alpha beta : ℤ}
    (hbe : S.bos_id ≠ S.eos_id) (hpe : S.pad_id ≠ S.eos_id)
    (hv : ∀ e d, 1 ≤ (S.model e d).length) :
    ∀ n : ℕ,
      CoupleInv S enc
        (tfWhileLoop (greedyCond S) (greedyBody S enc) n
          (greedyInit S enc.length))
        (tfWhileLoop (beamCond S) (beamBody S enc.length 1 alpha beta) n
          (beamInit S enc)) ∧
      GInv S enc.length (tfWhileLoop (greedyCond S) (greedyBody S enc) n
        (greedyInit S enc.length)) := by
  intro n
  induction n with
  | zero => exact ⟨couple_init S enc hbe, GInv_greedyInit S enc.length⟩
  | succ n ih =>
    obtain ⟨hI, hG⟩ := ih
    rw [tfWhileLoop_add (greedyCond S) (greedyBody S enc) n 1,
      tfWhileLoop_add (beamCond S) (beamBody S enc.length 1 alpha beta) n 1]
    by_cases hc : greedyCond S (tfWhileLoop (greedyCond S)
        (greedyBody S enc) n (greedyInit S enc.length)) = true
    · have hcb : beamCond S (tfWhileLoop (beamCond S)
          (beamBody S enc.length 1 alpha beta) n (beamInit S enc)) =
          true := by
        rw [← couple_cond hI]
        exact hc
      rw [tfWhileLoop_cond_true hc, tfWhileLoop_cond_true hcb]
      simp only [tfWhileLoop]
      exact ⟨couple_step hpe hv hG hI hc, GInv_greedyBody rfl hG hc⟩
    · have hcf : greedyCond S (tfWhileLoop (greedyCond S)
          (greedyBody S enc) n (greedyInit S enc.length)) = false := by
        simpa using hc
      have hcbf : beamCond S (tfWhileLoop (beamCond S)
          (beamBody S enc.length 1 alpha beta) n (beamInit S enc)) =
          false := by
        rw [← couple_cond hI]
        exact hcf
      rw [tfWhileLoop_of_cond_false hcf, tfWhileLoop_of_cond_false hcbf]
      exact ⟨hI, hG⟩

theorem couple_final {S : Searcher} {enc : List (List ℤ)} {alpha beta : ℤ}
    (hbe : S.bos_id ≠ S.eos_id) (hpe : S.pad_id ≠ S.eos_id)
    (hv : ∀ e d, 1 ≤ (S.model e d).length) :
    CoupleInv S enc (S.greedy_search enc)
      (beamFinal S enc 1 alpha beta) :=
  (couple_loop hbe hpe hv S.max_sequence_length.toNat).1


/-- **C1**: for every model and encoder input (with distinct `bos`/`eos`,
`pad ≠ eos`, a positive length cap and a nonempty vocabulary),
`beam_search` with `beam_size = 1` returns a top beam whose token
sequence, sequence length and cumulative log-probability all equal those
of `greedy_search` on the same input, and the returned perplexities agree
exactly. -/
theorem claim_C1 (S : Searcher) (enc : List (List ℤ)) (alpha beta : ℤ)
    (hbe : S.bos_id ≠ S.eos_id) (hpe : S.pad_id ≠ S.eos_id)
    (hml : 1 ≤ S.max_sequence_length)
    (hv : ∀ e d, 1 ≤ (S.model e d).length) :
    ∀ i < enc.length,
      ((S.beam_search enc 1 alpha beta).decoder_input.getD i []).getD 0
        [] = (S.greedy_search enc).decoder_input.getD i [] ∧
      ((S.beam_search enc 1 alpha beta).sequence_lengths.getD i []).getD 0
        0 = (S.greedy_search enc).sequence_lengths.getD i 0 ∧
      ((S.beam_search enc 1 alpha beta).log_perplexity.getD i []).getD 0
        0 = (S.greedy_search enc).log_perplexity.getD i 0 ∧
      ((S.beam_search_result enc 1 alpha beta).2.getD i []).getD 0 1 =
        (S.greedy_search_result enc).2.getD i 1 := by
  intro i hi
  have hI := @couple_final S enc alpha beta hbe hpe hv
  have hG := greedy_search_inv S enc
  have hcond := greedy_search_cond_false S enc
  have hrow := hI.rows i hi
  have hlb := hrow.lenB
  have hlg := hrow.lenG
  have hbd : i < (beamFinal S enc 1 alpha beta).decoder_input.length := by
    have := hI.lenDecB
    omega
  have hchl : (tfChunk 1 (beamFinal S enc 1 alpha
      beta).decoder_input).length =
      (beamFinal S enc 1 alpha beta).decoder_input.length := by
    rw [tfChunk_one, List.length_map]
  have hb2 : i < (tfChunk 1 (beamFinal S enc 1 alpha
      beta).decoder_input).length := by omega
  have hchunk : (tfChunk 1 (beamFinal S enc 1 alpha
      beta).decoder_input).getD i [] =
      [(beamFinal S enc 1 alpha beta).decoder_input.getD i []] := by
    rw [tfChunk_one, getD_map hbd [] []]
  have hjb2 : 0 < ((tfChunk 1 (beamFinal S enc 1 alpha
      beta).decoder_input).getD i []).length := by
    rw [hchunk]
    simp
  have hgd := beam_search_getD S enc 1 alpha beta hb2 hjb2
  have hrowEq : ((tfChunk 1 (beamFinal S enc 1 alpha
      beta).decoder_input).getD i []).getD 0 [] =
      (beamFinal S enc 1 alpha beta).decoder_input.getD i [] := by
    rw [hchunk]
    rfl
  rw [hrowEq] at hgd
  -- the cumulative log-probabilities agree
  have hlpb : (S.beam_search enc 1 alpha beta).log_perplexity =
      (beamFinal S enc 1 alpha beta).log_perplexity := by
    rw [beam_search_eq]
  have hlp_eq : ((S.beam_search enc 1 alpha beta).log_perplexity.getD i
      []).getD 0 0 = (S.greedy_search enc).log_perplexity.getD i 0 := by
    rw [hlpb]
    exact hrow.lpEq.symm
  -- tokens and sequence lengths agree
  have hpair :
      ((S.beam_search enc 1 alpha beta).decoder_input.getD i []).getD 0
        [] = (S.greedy_search enc).decoder_input.getD i [] ∧
      ((S.beam_search enc 1 alpha beta).sequence_lengths.getD i []).getD 0
        0 = (S.greedy_search enc).sequence_lengths.getD i 0 := by
    cases hee : (S.greedy_search enc).is_ended.getD i false with
    | false =>
      obtain ⟨hdgdb, hnoeos, hslg⟩ := hrow.active hee
      have hnone : ∀ j < ((beamFinal S enc 1 alpha
          beta).decoder_input.getD i []).length,
          ((beamFinal S enc 1 alpha beta).decoder_input.getD i []).getD j
            0 ≠ S.eos_id := by
        intro j hj
        have hj2 : j < tfShape1 (S.greedy_search enc).decoder_input := by
          omega
        have h2 := hnoeos j hj2
        rw [hdgdb] at h2
        exact h2
      have hall : ¬((S.greedy_search enc).is_ended.all id = true) := by
        intro hall
        have hiE : i < (S.greedy_search enc).is_ended.length := by
          rw [hI.lenEnd]
          omega
        have h2 := List.all_eq_true.mp hall _ (List.getElem_mem hiE)
        rw [← List.getD_eq_getElem _ false hiE] at h2
        rw [hee] at h2
        simp at h2
      have hnall : (!(S.greedy_search enc).is_ended.all id) = true := by
        cases h : (S.greedy_search enc).is_ended.all id with
        | false => rfl
        | true => exact absurd h hall
      have hcnd2 : ¬(greedyCond S (S.greedy_search enc) = true) := by
        rw [hcond]
        simp
      rw [greedyCond, Bool.and_eq_true] at hcnd2
      have hnlt : ¬(decide ((tfShape1 (S.greedy_search
          enc).decoder_input : ℤ) < S.max_sequence_length) = true) :=
        fun hd => hcnd2 ⟨hd, hnall⟩
      have hnlt2 : ¬((tfShape1 (S.greedy_search enc).decoder_input : ℤ) <
          S.max_sequence_length) := by simpa using hnlt
      have h4 := hI.widthMax
      rw [max_eq_right hml] at h4
      have hwmax : (tfShape1 (S.greedy_search enc).decoder_input : ℤ) =
          S.max_sequence_length := by omega
      have hts : toSequenceLength S.eos_id ((beamFinal S enc 1 alpha
          beta).decoder_input.getD i []) =
          (S.greedy_search enc).sequence_lengths.getD i 0 := by
        rw [toSequenceLength_no_eos hnone, hslg, hlb]
        exact hwmax
      constructor
      · rw [hgd.1,
          mask_row_of_ge (le_of_eq (toSequenceLength_no_eos hnone).symm)]
        exact hdgdb.symm
      · rw [hgd.2]
        exact hts
    | true =>
      obtain ⟨p, hp1, hpw, hpre, hpeos, hfirst, hpad, hslg⟩ :=
        hrow.ended hee
      have hdbp : ((beamFinal S enc 1 alpha beta).decoder_input.getD i
          []).getD p 0 = S.eos_id := by
        rw [← hpre p le_rfl]
        exact hpeos
      have hdbfirst : ∀ q < p, ((beamFinal S enc 1 alpha
          beta).decoder_input.getD i []).getD q 0 ≠ S.eos_id := by
        intro q hq
        rw [← hpre q (le_of_lt hq)]
        exact hfirst q hq
      have hts : toSequenceLength S.eos_id ((beamFinal S enc 1 alpha
          beta).decoder_input.getD i []) = (p : ℤ) + 1 :=
        toSequenceLength_first_eos (by omega) hdbp hdbfirst
      constructor
      · rw [hgd.1, hts]
        refine List.ext_getElem (by rw [mask_row_length]; omega) ?_
        intro j h1 h2
        have hjdb : j < ((beamFinal S enc 1 alpha
            beta).decoder_input.getD i []).length := by
          rw [mask_row_length] at h1
          exact h1
        rw [← List.getD_eq_getElem _ 0 h1, ← List.getD_eq_getElem _ 0 h2,
          mask_row_getD hjdb]
        by_cases hjp : j ≤ p
        · rw [if_pos (by push_cast; omega)]
          exact (hpre j hjp).symm
        · rw [if_neg (by push_cast; omega)]
          exact (hpad j (by omega) (by omega)).symm
      · rw [hgd.2, hts, hslg]
  -- the perplexities agree
  have hslb : (S.beam_search enc 1 alpha beta).sequence_lengths.length =
      (tfChunk 1 (beamFinal S enc 1 alpha beta).decoder_input).length :=
    (beam_search_lengths S enc 1 alpha beta).2.1
  have hslrow : ((S.beam_search enc 1 alpha beta).sequence_lengths.getD i
      []).length = ((tfChunk 1 (beamFinal S enc 1 alpha
        beta).decoder_input).getD i []).length :=
    ((beam_search_lengths S enc 1 alpha beta).2.2 i hb2).2
  have hbl1 : i < (S.beam_search enc 1 alpha beta).log_perplexity.length := by
    rw [hlpb, hI.lenLpB]
    omega
  have hbl2 : 0 < ((S.beam_search enc 1 alpha
      beta).log_perplexity.getD i []).length := by
    rw [hlpb]
    have hilp : i < (beamFinal S enc 1 alpha
        beta).log_perplexity.length := by
      rw [hI.lenLpB]
      omega
    rw [List.getD_eq_getElem _ _ hilp,
      hI.lpRowB _ (List.getElem_mem hilp)]
    omega
  have hbl3 : i < (S.beam_search enc 1 alpha
      beta).sequence_lengths.length := by omega
  have hbl4 : 0 < ((S.beam_search enc 1 alpha
      beta).sequence_lengths.getD i []).length := by
    rw [hslrow, hchunk]
    simp
  have hbppl : ((S.beam_search_result enc 1 alpha beta).2.getD i
      []).getD 0 1 =
      tfPerplexity (((S.beam_search enc 1 alpha
          beta).log_perplexity.getD i []).getD 0 0)
        (((S.beam_search enc 1 alpha beta).sequence_lengths.getD i
          []).getD 0 0) := by
    simp only [Searcher.beam_search_result]
    exact zipWith2d_getD_of_lt hbl1 hbl3 hbl2 hbl4 0 0 1
  have hgppl : (S.greedy_search_result enc).2.getD i 1 =
      tfPerplexity ((S.greedy_search enc).log_perplexity.getD i 0)
        ((S.greedy_search enc).sequence_lengths.getD i 0) := by
    have hilp : i < (S.greedy_search enc).log_perplexity.length := by
      rw [hG.lenLp]
      omega
    have hisl : i < (S.greedy_search enc).sequence_lengths.length := by
      rw [hG.lenSl]
      omega
    simp only [Searcher.greedy_search_result]
    rw [getD_zipWith hilp hisl 0 0 1]
  refine ⟨hpair.1, hpair.2, hlp_eq, ?_⟩
  rw [hbppl, hgppl, hlp_eq, hpair.2]

/-- Witness for `claim_C1` at the `demoSearcher` run on `[[7]]`. -/
theorem claim_C1_witness :
    (demoSearcher.bos_id ≠ demoSearcher.eos_id ∧
      demoSearcher.pad_id ≠ demoSearcher.eos_id ∧
      1 ≤ demoSearcher.max_sequence_length ∧
      (∀ e d, 1 ≤ (demoSearcher.model e d).length)) ∧
    (∀ i < ([[(7 : ℤ)]]).length,
      ((demoSearcher.beam_search [[7]] 1 1 32).decoder_input.getD i
        []).getD 0 [] =
        (demoSearcher.greedy_search [[7]]).decoder_input.getD i [] ∧
      ((demoSearcher.beam_search [[7]] 1 1 32).sequence_lengths.getD i
        []).getD 0 0 =
        (demoSearcher.greedy_search [[7]]).sequence_lengths.getD i 0 ∧
      ((demoSearcher.beam_search [[7]] 1 1 32).log_perplexity.getD i
        []).getD 0 0 =
        (demoSearcher.greedy_search [[7]]).log_perplexity.getD i 0 ∧
      ((demoSearcher.beam_search_result [[7]] 1 1 32).2.getD i []).getD 0
        1 = (demoSearcher.greedy_search_result [[7]]).2.getD i 1) :=
  ⟨⟨by decide, by decide, by decide, fun e d => by
      unfold demoSearcher demoModel
      simp only
      split <;> decide⟩,
    claim_C1 demoSearcher [[7]] 1 32 (by decide) (by decide) (by decide)
      (fun e d => by
        unfold demoSearcher demoModel
        simp only
        split <;> decide)⟩


end Seq2Seq
